import Mathlib

/-! Tempest extremes: detection kernels.

A shallow embedding of the grid kernels of `DetectCyclones.cpp` (the stencil
scans `FindAllLocalMinima` and `FindAllLocalMaxima`, the bounded breadth-first
search `FindLocalMaximum`, and the time loop of `main` with its warm-core and
Laplacian filters), of `SpineARs.cpp` (the Laplacian stencil, the threshold
tests and the minimum-area blob filter) and of `SimpleGrid.h` (the
latitude-longitude grid), followed by the properties established about them.

Conventions of the embedding:

* `int` indices are `Int`; `%` is only ever applied to a non-negative
  dividend, where C++ `%` and `Int.emod` agree.
* `float`/`double` values live in a linearly ordered type (no NaN); the
  great-circle formula is instantiated over the real numbers.
* `std::set< std::pair<int,int> >` is a strictly increasing list under the
  lexicographic order of `std::pair`; `begin()` is the head of the list.
* `DataMatrix<T>` / `DataVector<T>` are a size together with a total read
  function; the code only reads indices inside the size.
* The library `kdtree` is not part of the sources: the index and its query
  are modelled from the specification and marked so.
-/

namespace Tempest

/-! ## Data model -/

/-- A node as the `std::pair<int,int>` (row, column) used by the code. -/
abbrev Point := Int × Int

/-- The `DataMatrix<T>` of the code: `GetRows`, `GetColumns` and `data[j][i]`. -/
structure DataMatrix (V : Type) where
  nRows : Nat
  nCols : Nat
  val : Int → Int → V

/-- The `DataVector<T>` of the code: `GetRows` and `data[i]`. -/
structure DataVector (C : Type) where
  nRows : Nat
  val : Int → C

/-- The `n` consecutive integers starting at `lo`. -/
def intRangeFrom (lo : Int) : Nat → List Int
  | 0 => []
  | n + 1 => lo :: intRangeFrom (lo + 1) n

/-- The integers `lo, lo+1, ..., hi-1` visited by `for (int x = lo; x < hi; x++)`. -/
def intRange (lo hi : Int) : List Int := intRangeFrom lo (hi - lo).toNat

/-- In range for a grid of `nLat` rows and `nLon` columns. -/
def InGrid (nLat nLon : Int) (p : Point) : Prop :=
  0 ≤ p.1 ∧ p.1 < nLat ∧ 0 ≤ p.2 ∧ p.2 < nLon

instance (nLat nLon : Int) (p : Point) : Decidable (InGrid nLat nLon p) :=
  inferInstanceAs (Decidable (0 ≤ p.1 ∧ p.1 < nLat ∧ 0 ≤ p.2 ∧ p.2 < nLon))

/-- The comparison `operator<` of `std::pair<int,int>` (lexicographic). -/
def ptLt (a b : Point) : Bool :=
  decide (a.1 < b.1) || (decide (a.1 = b.1) && decide (a.2 < b.2))

/-- The operation `std::set::insert`: the element is placed at its sorted
position unless an equal element is already present. -/
def setInsert (a : Point) : List Point → List Point
  | [] => [a]
  | b :: s =>
    if ptLt a b then a :: b :: s
    else if a = b then b :: s
    else b :: setInsert a s

/-- The test `s.find(a) != s.end()`. -/
def setFind (a : Point) (s : List Point) : Bool := decide (a ∈ s)

/-- The operation `std::set::erase` of one element. -/
def setErase (a : Point) (s : List Point) : List Point := s.filter (fun b => !decide (b = a))

/-! ## `FindAllLocalMinima` (DetectCyclones.cpp, lines 41-102) -/

/-- The offsets `-1, 0, 1` run through by the loops over `q` and `p`. -/
def stencilOffsets : List Int := [-1, 0, 1]

/-- The value of `fMinimum` at label `DonePressureMinima` for node `(j, i)`:
it is cleared as soon as some stencil entry is strictly below `data[j][i]`. -/
def fMinimum {V : Type} [LinearOrder V] (data : DataMatrix V) (j i : Int) : Bool :=
  let nLon : Int := data.nCols
  stencilOffsets.all fun q =>
    stencilOffsets.all fun p =>
      let ix := (i + nLon + p) % nLon
      let jx := j + q
      !decide (data.val jx ix < data.val j i)

/-- The scan `FindAllLocalMinima(data, setMinima)`: rows `1 .. nLat-2`, all
columns; returns the final content of `setMinima`. -/
def FindAllLocalMinima {V : Type} [LinearOrder V] (data : DataMatrix V)
    (setMinima : List Point) : List Point :=
  let nLon : Int := data.nCols
  let nLat : Int := data.nRows
  (intRange 1 (nLat - 1)).foldl
    (fun s j =>
      (intRange 0 nLon).foldl
        (fun s i => if fMinimum data j i then setInsert (j, i) s else s) s)
    setMinima

/-! ## `FindLocalMaximum` (DetectCyclones.cpp, lines 179-269) -/

/-- How a call can fail to deliver a result: the exception thrown by
`_EXCEPTIONT`, or the embedding's loop budget running out. -/
inductive Failure where
  | exception (msg : String)
  | outOfFuel
  deriving DecidableEq, Repr

/-- The three reference outputs `prMaximum`, `dMaxValue`, `dRMax`. -/
structure MaxOutputs (V D : Type) where
  prMaximum : Point
  dMaxValue : V
  dRMax : D

/-- The variables of the `while` loop: the queue, the visited set and the
reference outputs. -/
structure SearchState (V D : Type) where
  queueNodes : List Point
  setNodesVisited : List Point
  out : MaxOutputs V D

/-- The exact great-circle distance in degrees: the formula of line 230,
`180/M_PI * acos(sin(lat0) sin(lat) + cos(lat0) cos(lat) cos(lon - lon0))`,
evaluated over the real numbers. The value `dR` that the code computes is the
same formula evaluated in double precision (`doubleGreatCircle`). -/
noncomputable def greatCircleDeg (dLat0 dLon0 dLatThis dLonThis : ℝ) : ℝ :=
  180 / Real.pi * Real.arccos (Real.sin dLat0 * Real.sin dLatThis
    + Real.cos dLat0 * Real.cos dLatThis * Real.cos (dLonThis - dLon0))

/-- One pass through the body of the `while` loop (lines 217-267), `pr` being
the front of the queue and `rest` the queue after `pop`. The distance `dR` of
a node to the origin is supplied by `dist`. -/
def searchBody {V D : Type} [LinearOrder V] [LinearOrder D] (data : DataMatrix V)
    (dist : Point → D) (nLat nLon : Int) (dMaxDist : D)
    (pr : Point) (rest : List Point) (st : SearchState V D) : SearchState V D :=
  if setFind pr st.setNodesVisited then
    { st with queueNodes := rest }
  else
    let visited := setInsert pr st.setNodesVisited
    let dR := dist pr
    if dR > dMaxDist then
      { queueNodes := rest, setNodesVisited := visited, out := st.out }
    else
      let out : MaxOutputs V D :=
        if data.val pr.1 pr.2 > st.out.dMaxValue then
          { prMaximum := pr, dMaxValue := data.val pr.1 pr.2, dRMax := dR }
        else st.out
      let prWest : Point := (pr.1, (pr.2 + nLon - 1) % nLon)
      let q1 := if !setFind prWest visited then rest ++ [prWest] else rest
      let prEast : Point := (pr.1, (pr.2 + 1) % nLon)
      let q2 := if !setFind prEast visited then q1 ++ [prEast] else q1
      let prNorth : Point := (pr.1 + 1, pr.2)
      let q3 := if decide (prNorth.1 < nLat) && !setFind prNorth visited
        then q2 ++ [prNorth] else q2
      let prSouth : Point := (pr.1 - 1, pr.2)
      let q4 := if decide (prSouth.1 ≥ 0) && !setFind prSouth visited
        then q3 ++ [prSouth] else q3
      { queueNodes := q4, setNodesVisited := visited, out := out }

/-- The `while (queueNodes.size() != 0)` loop, with a budget of iterations;
`none` when the budget runs out before the queue is empty. -/
def searchLoop {V D : Type} [LinearOrder V] [LinearOrder D] (data : DataMatrix V)
    (dist : Point → D) (nLat nLon : Int) (dMaxDist : D) :
    Nat → SearchState V D → Option (SearchState V D)
  | 0, _ => none
  | fuel + 1, st =>
    match st.queueNodes with
    | [] => some st
    | pr :: rest =>
      searchLoop data dist nLat nLon dMaxDist fuel
        (searchBody data dist nLat nLon dMaxDist pr rest st)

/-- The state in which the loop of `FindLocalMaximum` stops (lines 195-268),
for a call that got past the check of `dMaxDist`. The budget `4*nLat*nLon + 2`
is enough for every in-range seed (see `searchRun_isSome`). -/
def searchRun {V C D : Type} [LinearOrder V] [LinearOrderedRing D]
    (greatCircle : C → C → C → C → D) (data : DataMatrix V)
    (dataLon dataLat : DataVector C) (iLat iLon : Int) (dMaxDist : D) :
    Option (SearchState V D) :=
  let nLat : Int := dataLat.nRows
  let nLon : Int := dataLon.nRows
  let prMaximum : Point := (iLat, iLon)
  let dLat0 := dataLat.val iLat
  let dLon0 := dataLon.val iLon
  searchLoop data
    (fun pr => greatCircle dLat0 dLon0 (dataLat.val pr.1) (dataLon.val pr.2))
    nLat nLon dMaxDist (4 * dataLat.nRows * dataLon.nRows + 2)
    { queueNodes := [prMaximum], setNodesVisited := [],
      out := { prMaximum := prMaximum, dMaxValue := data.val iLat iLon, dRMax := 0 } }

/-- The call `FindLocalMaximum(data, dataLon, dataLat, iLat, iLon, dMaxDist,
prMaximum, dMaxValue, dRMax)`. The argument `out0` holds the values of the three
reference outputs before the call; the result is their values after the call
together with the failure raised, if any. The distance formula is the
parameter `greatCircle` (`greatCircleDeg` in the code). -/
def FindLocalMaximum {V C D : Type} [LinearOrder V] [LinearOrderedRing D]
    (greatCircle : C → C → C → C → D) (data : DataMatrix V)
    (dataLon dataLat : DataVector C) (iLat iLon : Int) (dMaxDist : D)
    (out0 : MaxOutputs V D) : MaxOutputs V D × Option Failure :=
  if dMaxDist > 180 then
    (out0, some (Failure.exception "MaxDist must be less than 180.0"))
  else
    match searchRun greatCircle data dataLon dataLat iLat iLon dMaxDist with
    | some st => (st.out, none)
    | none => (out0, some Failure.outOfFuel)

/-! ## `FindAllLocalMaxima` (DetectCyclones.cpp, lines 109-169) -/

/-- The value of `fMaximum` at label `DonePressureMaxima` for node `(j, i)`:
it is cleared as soon as some stencil entry is strictly above `data[j][i]`. -/
def fMaximum {V : Type} [LinearOrder V] (data : DataMatrix V) (j i : Int) : Bool :=
  let nLon : Int := data.nCols
  stencilOffsets.all fun q =>
    stencilOffsets.all fun p =>
      let ix := (i + nLon + p) % nLon
      let jx := j + q
      !decide (data.val jx ix > data.val j i)

/-- The scan `FindAllLocalMaxima(data, setMaxima)`: rows `1 .. nLat-2`, all
columns; returns the final content of `setMaxima`. -/
def FindAllLocalMaxima {V : Type} [LinearOrder V] (data : DataMatrix V)
    (setMaxima : List Point) : List Point :=
  let nLon : Int := data.nCols
  let nLat : Int := data.nRows
  (intRange 1 (nLat - 1)).foldl
    (fun s j =>
      (intRange 0 nLon).foldl
        (fun s i => if fMaximum data j i then setInsert (j, i) s else s) s)
    setMaxima

/-! ## The cyclone detector (DetectCyclones.cpp, `main`, lines 292-775)

The run is modelled from the parsed command line and the content of the input
file; the file accesses themselves are outside the model. All floating-point
quantities live in one ordered field `K`, and the functions of the C
mathematics library are the fields of `LibM`. -/

/-- The functions of the C mathematics library that `main` calls, and the
constant `M_PI`. -/
structure LibM (K : Type) where
  sin : K → K
  cos : K → K
  tan : K → K
  asin : K → K
  acos : K → K
  sqrt : K → K
  M_PI : K

/-- The mathematics library over the real numbers. -/
noncomputable def realLibM : LibM ℝ :=
  ⟨Real.sin, Real.cos, Real.tan, Real.arcsin, Real.arccos, Real.sqrt, Real.pi⟩

/-- The great-circle formula of line 230 written with the library `lib`. -/
def libGreatCircle {K : Type} [Field K] (lib : LibM K) (dLat0 dLon0 dLatThis dLonThis : K) : K :=
  180 / lib.M_PI * lib.acos (lib.sin dLat0 * lib.sin dLatThis
    + lib.cos dLat0 * lib.cos dLatThis * lib.cos (dLonThis - dLon0))

/-- The command-line options of `main` (lines 297-331). -/
structure DetectOptions (K : Type) where
  strInputFile : String
  strOutputFile : String
  dWarmCoreDist : K
  dNoWarmCoreDist : K
  dMinLaplacian : K
  dWindSpDist : K

/-- The checks of the options made before the input file is opened
(lines 337-352): the exception raised, if any. -/
def checkOptions {K : Type} [LinearOrderedField K] (opt : DetectOptions K) : Option Failure :=
  if opt.strInputFile.length = 0 then
    some (Failure.exception "No input file (--in) specified")
  else if opt.strOutputFile.length = 0 then
    some (Failure.exception "No output file (--out) specified")
  else if opt.dWarmCoreDist ≠ 0 ∧ opt.dNoWarmCoreDist ≠ 0 then
    some (Failure.exception "Only one of --warmcoredist and --nowarmcoredist may be active")
  else none

/-- How a run of `main` can stop early: a failure of one of the calls, or a
read of the position of a query result that holds no match. -/
inductive RunFailure where
  | raised (f : Failure)
  | nullResult
  deriving DecidableEq, Repr

/-- A point of three-dimensional space. -/
abbrev Vec3 (K : Type) := K × K × K

/-- The coordinates `dX, dY, dZ` of a node on the unit sphere
(lines 516-518, 531-533, 551-553). -/
def embed {K : Type} [Field K] (lib : LibM K) (dLat dLon : K) : Vec3 K :=
  (lib.sin dLon * lib.cos dLat, lib.cos dLon * lib.cos dLat, lib.sin dLat)

/-- The square of the straight-line distance from `q` to `pos`, in the form of
lines 568-570. -/
def chordSq {K : Type} [Field K] (q pos : Vec3 K) : K :=
  (q.1 - pos.1) * (q.1 - pos.1)
    + (q.2.1 - pos.2.1) * (q.2.1 - pos.2.1)
    + (q.2.2 - pos.2.2) * (q.2.2 - pos.2.2)

/-- Modelled from the spec: the index holds the embedded points handed to it;
`kd_insert3` adds one point (the library `kdtree` is not among the sources). -/
def kd_insert3 {K : Type} (tree : List (Vec3 K)) (x y z : K) : List (Vec3 K) :=
  tree ++ [(x, y, z)]

/-- Modelled from the spec: the query finds the nearest indexed point by
straight-line distance, and reports no match (`none`) on an index that holds
no point. -/
def kd_nearest3 {K : Type} [LinearOrderedField K] (tree : List (Vec3 K)) (x y z : K) :
    Option (Vec3 K) :=
  tree.foldl
    (fun best p =>
      match best with
      | none => some p
      | some b => if chordSq (x, y, z) p < chordSq (x, y, z) b then some p else some b)
    none

/-- The call `kd_res_item(res, pos)` as lines 561-562 make it, with no test of
`res` before it: the position of the match is copied out, and a result that
holds no match has no position to read. -/
def kd_res_item {K : Type} (res : Option (Vec3 K)) : Except RunFailure (Vec3 K) :=
  match res with
  | some pos => Except.ok pos
  | none => Except.error RunFailure.nullResult

/-- The index built by lines 510-524 (and 526-540) from a set of maxima. -/
def buildIndex {K : Type} [Field K] (lib : LibM K) (dataLat dataLon : DataVector K)
    (setMaxima : List Point) : List (Vec3 K) :=
  setMaxima.foldl
    (fun tree pr =>
      let dLat := dataLat.val pr.1
      let dLon := dataLon.val pr.2
      let dX := lib.sin dLon * lib.cos dLat
      let dY := lib.cos dLon * lib.cos dLat
      let dZ := lib.sin dLat
      kd_insert3 tree dX dY dZ)
    []

/-- The distance `dT200dist` (and `dT500dist`) of lines 567-579: the chord
from the query point `q` to the position `pos`, converted to degrees of arc. -/
def angularDist {K : Type} [Field K] (lib : LibM K) (q pos : Vec3 K) : K :=
  let d := lib.sqrt
    ((q.1 - pos.1) * (q.1 - pos.1)
      + (q.2.1 - pos.2.1) * (q.2.1 - pos.2.1)
      + (q.2.2 - pos.2.2) * (q.2.2 - pos.2.2))
  2 * lib.asin (0.5 * d) * 180 / lib.M_PI

/-- The variables the warm-core filter updates: `setNewPressureMinima` and the
two rejection counters. -/
structure WarmCoreState where
  setNewPressureMinima : List Point
  nRejectedWarmCore : Int
  nRejectedNoWarmCore : Int

/-- The two tests of lines 581-601 for the pressure minimum `pr`. -/
def warmCoreDecide {K : Type} [LinearOrderedField K] (opt : DetectOptions K) (pr : Point)
    (dT200dist dT500dist : K) (st : WarmCoreState) : WarmCoreState :=
  let st :=
    if opt.dNoWarmCoreDist ≠ 0 then
      if dT200dist ≥ opt.dNoWarmCoreDist ∨ dT500dist ≥ opt.dNoWarmCoreDist then
        { st with setNewPressureMinima := setInsert pr st.setNewPressureMinima }
      else
        { st with nRejectedWarmCore := st.nRejectedWarmCore + 1 }
    else st
  if opt.dWarmCoreDist ≠ 0 then
    if dT200dist ≤ opt.dWarmCoreDist ∧ dT500dist ≤ opt.dWarmCoreDist then
      { st with setNewPressureMinima := setInsert pr st.setNewPressureMinima }
    else
      { st with nRejectedNoWarmCore := st.nRejectedNoWarmCore + 1 }
  else st

/-- One pass through the body of the loop over the pressure minima
(lines 548-601). -/
def warmCoreStep {K : Type} [LinearOrderedField K] (lib : LibM K) (opt : DetectOptions K)
    (dataLat dataLon : DataVector K) (kdT200Maxima kdT500Maxima : List (Vec3 K))
    (pr : Point) (st : WarmCoreState) : Except RunFailure WarmCoreState :=
  let dLat := dataLat.val pr.1
  let dLon := dataLon.val pr.2
  let dX := lib.sin dLon * lib.cos dLat
  let dY := lib.cos dLon * lib.cos dLat
  let dZ := lib.sin dLat
  let kdresT200 := kd_nearest3 kdT200Maxima dX dY dZ
  let kdresT500 := kd_nearest3 kdT500Maxima dX dY dZ
  match kd_res_item kdresT200 with
  | Except.error e => Except.error e
  | Except.ok dT200pos =>
    match kd_res_item kdresT500 with
    | Except.error e => Except.error e
    | Except.ok dT500pos =>
      Except.ok (warmCoreDecide opt pr
        (angularDist lib (dX, dY, dZ) dT200pos) (angularDist lib (dX, dY, dZ) dT500pos) st)

/-- The loop over the pressure minima of lines 542-601, from the two indices:
the new set and the two counters, or the failure that stopped the loop. -/
def warmCoreFilter {K : Type} [LinearOrderedField K] (lib : LibM K) (opt : DetectOptions K)
    (dataLat dataLon : DataVector K) (kdT200Maxima kdT500Maxima : List (Vec3 K))
    (setPressureMinima : List Point) : Except RunFailure WarmCoreState :=
  setPressureMinima.foldl
    (fun acc pr =>
      match acc with
      | Except.error e => Except.error e
      | Except.ok st =>
        warmCoreStep lib opt dataLat dataLon kdT200Maxima kdT500Maxima pr st)
    (Except.ok ⟨[], 0, 0⟩)

/-- The value `dLaplacian` of lines 620-648 at the pressure minimum `(j, i)`,
after the conversion to Pa per degree squared. -/
def laplacianAt {K : Type} [Field K] (lib : LibM K) (dataPSL : DataMatrix K)
    (dataLat dataLon : DataVector K) (nLon j i : Int) : K :=
  let dDeltaLat := dataLat.val 1 - dataLat.val 0
  let dDeltaLon := dataLon.val 1 - dataLon.val 0
  let inext := Int.tmod (i + 1) nLon
  let jnext := j + 1
  let ilast := Int.tmod (i + nLon - 1) nLon
  let jlast := j - 1
  let dDphiPSL := (dataPSL.val jnext i - dataPSL.val jlast i) / (2 * dDeltaLat)
  let dD2phiPSL :=
    (dataPSL.val jnext i - 2 * dataPSL.val j i + dataPSL.val jlast i) / (dDeltaLat * dDeltaLat)
  let dD2lambdaPSL :=
    (dataPSL.val j inext - 2 * dataPSL.val j i + dataPSL.val j ilast) / (dDeltaLon * dDeltaLon)
  let dSecLat := 1 / lib.cos (dataLat.val j)
  let dLaplacian :=
    dD2phiPSL - lib.tan (dataLat.val j) * dDphiPSL + dSecLat * dSecLat * dD2lambdaPSL
  dLaplacian * ((lib.M_PI / 180) * (lib.M_PI / 180))

/-- The Laplacian filter of lines 611-658: the new set of pressure minima and
the counter `nRejectedLaplacian`. -/
def laplacianFilter {K : Type} [LinearOrderedField K] (lib : LibM K) (opt : DetectOptions K)
    (dataPSL : DataMatrix K) (dataLat dataLon : DataVector K) (nLon : Int)
    (setPressureMinima : List Point) : List Point × Int :=
  setPressureMinima.foldl
    (fun acc pr =>
      if laplacianAt lib dataPSL dataLat dataLon nLon pr.1 pr.2 ≥ opt.dMinLaplacian then
        (setInsert pr acc.1, acc.2)
      else (acc.1, acc.2 + 1))
    ([], 0)

/-- The loop of lines 665-693 that searches the maximum wind around every
pressure minimum: the vectors `vecMaxWindSp` and `vecRMaxWindSp`, or the
failure of the call of `FindLocalMaximum` that stopped the loop. The three
output variables of the call are not initialised by `main`; the model starts
them at zero, and their values are used only after a call that set them. -/
def windSearch {K : Type} [LinearOrderedField K] (lib : LibM K) (opt : DetectOptions K)
    (dataUMag850 : DataMatrix K) (dataLon dataLat : DataVector K)
    (setPressureMinima : List Point) : Except RunFailure (List K × List K) :=
  setPressureMinima.foldl
    (fun acc pr =>
      match acc with
      | Except.error e => Except.error e
      | Except.ok vecs =>
        match FindLocalMaximum (libGreatCircle lib) dataUMag850 dataLon dataLat pr.1 pr.2
            opt.dWindSpDist ⟨(0, 0), 0, 0⟩ with
        | (out, none) => Except.ok (vecs.1 ++ [out.dMaxValue], vecs.2 ++ [out.dRMax])
        | (_, some f) => Except.error (RunFailure.raised f))
    (Except.ok ([], []))

/-- The five fields read for one timestep (lines 466-480). -/
structure Timestep (K : Type) where
  dataPSL : Int → Int → K
  dataU850 : Int → Int → K
  dataV850 : Int → Int → K
  dataT200 : Int → Int → K
  dataT500 : Int → Int → K

/-- What `main` has at the end of one pass of the time loop and writes to the
output file: the surviving pressure minima, the rejection counters and the
wind maxima. -/
structure Candidates (K : Type) where
  setPressureMinima : List Point
  nRejectedWarmCore : Int
  nRejectedNoWarmCore : Int
  nRejectedLaplacian : Int
  vecMaxWindSp : List K
  vecRMaxWindSp : List K

/-- One pass of the time loop (lines 459-693), from the coordinate arrays in
radians and the fields of the timestep. -/
def processTimestep {K : Type} [LinearOrderedField K] (lib : LibM K) (opt : DetectOptions K)
    (dataLat dataLon : DataVector K) (step : Timestep K) : Except RunFailure (Candidates K) :=
  let nLat := dataLat.nRows
  let nLon := dataLon.nRows
  let dataPSL : DataMatrix K := ⟨nLat, nLon, step.dataPSL⟩
  let dataT200 : DataMatrix K := ⟨nLat, nLon, step.dataT200⟩
  let dataT500 : DataMatrix K := ⟨nLat, nLon, step.dataT500⟩
  let dataUMag850 : DataMatrix K := ⟨nLat, nLon, fun j i =>
    lib.sqrt (step.dataU850 j i * step.dataU850 j i + step.dataV850 j i * step.dataV850 j i)⟩
  let setPressureMinima := FindAllLocalMinima dataPSL []
  let warm : Except RunFailure WarmCoreState :=
    if opt.dWarmCoreDist ≠ 0 ∨ opt.dNoWarmCoreDist ≠ 0 then
      let setT200Maxima := FindAllLocalMaxima dataT200 []
      let setT500Maxima := FindAllLocalMaxima dataT500 []
      warmCoreFilter lib opt dataLat dataLon
        (buildIndex lib dataLat dataLon setT200Maxima)
        (buildIndex lib dataLat dataLon setT500Maxima) setPressureMinima
    else Except.ok ⟨setPressureMinima, 0, 0⟩
  match warm with
  | Except.error e => Except.error e
  | Except.ok wc =>
    let lap : List Point × Int :=
      if opt.dMinLaplacian ≠ 0 then
        laplacianFilter lib opt dataPSL dataLat dataLon nLon wc.setNewPressureMinima
      else (wc.setNewPressureMinima, 0)
    match windSearch lib opt dataUMag850 dataLon dataLat lap.1 with
    | Except.error e => Except.error e
    | Except.ok vecs =>
      Except.ok ⟨lap.1, wc.nRejectedWarmCore, wc.nRejectedNoWarmCore, lap.2, vecs.1, vecs.2⟩

/-- The content of the input file that `main` reads: the coordinate variables
`lat` and `lon` in degrees and the fields of every timestep. -/
structure InputFile (K : Type) where
  lat : DataVector K
  lon : DataVector K
  steps : List (Timestep K)

/-- The time loop of lines 459-762: the records written so far and the
failure that ended the loop, if any. -/
def runLoop {K : Type} [LinearOrderedField K] (lib : LibM K) (opt : DetectOptions K)
    (dataLat dataLon : DataVector K) :
    List (Timestep K) → List (Candidates K) → List (Candidates K) × Option RunFailure
  | [], written => (written, none)
  | step :: rest, written =>
    match processTimestep lib opt dataLat dataLon step with
    | Except.error e => (written, some e)
    | Except.ok c => runLoop lib opt dataLat dataLon rest (written ++ [c])

/-- The run of `main` on a well-formed input file: the records written, one
per timestep processed, and the failure that ended the run, if any. -/
def runMain {K : Type} [LinearOrderedField K] (lib : LibM K) (opt : DetectOptions K)
    (input : InputFile K) : List (Candidates K) × Option RunFailure :=
  match checkOptions opt with
  | some f => ([], some (RunFailure.raised f))
  | none =>
    let dataLat : DataVector K := ⟨input.lat.nRows, fun j => input.lat.val j * (lib.M_PI / 180)⟩
    let dataLon : DataVector K := ⟨input.lon.nRows, fun i => input.lon.val i * (lib.M_PI / 180)⟩
    runLoop lib opt dataLat dataLon input.steps []

/-! ## The minimum-area blob filter (SpineARs.cpp, lines 455-519) -/

/-- The assignment `m[j][i] = v`. -/
def DataMatrix.set {V : Type} (m : DataMatrix V) (j i : Int) (v : V) : DataMatrix V :=
  { m with val := fun a b => if a = j ∧ b = i then v else m.val a b }

/-- The set `setBlobs` built by lines 457-465: every node whose tag is not 0. -/
def collectBlobs (dIWVtag : DataMatrix Int) : List Point :=
  let nLat : Int := dIWVtag.nRows
  let nLon : Int := dIWVtag.nCols
  (intRange 0 nLat).foldl
    (fun s j =>
      (intRange 0 nLon).foldl
        (fun s i => if dIWVtag.val j i ≠ 0 then setInsert (j, i) s else s) s)
    []

/-- The node `pt2` looked up for the offsets `(j, i)` (lines 489-501): none
when the row leaves the grid (`continue`), else the column is wrapped by one
period. -/
def wrappedNeighbour (nLat nLon : Int) (pt : Point) (j i : Int) : Option Point :=
  let first := pt.1 + j
  let second := pt.2 + i
  if first < 0 then none
  else if first ≥ nLat then none
  else
    let second := if second < 0 then second + nLon else second
    let second := if second ≥ nLon then second - nLon else second
    some (first, second)

/-- The body of the loops over the offsets (lines 489-507), acting on the pair
`(setBlobs, setPointsToExplore)`. -/
def exploreOffset (nLat nLon : Int) (pt : Point) (j i : Int)
    (st : List Point × List Point) : List Point × List Point :=
  match wrappedNeighbour nLat nLon pt j i with
  | none => st
  | some pt2 =>
    if setFind pt2 st.1 then (setErase pt2 st.1, setInsert pt2 st.2) else st

/-- The nine offset pairs in the order in which the two loops visit them. -/
def offsetPairs : List (Int × Int) :=
  [(-1, -1), (-1, 0), (-1, 1), (0, -1), (0, 0), (0, 1), (1, -1), (1, 0), (1, 1)]

/-- The two loops `for j = -1..1`, `for i = -1..1` around `pt` (lines 487-509). -/
def exploreNeighbourhood (nLat nLon : Int) (pt : Point)
    (st : List Point × List Point) : List Point × List Point :=
  stencilOffsets.foldl
    (fun st j => stencilOffsets.foldl (fun st i => exploreOffset nLat nLon pt j i st) st) st

/-- The variables of the inner `for (;;)` loop. -/
structure FloodState where
  setBlobs : List Point
  setPointsToExplore : List Point
  setThisBlob : List Point

/-- The inner `for (;;)` loop (lines 479-510) with a budget of iterations. -/
def floodLoop (nLat nLon : Int) : Nat → FloodState → Option FloodState
  | 0, _ => none
  | fuel + 1, st =>
    match st.setPointsToExplore with
    | [] => some st
    | pt :: rest =>
      let thisBlob := setInsert pt st.setThisBlob
      let be := exploreNeighbourhood nLat nLon pt (st.setBlobs, rest)
      floodLoop nLat nLon fuel
        { setBlobs := be.1, setPointsToExplore := be.2, setThisBlob := thisBlob }

/-- The loop of lines 513-516: the tag of every node of the blob is set to 0. -/
def clearBlob (dIWVtag : DataMatrix Int) (blob : List Point) : DataMatrix Int :=
  blob.foldl (fun t p => t.set p.1 p.2 0) dIWVtag

/-- The variables of the outer `for (;;)` loop, together with the list of the
successive values of `setThisBlob` (kept for the statements only). -/
structure BlobState where
  setBlobs : List Point
  dIWVtag : DataMatrix Int
  blobs : List (List Point)

/-- The outer `for (;;)` loop (lines 467-518) with a budget of iterations. The
inner loop gets the budget `|setBlobs| + 1`, which it never exhausts (see
`floodLoop_stops`). -/
def blobLoop (nLat nLon : Int) (nMinArea : Int) : Nat → BlobState → Option BlobState
  | 0, _ => none
  | fuel + 1, st =>
    match st.setBlobs with
    | [] => some st
    | pt :: rest =>
      match floodLoop nLat nLon (rest.length + 2)
          { setBlobs := rest, setPointsToExplore := setInsert pt [], setThisBlob := [] } with
      | none => none
      | some fs =>
        let tag :=
          if (fs.setThisBlob.length : Int) < nMinArea then clearBlob st.dIWVtag fs.setThisBlob
          else st.dIWVtag
        blobLoop nLat nLon nMinArea fuel
          { setBlobs := fs.setBlobs, dIWVtag := tag, blobs := st.blobs ++ [fs.setThisBlob] }

/-- The flood fill of lines 457-518 run on a tag matrix: the final state of the
outer loop, none if a budget ran out (it never does, see `extractBlobs_isSome`). -/
def extractBlobs (dIWVtag : DataMatrix Int) (nMinArea : Int) : Option BlobState :=
  let setBlobs := collectBlobs dIWVtag
  blobLoop (dIWVtag.nRows : Int) (dIWVtag.nCols : Int) nMinArea (setBlobs.length + 1)
    { setBlobs := setBlobs, dIWVtag := dIWVtag, blobs := [] }

/-- The pass "only retain blobs with minimum area" (lines 455-519): the tag
matrix after the pass. -/
def blobFilter (dIWVtag : DataMatrix Int) (nMinArea : Int) : Option (DataMatrix Int) :=
  if nMinArea > 0 then
    (extractBlobs dIWVtag nMinArea).map (fun st => st.dIWVtag)
  else some dIWVtag

/-! ## The atmospheric-river tagger (SpineARs.cpp, lines 298-453) -/

/-- The four coefficients `dA`, `dB`, `dC`, `dD` of the stencil. -/
structure StencilWeights (K : Type) where
  dA : K
  dB : K
  dC : K
  dD : K

/-- The coefficients computed by lines 347-350 from `dX2` and `dY2`. -/
def laplacianWeights {K : Type} [Field K] (dX2 dY2 : K) : StencilWeights K :=
  { dA := 1 / 12 * (1 / dX2 + 1 / dY2),
    dB := 5 / (6 * dX2) - 1 / (6 * dY2),
    dC := -1 / (6 * dX2) + 5 / (6 * dY2),
    dD := -5 / 3 * (1 / dX2 + 1 / dY2) }

/-- The square `dX2` (or `dY2`) of lines 299-306: the spacing of the coordinate
array in degrees, turned into radians and multiplied by `iLaplacianSize`. -/
def stencilSpacingSq {K : Type} [Field K] (M_PI : K) (dDeg : DataVector K)
    (iLaplacianSize : Int) : K :=
  let dDelta := (dDeg.val 1 - dDeg.val 0) / 180 * M_PI
  let dX := dDelta * (iLaplacianSize : K)
  dX * dX

/-- The value assigned to `dLaplacian[j][i]` by lines 365-380. The operator
`%` of C++ truncates toward zero (`Int.tmod`). -/
def stencilValue {K : Type} [Field K] (w : StencilWeights K) (dIWV : DataMatrix K)
    (nLon iLaplacianSize j i : Int) : K :=
  let i0 := Int.tmod (i + nLon - iLaplacianSize) nLon
  let i2 := Int.tmod (i + iLaplacianSize) nLon
  let j0 := j - iLaplacianSize
  let j2 := j + iLaplacianSize
  w.dA * dIWV.val j0 i0
    + w.dB * dIWV.val j i0
    + w.dA * dIWV.val j2 i0
    + w.dC * dIWV.val j0 i
    + w.dD * dIWV.val j i
    + w.dC * dIWV.val j2 i
    + w.dA * dIWV.val j0 i2
    + w.dB * dIWV.val j i2
    + w.dA * dIWV.val j2 i2

/-- The nine nodes of `dIWV` that lines 371-380 read for the node `(j, i)`, in
the order of the nine terms. -/
def stencilNodes (nLon iLaplacianSize j i : Int) : List Point :=
  let i0 := Int.tmod (i + nLon - iLaplacianSize) nLon
  let i2 := Int.tmod (i + iLaplacianSize) nLon
  let j0 := j - iLaplacianSize
  let j2 := j + iLaplacianSize
  [(j0, i0), (j, i0), (j2, i0), (j0, i), (j, i), (j2, i), (j0, i2), (j, i2), (j2, i2)]

/-- The loops of lines 352-389 writing `dLaplacian`. -/
def computeLaplacian {K : Type} [Field K] (w : StencilWeights K) (dIWV : DataMatrix K)
    (nLat nLon iLaplacianSize : Int) (fRegional : Bool) (dLaplacian : DataMatrix K) :
    DataMatrix K :=
  let j_begin := iLaplacianSize
  let j_end := nLat - iLaplacianSize
  let i_begin := if fRegional then iLaplacianSize else 0
  let i_end := if fRegional then nLon - iLaplacianSize else nLon
  (intRange j_begin j_end).foldl
    (fun m j =>
      (intRange i_begin i_end).foldl
        (fun m i => m.set j i (stencilValue w dIWV nLon iLaplacianSize j i)) m)
    dLaplacian

/-- The entry `dZonalThreshold[j]` computed by lines 393-406. -/
def zonalThreshold {K : Type} [LinearOrderedField K] (dIWV : DataMatrix K) (nLon : Int)
    (dZonalMeanWeight dZonalMaxWeight : K) (j : Int) : K :=
  let acc := (intRange 0 nLon).foldl
    (fun (s : K × K) i =>
      (s.1 + dIWV.val j i, if dIWV.val j i > s.2 then dIWV.val j i else s.2))
    (0, dIWV.val j 0)
  let dZonalThreshold := acc.1 / (nLon : K)
  dZonalMeanWeight * dZonalThreshold + dZonalMaxWeight * acc.2

/-- The entry `dMeridThreshold[i]` computed by lines 409-423; the sum over the
`nLat` rows is divided by `dimLon->size()` (line 418). -/
def meridThreshold {K : Type} [LinearOrderedField K] (dIWV : DataMatrix K) (nLat nLon : Int)
    (dMeridMeanWeight dMeridMaxWeight : K) (i : Int) : K :=
  let acc := (intRange 0 nLat).foldl
    (fun (s : K × K) j =>
      (s.1 + dIWV.val j i, if dIWV.val j i > s.2 then dIWV.val j i else s.2))
    (0, dIWV.val 0 i)
  let dMeridThreshold := acc.1 / (nLon : K)
  dMeridMeanWeight * dMeridThreshold + dMeridMaxWeight * acc.2

/-- The options of the tagger that the computation uses. -/
structure TaggerOptions (K : Type) where
  iLaplacianSize : Int
  dMinLaplacian : K
  dMinAbsLat : K
  dMinIWV : K
  dZonalMeanWeight : K
  dZonalMaxWeight : K
  dMeridMeanWeight : K
  dMeridMaxWeight : K
  nMinArea : Int
  fRegional : Bool

/-- The body of the loops of lines 431-453 for the node `(j, i)`. -/
def tagNode {K : Type} [LinearOrderedField K] (opt : TaggerOptions K) (dLatDeg : DataVector K)
    (dIWV dLaplacian : DataMatrix K) (nLat nLon j i : Int) (dIWVtag : DataMatrix Int) :
    DataMatrix Int :=
  if |dLatDeg.val j| < opt.dMinAbsLat then dIWVtag
  else if dIWV.val j i < opt.dMinIWV then dIWVtag
  else if dIWV.val j i <
      zonalThreshold dIWV nLon opt.dZonalMeanWeight opt.dZonalMaxWeight j then dIWVtag
  else if dIWV.val j i <
      meridThreshold dIWV nLat nLon opt.dMeridMeanWeight opt.dMeridMaxWeight i then dIWVtag
  else if dLaplacian.val j i > -opt.dMinLaplacian then dIWVtag.set j i 0
  else dIWVtag.set j i 1

/-- The loops of lines 431-453 that build the tagged cell array. -/
def buildTags {K : Type} [LinearOrderedField K] (opt : TaggerOptions K) (dLatDeg : DataVector K)
    (dIWV dLaplacian : DataMatrix K) (nLat nLon : Int) (dIWVtag : DataMatrix Int) :
    DataMatrix Int :=
  (intRange 0 nLat).foldl
    (fun t j =>
      (intRange 0 nLon).foldl
        (fun t i => tagNode opt dLatDeg dIWV dLaplacian nLat nLon j i t) t)
    dIWVtag

/-- The call `DataMatrix::Zero()`. -/
def DataMatrix.Zero {V : Type} [Zero V] (m : DataMatrix V) : DataMatrix V :=
  { m with val := fun _ _ => 0 }

/-- The array `dLaplacian` after lines 344-389 of one pass of the time loop,
from the field `dIWV` of the timestep and the array as the previous pass left
it. -/
def laplacianArray {K : Type} [LinearOrderedField K] (M_PI : K) (opt : TaggerOptions K)
    (dLonDeg dLatDeg : DataVector K) (dIWV dLaplacian : DataMatrix K) : DataMatrix K :=
  let nLat : Int := dLatDeg.nRows
  let nLon : Int := dLonDeg.nRows
  let dX2 := stencilSpacingSq M_PI dLonDeg opt.iLaplacianSize
  let dY2 := stencilSpacingSq M_PI dLatDeg opt.iLaplacianSize
  computeLaplacian (laplacianWeights dX2 dY2) dIWV nLat nLon
    opt.iLaplacianSize opt.fRegional dLaplacian

/-- The tagged cell array after lines 329-453 of one pass of the time loop
(before the blob filter). -/
def tagArray {K : Type} [LinearOrderedField K] (M_PI : K) (opt : TaggerOptions K)
    (dLonDeg dLatDeg : DataVector K) (dIWV dLaplacian : DataMatrix K)
    (dIWVtag : DataMatrix Int) : DataMatrix Int :=
  let nLat : Int := dLatDeg.nRows
  let nLon : Int := dLonDeg.nRows
  let dIWVtag := dIWVtag.Zero
  let dLaplacian := laplacianArray M_PI opt dLonDeg dLatDeg dIWV dLaplacian
  buildTags opt dLatDeg dIWV dLaplacian nLat nLon dIWVtag

/-- One pass of the time loop (lines 314-519) without the file accesses: from
the field `dIWV` of the timestep and the arrays `dLaplacian`, `dIWVtag` as the
previous pass left them, the array `dLaplacian` and the tag array after the
pass (none if a budget of the blob filter ran out, which never happens). -/
def tagTimestep {K : Type} [LinearOrderedField K] (M_PI : K) (opt : TaggerOptions K)
    (dLonDeg dLatDeg : DataVector K) (dIWV dLaplacian : DataMatrix K)
    (dIWVtag : DataMatrix Int) : DataMatrix K × Option (DataMatrix Int) :=
  (laplacianArray M_PI opt dLonDeg dLatDeg dIWV dLaplacian,
    blobFilter (tagArray M_PI opt dLonDeg dLatDeg dIWV dLaplacian dIWVtag) opt.nMinArea)

/-- The time loop of lines 314-582 without the file accesses: from the fields
of the successive timesteps and the arrays `dLaplacian`, `dIWVtag` as allocated
before the loop, the pair written for every timestep. Both arrays are carried
from one pass to the next (a pass whose blob filter gave no result would leave
`dIWVtag` as it was; there is no such pass, see `blobFilter_dims`). -/
def tagLoop {K : Type} [LinearOrderedField K] (M_PI : K) (opt : TaggerOptions K)
    (dLonDeg dLatDeg : DataVector K) :
    List (DataMatrix K) → DataMatrix K → DataMatrix Int →
      List (DataMatrix K × Option (DataMatrix Int))
  | [], _, _ => []
  | dIWV :: rest, dLaplacian, dIWVtag =>
    (tagTimestep M_PI opt dLonDeg dLatDeg dIWV dLaplacian dIWVtag) ::
      tagLoop M_PI opt dLonDeg dLatDeg rest
        (tagTimestep M_PI opt dLonDeg dLatDeg dIWV dLaplacian dIWVtag).1
        ((tagTimestep M_PI opt dLonDeg dLatDeg dIWV dLaplacian dIWVtag).2.getD dIWVtag)

/-- The four tests of lines 433-444 that a node must pass to reach the test on
the Laplacian. -/
def passesThresholds {K : Type} [LinearOrderedField K] (opt : TaggerOptions K)
    (dLatDeg : DataVector K) (dIWV : DataMatrix K) (nLat nLon j i : Int) : Prop :=
  ¬ (|dLatDeg.val j| < opt.dMinAbsLat) ∧ ¬ (dIWV.val j i < opt.dMinIWV) ∧
    ¬ (dIWV.val j i <
      zonalThreshold dIWV nLon opt.dZonalMeanWeight opt.dZonalMaxWeight j) ∧
    ¬ (dIWV.val j i <
      meridThreshold dIWV nLat nLon opt.dMeridMeanWeight opt.dMeridMaxWeight i)

instance {K : Type} [LinearOrderedField K] (opt : TaggerOptions K)
    (dLatDeg : DataVector K) (dIWV : DataMatrix K) (nLat nLon j i : Int) :
    Decidable (passesThresholds opt dLatDeg dIWV nLat nLon j i) := by
  unfold passesThresholds
  exact inferInstance

/-! ## Reference notions for the scans and the thresholds (written from the claims) -/

/-- The negated field: every value `v` replaced by `-v`. -/
def negateField {V : Type} [Neg V] (data : DataMatrix V) : DataMatrix V :=
  { data with val := fun j i => -data.val j i }

/-- The arithmetic mean of the field over the `nLat` nodes of column `i`. -/
def columnMean {K : Type} [Field K] (dIWV : DataMatrix K) (nLat i : Int) : K :=
  ((intRange 0 nLat).map (fun j => dIWV.val j i)).sum / (nLat : K)

/-- The maximum of the field over the `nLat` nodes of column `i`. -/
def columnMax {K : Type} [LinearOrder K] (dIWV : DataMatrix K) (nLat i : Int) : K :=
  (intRange 0 nLat).foldl (fun m j => max m (dIWV.val j i)) (dIWV.val 0 i)

/-- The arithmetic mean of the field over the `nLon` nodes of row `j`. -/
def rowMean {K : Type} [Field K] (dIWV : DataMatrix K) (nLon j : Int) : K :=
  ((intRange 0 nLon).map (fun i => dIWV.val j i)).sum / (nLon : K)

/-- The maximum of the field over the `nLon` nodes of row `j`. -/
def rowMax {K : Type} [LinearOrder K] (dIWV : DataMatrix K) (nLon j : Int) : K :=
  (intRange 0 nLon).foldl (fun m i => max m (dIWV.val j i)) (dIWV.val j 0)

/-! ## Reference notions for the segmenter (written from the claims) -/

/-- A node set in the mask: in range, with a tag other than 0. -/
def Masked (mask : DataMatrix Int) (p : Point) : Prop :=
  InGrid (mask.nRows : Int) (mask.nCols : Int) p ∧ mask.val p.1 p.2 ≠ 0

/-- The segmenter's 8-connectivity with longitude wraparound: rows at most one
apart, both inside the grid, and the column of `b` is the column of `a` moved
by `-1`, `0` or `1` mod `nLon`. -/
def SegAdjacent (nLat nLon : Int) (a b : Point) : Prop :=
  0 ≤ a.1 ∧ a.1 < nLat ∧ 0 ≤ b.1 ∧ b.1 < nLat ∧
    (b.1 = a.1 - 1 ∨ b.1 = a.1 ∨ b.1 = a.1 + 1) ∧
    (b.2 = (a.2 - 1) % nLon ∨ b.2 = a.2 % nLon ∨ b.2 = (a.2 + 1) % nLon)

/-- The node `q` is joined to `p` by a path of adjacent masked nodes. -/
def SegConnected (mask : DataMatrix Int) (p q : Point) : Prop :=
  Relation.ReflTransGen
    (fun a b => SegAdjacent (mask.nRows : Int) (mask.nCols : Int) a b ∧ Masked mask b) p q

/-- The number of nodes of the connected component of `p`. -/
noncomputable def componentSize (mask : DataMatrix Int) (p : Point) : Nat :=
  Set.ncard {q : Point | SegConnected mask p q}

/-! ## `SimpleGrid` (src/base/SimpleGrid.h) -/

/-- A `std::vector<T>`: its size together with a total read function. -/
structure StdVector (α : Type) where
  size : Nat
  get : Int → α

/-- The call `DataVector::Initialize(n)`: `n` entries, all zero. -/
def DataVector.Initialize {C : Type} [Zero C] (n : Int) : DataVector C :=
  ⟨n.toNat, fun _ => 0⟩

/-- The assignment `v[k] = x`. -/
def DataVector.set {C : Type} (v : DataVector C) (k : Int) (x : C) : DataVector C :=
  { v with val := fun a => if a = k then x else v.val a }

/-- The call `resize(n)` on a vector of vectors: entries below the old size are
kept, the new ones are empty. -/
def StdVector.resize (v : StdVector (List Int)) (n : Int) : StdVector (List Int) :=
  ⟨n.toNat, fun k => if k < (v.size : Int) then v.get k else []⟩

/-- The call `v[k].push_back(x)`. -/
def StdVector.pushBackAt (v : StdVector (List Int)) (k : Int) (x : Int) :
    StdVector (List Int) :=
  { v with get := fun a => if a = k then v.get a ++ [x] else v.get a }

/-- The data members of `class SimpleGrid`. -/
structure SimpleGrid (C : Type) where
  m_dLon : DataVector C
  m_dLat : DataVector C
  m_vecConnectivity : StdVector (List Int)
  m_nGridDim : List Nat

/-- A default-constructed `SimpleGrid`: every member empty. -/
def SimpleGrid.fresh {C : Type} [Zero C] : SimpleGrid C :=
  ⟨⟨0, fun _ => 0⟩, ⟨0, fun _ => 0⟩, ⟨0, fun _ => []⟩, []⟩

/-- The method `GetSize` (lines 199-201). -/
def SimpleGrid.GetSize {C : Type} (self : SimpleGrid C) : Nat :=
  self.m_vecConnectivity.size

/-- The body of the double loop of `GenerateLatitudeLongitude` (lines 70-91)
for the node `(j, i)`, acting on the counter `ixs` and the grid. -/
def generateNode {C : Type} (vecLat vecLon : DataVector C) (fRegional : Bool)
    (nLat nLon j i : Int) (st : Int × SimpleGrid C) : Int × SimpleGrid C :=
  let ixs := st.1
  let g := st.2
  let g := { g with m_dLat := g.m_dLat.set ixs (vecLat.val j) }
  let g := { g with m_dLon := g.m_dLon.set ixs (vecLon.val i) }
  let g :=
    if j ≠ 0 then
      { g with m_vecConnectivity := g.m_vecConnectivity.pushBackAt ixs ((j - 1) * nLon + i) }
    else g
  let g :=
    if j ≠ nLat - 1 then
      { g with m_vecConnectivity := g.m_vecConnectivity.pushBackAt ixs ((j + 1) * nLon + i) }
    else g
  let g :=
    if (!fRegional) || (decide (i ≠ 0) && decide (i ≠ nLon - 1)) then
      let g :=
        { g with m_vecConnectivity :=
            g.m_vecConnectivity.pushBackAt ixs (j * nLon + ((i + 1) % nLon)) }
      { g with m_vecConnectivity :=
          g.m_vecConnectivity.pushBackAt ixs (j * nLon + ((i + nLon - 1) % nLon)) }
    else g
  (ixs + 1, g)

/-- The method `GenerateLatitudeLongitude(vecLat, vecLon, fRegional)` (lines
43-95) called on the grid `self`: the grid after the call and the exception
raised, if any. The constant `M_PI` of `<cmath>` is a parameter. -/
def GenerateLatitudeLongitude {C : Type} [LinearOrderedField C] (M_PI : C)
    (self : SimpleGrid C) (vecLat vecLon : DataVector C) (fRegional : Bool) :
    SimpleGrid C × Option Failure :=
  let nLat : Int := vecLat.nRows
  let nLon : Int := vecLon.nRows
  let g : SimpleGrid C :=
    { m_dLat := DataVector.Initialize (nLon * nLat),
      m_dLon := DataVector.Initialize (nLon * nLat),
      m_vecConnectivity := self.m_vecConnectivity.resize (nLon * nLat),
      m_nGridDim := [nLat.toNat, nLon.toNat] }
  if (intRange 0 nLat).any (fun j => decide (|vecLat.val j| > 0.5 * M_PI + 1.0e-12)) then
    (g, some (Failure.exception "In SimpleGrid, latitude array must be given in radians"))
  else
    (((intRange 0 nLat).foldl
      (fun st j =>
        (intRange 0 nLon).foldl
          (fun st i => generateNode vecLat vecLon fRegional nLat nLon j i st) st)
      (0, g)).2, none)

/-- The conversion of an `int` to `size_t` made by the comparisons of
`CoordinateVectorToIndex`. -/
def toSizeT (x : Int) : Nat := (x % 2 ^ 64).toNat

/-- One pass of the loop of `CoordinateVectorToIndex` (lines 236-242) on the
pair `(ix, d)`, or the exception already raised. -/
def coordinateStep (dims : List Nat) (coordvec : List Int)
    (acc : Except Failure (Int × Int)) (i : Nat) : Except Failure (Int × Int) :=
  match acc with
  | Except.error e => Except.error e
  | Except.ok (ix, d) =>
    if toSizeT (coordvec.getD i 0) ≥ dims.getD i 0 then
      Except.error (Failure.exception "Coordinate vector out of range")
    else
      Except.ok (ix + (i : Int) * d, d * (dims.getD i 0 : Int))

/-- The method `CoordinateVectorToIndex(coordvec)` (lines 209-245). -/
def CoordinateVectorToIndex {C : Type} (self : SimpleGrid C) (coordvec : List Int) :
    Except Failure Int :=
  if self.m_nGridDim.length = 0 then
    Except.error (Failure.exception "Invalid SimpleGrid")
  else if coordvec.length ≠ self.m_nGridDim.length then
    Except.error (Failure.exception "Invalid coordinate vector")
  else if coordvec.length = 1 then
    if toSizeT (coordvec.getD 0 0) ≥ self.m_nGridDim.getD 0 0 then
      Except.error (Failure.exception "Coordinate vector out of range")
    else Except.ok (coordvec.getD 0 0)
  else if coordvec.length = 2 ∧ toSizeT (coordvec.getD 0 0) ≥ self.m_nGridDim.getD 0 0 then
    Except.error (Failure.exception "Coordinate vector out of range")
  else if coordvec.length = 2 ∧ toSizeT (coordvec.getD 1 0) ≥ self.m_nGridDim.getD 1 0 then
    Except.error (Failure.exception "Coordinate vector out of range")
  else
    match (List.range coordvec.length).foldl (coordinateStep self.m_nGridDim coordvec)
        (Except.ok (0, 1)) with
    | Except.error e => Except.error e
    | Except.ok (ix, _) => Except.ok ix

/-- The adjacency list that the code gives node `(j, i)`: south and north
where the row exists, then east and west unless `fRegional` holds and the
column is the first or the last one. -/
def codeAdjacency (fRegional : Bool) (nLat nLon j i : Int) : List Int :=
  (if j ≠ 0 then [(j - 1) * nLon + i] else [])
    ++ (if j ≠ nLat - 1 then [(j + 1) * nLon + i] else [])
    ++ (if (!fRegional) || (decide (i ≠ 0) && decide (i ≠ nLon - 1)) then
        [j * nLon + ((i + 1) % nLon), j * nLon + ((i + nLon - 1) % nLon)] else [])

/-! ## Reference notions for the grid (written from the claims) -/

/-- The adjacency list of node `(j, i)` in the reference row-major grid:
`(j-1)*nLon+i` if `j ≠ 0`, `(j+1)*nLon+i` if `j ≠ nLat-1`, then
`j*nLon+((i+1) mod nLon)` and `j*nLon+((i+nLon-1) mod nLon)`. -/
def referenceAdjacency (nLat nLon j i : Int) : List Int :=
  (if j ≠ 0 then [(j - 1) * nLon + i] else [])
    ++ (if j ≠ nLat - 1 then [(j + 1) * nLon + i] else [])
    ++ [j * nLon + ((i + 1) % nLon), j * nLon + ((i + nLon - 1) % nLon)]

/-- What the grid holds for the node stored at index `k`: latitude, longitude
and adjacency list. -/
def SimpleGrid.node {C : Type} (g : SimpleGrid C) (k : Int) : C × C × List Int :=
  (g.m_dLat.val k, g.m_dLon.val k, g.m_vecConnectivity.get k)

/-! ## Reference notions for the search (written from the claims) -/

/-- A 4-neighbour step from `p` to `n`: east or west with the longitude index
taken mod `nLon`, or north or south without wrap (the target row must exist). -/
def FourNeighbour (nLat nLon : Int) (p n : Point) : Prop :=
  (n.1 = p.1 ∧ (n.2 = (p.2 + 1) % nLon ∨ n.2 = (p.2 - 1) % nLon)) ∨
  (n.2 = p.2 ∧ (n.1 = p.1 + 1 ∨ n.1 = p.1 - 1) ∧ 0 ≤ n.1 ∧ n.1 < nLat)

/-- The nodes that one expansion of `pr` offers to the queue, in the order
west, east, north, south (lines 245-267, before the visited test). -/
def neighbours (nLat nLon : Int) (pr : Point) : List Point :=
  [(pr.1, (pr.2 + nLon - 1) % nLon), (pr.1, (pr.2 + 1) % nLon)]
    ++ (if pr.1 + 1 < nLat then [(pr.1 + 1, pr.2)] else [])
    ++ (if pr.1 - 1 ≥ 0 then [(pr.1 - 1, pr.2)] else [])

/-- The nodes of the first `k` rows of a grid with `nLon` columns. -/
def gridRows (nLon : Nat) : Nat → List Point
  | 0 => []
  | k + 1 => gridRows nLon k ++ (intRangeFrom 0 nLon).map (fun i => ((k : Int), i))

/-- The number of nodes of `grid` that are not in the set `visited`. -/
def unvisitedCount (grid visited : List Point) : Nat :=
  (grid.filter (fun p => !setFind p visited)).length

/-- The quantity that every pass through the loop body decreases. -/
def searchMeasure {V D : Type} (grid : List Point) (st : SearchState V D) : Nat :=
  4 * unvisitedCount grid st.setNodesVisited + st.queueNodes.length

/-- The region of a seed as a reflexive-transitive closure: the seed is within
the radius and `p` is reached by steps into nodes within the radius. -/
def Reaches {D : Type} [LinearOrder D] (nLat nLon : Int) (dist : Point → D) (dMaxDist : D)
    (seed p : Point) : Prop :=
  dist seed ≤ dMaxDist ∧
    Relation.ReflTransGen (fun a b => FourNeighbour nLat nLon a b ∧ dist b ≤ dMaxDist) seed p

/-- The invariant of the `while` loop of `FindLocalMaximum`. -/
structure SearchInv {V D : Type} [LinearOrder V] [LinearOrder D] (data : DataMatrix V)
    (dist : Point → D) (nLat nLon : Int) (dMaxDist : D) (seed : Point)
    (st : SearchState V D) : Prop where
  queue_grid : ∀ q ∈ st.queueNodes, InGrid nLat nLon q
  visited_grid : ∀ v ∈ st.setNodesVisited, InGrid nLat nLon v
  queue_cand : ∀ q ∈ st.queueNodes,
    q = seed ∨ ∃ r, Reaches nLat nLon dist dMaxDist seed r ∧ FourNeighbour nLat nLon r q
  visited_reach : ∀ v ∈ st.setNodesVisited, dist v ≤ dMaxDist →
    Reaches nLat nLon dist dMaxDist seed v
  seed_seen : seed ∈ st.setNodesVisited ∨ seed ∈ st.queueNodes
  closed : ∀ v ∈ st.setNodesVisited, dist v ≤ dMaxDist →
    ∀ n, FourNeighbour nLat nLon v n → n ∈ st.setNodesVisited ∨ n ∈ st.queueNodes
  out_val : st.out.dMaxValue = data.val st.out.prMaximum.1 st.out.prMaximum.2
  out_dist : st.out.dRMax = dist st.out.prMaximum
  out_reach : Reaches nLat nLon dist dMaxDist seed st.out.prMaximum
  out_max : ∀ v ∈ st.setNodesVisited, dist v ≤ dMaxDist →
    data.val v.1 v.2 ≤ st.out.dMaxValue

/-- The node `q` is joined to `p` by a path of adjacent nodes of the set `S`. -/
def ConnectedIn (nLat nLon : Int) (S : List Point) (p q : Point) : Prop :=
  Relation.ReflTransGen (fun a b => SegAdjacent nLat nLon a b ∧ b ∈ S) p q

/-- The invariant of the inner flood-fill loop started from the node `pt0` of
the set `S0`. -/
structure FloodInv (nLat nLon : Int) (S0 : List Point) (pt0 : Point) (st : FloodState) :
    Prop where
  part : ∀ x, x ∈ S0 ↔
    (x ∈ st.setBlobs ∨ x ∈ st.setPointsToExplore ∨ x ∈ st.setThisBlob)
  disj_be : ∀ x ∈ st.setBlobs, x ∉ st.setPointsToExplore
  disj_bt : ∀ x ∈ st.setBlobs, x ∉ st.setThisBlob
  disj_et : ∀ x ∈ st.setPointsToExplore, x ∉ st.setThisBlob
  nodup_b : st.setBlobs.Nodup
  nodup_e : st.setPointsToExplore.Nodup
  nodup_t : st.setThisBlob.Nodup
  conn : ∀ x, x ∈ st.setPointsToExplore ∨ x ∈ st.setThisBlob → ConnectedIn nLat nLon S0 pt0 x
  closed : ∀ t ∈ st.setThisBlob, ∀ b ∈ st.setBlobs, ¬ SegAdjacent nLat nLon t b
  seed : pt0 ∈ st.setPointsToExplore ∨ pt0 ∈ st.setThisBlob

/-- The invariant of the outer loop of the blob filter run on `mask` with
minimum area `nMinArea`. -/
structure BlobInv (mask : DataMatrix Int) (nMinArea : Int) (st : BlobState) : Prop where
  sub : ∀ x ∈ st.setBlobs, Masked mask x
  nodup : st.setBlobs.Nodup
  closed : ∀ a ∈ st.setBlobs, ∀ b, Masked mask b →
    SegAdjacent (mask.nRows : Int) (mask.nCols : Int) a b → b ∈ st.setBlobs
  rows : st.dIWVtag.nRows = mask.nRows
  cols : st.dIWVtag.nCols = mask.nCols
  tag_todo : ∀ x : Point, (x ∈ st.setBlobs ∨ ¬ Masked mask x) →
    st.dIWVtag.val x.1 x.2 = mask.val x.1 x.2
  tag_small : ∀ x : Point, Masked mask x → x ∉ st.setBlobs →
    (componentSize mask x : Int) < nMinArea → st.dIWVtag.val x.1 x.2 = 0
  tag_big : ∀ x : Point, Masked mask x → x ∉ st.setBlobs →
    ¬ (componentSize mask x : Int) < nMinArea → st.dIWVtag.val x.1 x.2 = mask.val x.1 x.2
  blob_comp : ∀ B ∈ st.blobs, B.Nodup ∧
    ∃ p, Masked mask p ∧ ∀ q, q ∈ B ↔ SegConnected mask p q
  blob_cover : ∀ x, Masked mask x → (x ∉ st.setBlobs ↔ ∃ B ∈ st.blobs, x ∈ B)
  blob_disj : st.blobs.Pairwise List.Disjoint

/-- What the time loop carries from one pass to the next, relative to the
arrays `L0`, `T0` allocated before the loop: both arrays keep their size, and
`dLaplacian` keeps its allocated content at every node that the stencil loops
do not write. -/
structure CarryInv {K : Type} [LinearOrderedField K] (opt : TaggerOptions K)
    (dLonDeg dLatDeg : DataVector K) (L0 : DataMatrix K) (T0 : DataMatrix Int)
    (L : DataMatrix K) (T : DataMatrix Int) : Prop where
  rowsL : L.nRows = L0.nRows
  colsL : L.nCols = L0.nCols
  rowsT : T.nRows = T0.nRows
  colsT : T.nCols = T0.nCols
  untouched : ∀ a b : Int,
    ¬ ((opt.iLaplacianSize ≤ a ∧ a < (dLatDeg.nRows : Int) - opt.iLaplacianSize) ∧
        ((if opt.fRegional then opt.iLaplacianSize else 0) ≤ b ∧
          b < (if opt.fRegional then (dLonDeg.nRows : Int) - opt.iLaplacianSize
                else (dLonDeg.nRows : Int)))) →
      L.val a b = L0.val a b

/-- A constant field on a 3x3 matrix. -/
def flatField : DataMatrix Int := ⟨3, 3, fun _ _ => 0⟩

/-- A 3x4 field whose only low value sits at row 1, column 0 (next to the
longitude seam). -/
def seamPitField : DataMatrix Int :=
  ⟨3, 4, fun j i => if j = 1 ∧ i = 0 then 0 else 1⟩

/-- A 4x4 field with value `0` at row 2, column 1 and `1` everywhere else. -/
def singlePitField : DataMatrix Int :=
  ⟨4, 4, fun j i => if j = 2 ∧ i = 1 then 0 else 1⟩

/-- A 4x4 field with value `0` at row 2, column 1 and values growing with the
distance in columns from column 1. -/
def slopedPitField : DataMatrix Int :=
  ⟨4, 4, fun j i => if j = 2 ∧ i = 1 then 0 else if i = 3 then 2 + j else 1⟩

/-- A single row on the equator. -/
noncomputable def equatorLat : DataVector ℝ := ⟨1, fun _ => 0⟩

/-- Two meridians a quarter turn apart. -/
noncomputable def quarterLon : DataVector ℝ := ⟨2, fun i => if i = 0 then 0 else Real.pi / 2⟩

/-- A 1x2 field with value `0` in column 0 and `5` in column 1. -/
def stepField : DataMatrix Int := ⟨1, 2, fun _ i => if i = 0 then 0 else 5⟩

/-- Values of the reference outputs before a call, chosen away from any result. -/
noncomputable def staleOutputs : MaxOutputs Int ℝ := ⟨(-1, -1), -1, -1⟩

/-- A 5x6 mask with two isolated single nodes, (0, 0) and (0, 3), and one
3-node blob (2, 5), (2, 0), (3, 1) that crosses the longitude seam. -/
def exampleMask : DataMatrix Int :=
  ⟨5, 6, fun j i =>
    if (j = 0 ∧ i = 0) ∨ (j = 0 ∧ i = 3) ∨ (j = 2 ∧ i = 5) ∨ (j = 2 ∧ i = 0) ∨ (j = 3 ∧ i = 1)
    then 1 else 0⟩

/-- Two latitudes, 0 and 0.1 radians. -/
noncomputable def twoLat : DataVector ℝ := ⟨2, fun j => if j = 0 then 0 else 1 / 10⟩

/-- Three longitudes, 0, 0.1 and 0.2 radians. -/
noncomputable def threeLon : DataVector ℝ :=
  ⟨3, fun i => if i = 0 then 0 else if i = 1 then 1 / 10 else 2 / 10⟩

/-- A latitude array holding the single value 2 (not a latitude in radians). -/
noncomputable def badLat : DataVector ℝ := ⟨1, fun _ => 2⟩

/-- Coordinates 0, 1, 2, ... in degrees. -/
noncomputable def unitDegrees (n : Nat) : DataVector ℝ := ⟨n, fun i => (i : ℝ)⟩

/-- A 3x3 field with value 1 at the centre and 0 elsewhere. -/
noncomputable def spikeField : DataMatrix ℝ := ⟨3, 3, fun j i => if j = 1 ∧ i = 1 then 1 else 0⟩

/-- Tagger options with half-width 1, minimum Laplacian 4 and every other
threshold and weight 0. -/
noncomputable def spikeOptions : TaggerOptions ℝ :=
  { iLaplacianSize := 1, dMinLaplacian := 4, dMinAbsLat := 0, dMinIWV := 0,
    dZonalMeanWeight := 0, dZonalMaxWeight := 0, dMeridMeanWeight := 0, dMeridMaxWeight := 0,
    nMinArea := 0, fRegional := false }

/-- The 5x5 field `x^2 + y^2` with `x = i/60` and `y = j/60`. -/
def bowlField : DataMatrix ℚ :=
  ⟨5, 5, fun j i => ((i : ℚ) * (1 / 60)) ^ 2 + ((j : ℚ) * (1 / 60)) ^ 2⟩

/-- Coordinates 0, 1, 2, ... in degrees, as rationals. -/
def unitDegreesQ (n : Nat) : DataVector ℚ := ⟨n, fun i => (i : ℚ)⟩

/-- A matrix of the given size filled with zeros. -/
def zeroMatrix (V : Type) [Zero V] (nRows nCols : Nat) : DataMatrix V :=
  ⟨nRows, nCols, fun _ _ => 0⟩

/-- A timestep with constant pressure and wind, and temperatures that rise
with the row index. -/
noncomputable def risingStep : Timestep ℝ :=
  ⟨fun _ _ => 0, fun _ _ => 0, fun _ _ => 0, fun j _ => (j : ℝ), fun j _ => (j : ℝ)⟩

/-- A 3x3 input with one timestep in which no temperature maximum exists. -/
noncomputable def risingInput : InputFile ℝ := ⟨unitDegrees 3, unitDegrees 3, [risingStep]⟩

/-- A 2x3 input with one timestep: there is no interior row. -/
noncomputable def twoRowInput : InputFile ℝ := ⟨unitDegrees 2, unitDegrees 3, [risingStep]⟩

/-- Options that ask for a temperature maximum within 5 degrees. -/
noncomputable def warmOptions : DetectOptions ℝ := ⟨"in.nc", "out.txt", 5, 0, 0, 0⟩

/-- Options with `warmcoredist` and `windspdist` at 200 degrees. -/
noncomputable def wideOptions : DetectOptions ℝ := ⟨"in.nc", "out.txt", 200, 0, 0, 200⟩

/-- Options with `nowarmcoredist` at 200 degrees. -/
noncomputable def wideColdOptions : DetectOptions ℝ := ⟨"in.nc", "out.txt", 0, 200, 0, 0⟩

/-- The field that is 1 at every node of a grid of 2 latitudes and 4
longitudes. -/
def onesField : DataMatrix ℚ := ⟨2, 4, fun _ _ => 1⟩

/-! ## Basic facts about the set model and the loops -/

theorem mem_intRangeFrom (n : Nat) (lo x : Int) :
    x ∈ intRangeFrom lo n ↔ lo ≤ x ∧ x < lo + (n : Int) := by
  induction n generalizing lo with
  | zero => simp [intRangeFrom]
  | succ n ih =>
    simp only [intRangeFrom, List.mem_cons, ih]
    push_cast
    omega

theorem mem_intRange (lo hi x : Int) : x ∈ intRange lo hi ↔ lo ≤ x ∧ x < hi := by
  unfold intRange
  rw [mem_intRangeFrom]
  omega

theorem mem_setInsert (a x : Point) (s : List Point) :
    x ∈ setInsert a s ↔ x = a ∨ x ∈ s := by
  induction s with
  | nil => simp [setInsert]
  | cons b s ih =>
    unfold setInsert
    split
    · simp
    · split
      · rename_i h; subst h; simp
      · simp only [List.mem_cons, ih]
        tauto

theorem setFind_iff (a : Point) (s : List Point) : setFind a s = true ↔ a ∈ s := by
  simp [setFind]

theorem mem_foldl_insert_if {β : Type} (f : β → Point) (c : β → Bool) (l : List β)
    (s : List Point) (x : Point) :
    x ∈ l.foldl (fun s b => if c b then setInsert (f b) s else s) s ↔
      x ∈ s ∨ ∃ b ∈ l, c b = true ∧ x = f b := by
  induction l generalizing s with
  | nil => simp
  | cons b l ih =>
    simp only [List.foldl_cons, ih, List.mem_cons, exists_eq_or_imp]
    by_cases hc : c b = true
    · simp only [hc, if_true, mem_setInsert, true_and]
      tauto
    · simp only [hc, Bool.false_eq_true, if_false, false_and, false_or]

/-- Membership in the result of the scan: the pairs already in `setMinima`
and the interior nodes at which `fMinimum` stays set. -/
theorem mem_FindAllLocalMinima {V : Type} [LinearOrder V] (data : DataMatrix V)
    (s0 : List Point) (x : Point) :
    x ∈ FindAllLocalMinima data s0 ↔
      x ∈ s0 ∨ (1 ≤ x.1 ∧ x.1 < (data.nRows : Int) - 1 ∧ 0 ≤ x.2 ∧ x.2 < (data.nCols : Int)
        ∧ fMinimum data x.1 x.2 = true) := by
  unfold FindAllLocalMinima
  simp only
  have inner : ∀ (j : Int) (s : List Point),
      x ∈ (intRange 0 (data.nCols : Int)).foldl
        (fun s i => if fMinimum data j i then setInsert (j, i) s else s) s ↔
      x ∈ s ∨ (x.1 = j ∧ 0 ≤ x.2 ∧ x.2 < (data.nCols : Int) ∧ fMinimum data x.1 x.2 = true) := by
    intro j s
    rw [mem_foldl_insert_if (fun i => (j, i)) (fun i => fMinimum data j i)]
    apply or_congr Iff.rfl
    constructor
    · rintro ⟨i, hi, hc, rfl⟩
      rw [mem_intRange] at hi
      exact ⟨rfl, hi.1, hi.2, hc⟩
    · rintro ⟨rfl, h1, h2, hc⟩
      exact ⟨x.2, (mem_intRange _ _ _).2 ⟨h1, h2⟩, hc, rfl⟩
  have outer : ∀ (rows : List Int) (s : List Point),
      x ∈ rows.foldl (fun s j => (intRange 0 (data.nCols : Int)).foldl
        (fun s i => if fMinimum data j i then setInsert (j, i) s else s) s) s ↔
      x ∈ s ∨ (x.1 ∈ rows ∧ 0 ≤ x.2 ∧ x.2 < (data.nCols : Int)
        ∧ fMinimum data x.1 x.2 = true) := by
    intro rows
    induction rows with
    | nil => intro s; simp
    | cons j rows ih =>
      intro s
      simp only [List.foldl_cons, ih, inner, List.mem_cons]
      tauto
  rw [outer, mem_intRange]
  tauto

theorem stencil_column_eq (i nLon p : Int) : (i + nLon + p) % nLon = (i + p) % nLon := by
  rw [show i + nLon + p = i + p + nLon by ring, Int.add_emod_self]

theorem offset_cases (q : Int) (h1 : -1 ≤ q) (h2 : q ≤ 1) : q = -1 ∨ q = 0 ∨ q = 1 := by
  omega

/-- The flag `fMinimum` stays set exactly when no entry of the 3x3 stencil is
strictly below the centre value. -/
theorem fMinimum_iff {V : Type} [LinearOrder V] (data : DataMatrix V) (j i : Int) :
    fMinimum data j i = true ↔
      ∀ q p : Int, -1 ≤ q → q ≤ 1 → -1 ≤ p → p ≤ 1 →
        data.val j i ≤ data.val (j + q) ((i + p) % (data.nCols : Int)) := by
  unfold fMinimum stencilOffsets
  simp only [stencil_column_eq, List.all_cons, List.all_nil, Bool.and_true, Bool.and_eq_true,
    Bool.not_eq_true', decide_eq_false_iff_not, not_lt]
  constructor
  · intro h q p hq1 hq2 hp1 hp2
    rcases offset_cases q hq1 hq2 with rfl | rfl | rfl <;>
      rcases offset_cases p hp1 hp2 with rfl | rfl | rfl <;> tauto
  · intro h
    refine ⟨⟨?_, ?_, ?_⟩, ⟨?_, ?_, ?_⟩, ⟨?_, ?_, ?_⟩⟩ <;> apply h <;> decide

/-! ## The stencil scan -/

/-- C1 (as stated, refuted): on the constant 3x3 field the node (1, 0) is
reported although its value equals the value of its stencil neighbour (2, 0),
so a reported node need not be strictly below its neighbours. -/
theorem C1_counterexample :
    3 ≤ flatField.nCols ∧ ((1, 0) : Point) ∈ FindAllLocalMinima flatField [] ∧
      flatField.val 1 0 = flatField.val (1 + 1) ((0 + 0) % (flatField.nCols : Int)) ∧
      ¬ (flatField.val 1 0 < flatField.val (1 + 1) ((0 + 0) % (flatField.nCols : Int))) := by
  decide

/-- C1 (amended): every pair that `FindAllLocalMinima` puts in its result set
has a value less than or equal to the value at each node of its stencil
`(j+q, (i+p) mod nLon)`, `q, p ∈ {-1,0,1}`; ties do not disqualify a node. -/
theorem C1_reported_le_stencil {V : Type} [LinearOrder V] (data : DataMatrix V) (j i : Int)
    (hmem : (j, i) ∈ FindAllLocalMinima data [])
    (q p : Int) (hq1 : -1 ≤ q) (hq2 : q ≤ 1) (hp1 : -1 ≤ p) (hp2 : p ≤ 1) :
    data.val j i ≤ data.val (j + q) ((i + p) % (data.nCols : Int)) := by
  rw [mem_FindAllLocalMinima] at hmem
  rcases hmem with h | ⟨_, _, _, _, h⟩
  · simp at h
  · exact (fMinimum_iff data j i).1 h q p hq1 hq2 hp1 hp2

theorem C1_reported_le_stencil_witness :
    ((1, 0) : Point) ∈ FindAllLocalMinima seamPitField [] ∧
      seamPitField.val 1 0 ≤ seamPitField.val (1 + 1) ((0 + -1) % (seamPitField.nCols : Int)) :=
  ⟨by decide, C1_reported_le_stencil seamPitField 1 0 (by decide) 1 (-1)
    (by decide) (by decide) (by decide) (by decide)⟩

/-- C8: an interior-row node (`1 ≤ j ≤ nLat-2`, which needs `nLat ≥ 3`) whose
value is strictly below the values at its 8 stencil neighbours
`(j+q, (i+p) mod nLon)` is in the set returned by `FindAllLocalMinima`; the
columns wrap, so this includes a node next to the longitude seam. The bound
`nLon ≥ 3` of the claim is not needed for the conclusion. -/
theorem C8_strict_minimum_reported {V : Type} [LinearOrder V] (data : DataMatrix V) (j i : Int)
    (hj1 : 1 ≤ j) (hj2 : j ≤ (data.nRows : Int) - 2)
    (hi1 : 0 ≤ i) (hi2 : i < (data.nCols : Int))
    (hmin : ∀ q p : Int, -1 ≤ q → q ≤ 1 → -1 ≤ p → p ≤ 1 → (q, p) ≠ (0, 0) →
      data.val j i < data.val (j + q) ((i + p) % (data.nCols : Int))) :
    (j, i) ∈ FindAllLocalMinima data [] := by
  rw [mem_FindAllLocalMinima]
  refine Or.inr ⟨hj1, by simp only; omega, hi1, hi2, ?_⟩
  rw [fMinimum_iff]
  intro q p hq1 hq2 hp1 hp2
  by_cases h0 : (q, p) = (0, 0)
  · simp only [Prod.mk.injEq] at h0
    obtain ⟨rfl, rfl⟩ := h0
    simp only [add_zero]
    rw [Int.emod_eq_of_lt hi1 hi2]
  · exact le_of_lt (hmin q p hq1 hq2 hp1 hp2 h0)

theorem C8_strict_minimum_reported_witness :
    ((1, 0) : Point) ∈ FindAllLocalMinima seamPitField [] :=
  C8_strict_minimum_reported seamPitField 1 0
    (by decide) (by decide) (by decide) (by decide)
    (by
      intro q p hq1 hq2 hp1 hp2 hne
      rcases offset_cases q hq1 hq2 with rfl | rfl | rfl <;>
        rcases offset_cases p hp1 hp2 with rfl | rfl | rfl <;>
        first
          | exact absurd rfl hne
          | decide)

theorem fMinimum_eq_false_of_lt {V : Type} [LinearOrder V] (data : DataMatrix V) (j i q p : Int)
    (hq1 : -1 ≤ q) (hq2 : q ≤ 1) (hp1 : -1 ≤ p) (hp2 : p ≤ 1)
    (h : data.val (j + q) ((i + p) % (data.nCols : Int)) < data.val j i) :
    fMinimum data j i = false := by
  cases hf : fMinimum data j i with
  | false => rfl
  | true => exact absurd ((fMinimum_iff data j i).1 hf q p hq1 hq2 hp1 hp2) (not_le.2 h)

/-- C9 (as stated, refuted): on the 4x4 field with value 0 at (2, 1) and 1
elsewhere the single global minimum is at (2, 1), yet the scan also reports
(1, 3) and (2, 3), whose stencils (columns 2, 3, 0) hold only the value 1. -/
theorem C9_counterexample :
    singlePitField.nRows = 4 ∧ singlePitField.nCols = 4 ∧
      (∀ j i : Int, 0 ≤ j → j < 4 → 0 ≤ i → i < 4 → (j, i) ≠ (2, 1) →
        singlePitField.val 2 1 < singlePitField.val j i) ∧
      FindAllLocalMinima singlePitField [] = [(1, 3), (2, 1), (2, 3)] ∧
      FindAllLocalMinima singlePitField [] ≠ [(2, 1)] := by
  refine ⟨rfl, rfl, ?_, by decide, by decide⟩
  intro j i _ _ _ _ hne
  have : ¬ (j = 2 ∧ i = 1) := fun h => hne (by rw [h.1, h.2])
  simp [singlePitField, this]

/-- C9 (amended): on a 4x4 field whose single global minimum is at (2, 1), the
set returned by `FindAllLocalMinima` contains (2, 1) and nothing outside
(1, 3), (2, 1), (2, 3); it is exactly the one-element set holding (2, 1) when
moreover (1, 3) and (2, 3), the interior nodes whose stencil misses (2, 1),
each have a stencil entry of strictly smaller value. -/
theorem C9_single_pit {V : Type} [LinearOrder V] (data : DataMatrix V)
    (hRows : data.nRows = 4) (hCols : data.nCols = 4)
    (hglobal : ∀ j i : Int, 0 ≤ j → j < 4 → 0 ≤ i → i < 4 → (j, i) ≠ (2, 1) →
      data.val 2 1 < data.val j i) :
    ((2, 1) : Point) ∈ FindAllLocalMinima data [] ∧
      (∀ x ∈ FindAllLocalMinima data [], x = (2, 1) ∨ x = (1, 3) ∨ x = (2, 3)) ∧
      ((∃ q p : Int, -1 ≤ q ∧ q ≤ 1 ∧ -1 ≤ p ∧ p ≤ 1 ∧
          data.val (1 + q) ((3 + p) % 4) < data.val 1 3) →
        (∃ q p : Int, -1 ≤ q ∧ q ≤ 1 ∧ -1 ≤ p ∧ p ≤ 1 ∧
          data.val (2 + q) ((3 + p) % 4) < data.val 2 3) →
        FindAllLocalMinima data [] = [(2, 1)]) := by
  obtain ⟨r, c, val⟩ := data
  simp only at hRows hCols hglobal
  subst hRows hCols
  have c4 : (((4 : Nat) : Int)) = 4 := rfl
  have h10 : fMinimum ⟨4, 4, val⟩ 1 0 = false :=
    fMinimum_eq_false_of_lt _ 1 0 1 1 (by decide) (by decide) (by decide) (by decide)
      (by simpa using hglobal 1 0 (by decide) (by decide) (by decide) (by decide) (by decide))
  have h11 : fMinimum ⟨4, 4, val⟩ 1 1 = false :=
    fMinimum_eq_false_of_lt _ 1 1 1 0 (by decide) (by decide) (by decide) (by decide)
      (by simpa using hglobal 1 1 (by decide) (by decide) (by decide) (by decide) (by decide))
  have h12 : fMinimum ⟨4, 4, val⟩ 1 2 = false :=
    fMinimum_eq_false_of_lt _ 1 2 1 (-1) (by decide) (by decide) (by decide) (by decide)
      (by simpa using hglobal 1 2 (by decide) (by decide) (by decide) (by decide) (by decide))
  have h20 : fMinimum ⟨4, 4, val⟩ 2 0 = false :=
    fMinimum_eq_false_of_lt _ 2 0 0 1 (by decide) (by decide) (by decide) (by decide)
      (by simpa using hglobal 2 0 (by decide) (by decide) (by decide) (by decide) (by decide))
  have h22 : fMinimum ⟨4, 4, val⟩ 2 2 = false :=
    fMinimum_eq_false_of_lt _ 2 2 0 (-1) (by decide) (by decide) (by decide) (by decide)
      (by simpa using hglobal 2 2 (by decide) (by decide) (by decide) (by decide) (by decide))
  have h21 : fMinimum ⟨4, 4, val⟩ 2 1 = true := by
    rw [fMinimum_iff]
    intro q p hq1 hq2 hp1 hp2
    by_cases h0 : ((2 + q, (1 + p) % 4) : Point) = (2, 1)
    · simp only [Prod.mk.injEq] at h0
      simp only [c4, h0.1, h0.2, le_refl]
    · exact le_of_lt (hglobal (2 + q) ((1 + p) % 4) (by omega) (by omega) (by omega)
        (by omega) h0)
  have hmem : ∀ x : Point, x ∈ FindAllLocalMinima ⟨4, 4, val⟩ [] →
      x = (2, 1) ∨ x = (1, 3) ∨ x = (2, 3) := by
    rintro ⟨j, i⟩ hx
    rw [mem_FindAllLocalMinima] at hx
    rcases hx with hx | ⟨hj1, hj2, hi1, hi2, hf⟩
    · simp at hx
    · simp only [c4] at hj1 hj2 hi1 hi2 hf
      have hj : j = 1 ∨ j = 2 := by omega
      have hi : i = 0 ∨ i = 1 ∨ i = 2 ∨ i = 3 := by omega
      rcases hj with rfl | rfl <;> rcases hi with rfl | rfl | rfl | rfl <;>
        simp_all
  refine ⟨?_, hmem, ?_⟩
  · rw [mem_FindAllLocalMinima]
    exact Or.inr ⟨by norm_num, by norm_num, by norm_num, by norm_num, h21⟩
  · rintro ⟨q1, p1, a1, a2, a3, a4, a5⟩ ⟨q2, p2, b1, b2, b3, b4, b5⟩
    have h13 : fMinimum ⟨4, 4, val⟩ 1 3 = false :=
      fMinimum_eq_false_of_lt _ 1 3 q1 p1 a1 a2 a3 a4 a5
    have h23 : fMinimum ⟨4, 4, val⟩ 2 3 = false :=
      fMinimum_eq_false_of_lt _ 2 3 q2 p2 b1 b2 b3 b4 b5
    simp [FindAllLocalMinima, intRange, intRangeFrom, h10, h11, h12, h13, h20, h21, h22, h23,
      setInsert]

theorem C9_single_pit_witness :
    (((2, 1) : Point) ∈ FindAllLocalMinima slopedPitField [] ∧
      (∀ x ∈ FindAllLocalMinima slopedPitField [], x = (2, 1) ∨ x = (1, 3) ∨ x = (2, 3)) ∧
      ((∃ q p : Int, -1 ≤ q ∧ q ≤ 1 ∧ -1 ≤ p ∧ p ≤ 1 ∧
          slopedPitField.val (1 + q) ((3 + p) % 4) < slopedPitField.val 1 3) →
        (∃ q p : Int, -1 ≤ q ∧ q ≤ 1 ∧ -1 ≤ p ∧ p ≤ 1 ∧
          slopedPitField.val (2 + q) ((3 + p) % 4) < slopedPitField.val 2 3) →
        FindAllLocalMinima slopedPitField [] = [(2, 1)])) ∧
      FindAllLocalMinima slopedPitField [] = [(2, 1)] :=
  ⟨C9_single_pit slopedPitField rfl rfl (by
      intro j i hj1 hj2 hi1 hi2 hne
      have hj : j = 0 ∨ j = 1 ∨ j = 2 ∨ j = 3 := by omega
      have hi : i = 0 ∨ i = 1 ∨ i = 2 ∨ i = 3 := by omega
      rcases hj with rfl | rfl | rfl | rfl <;> rcases hi with rfl | rfl | rfl | rfl <;>
        first
          | exact absurd rfl hne
          | decide),
    by decide⟩

/-! ## The bounded breadth-first search -/

section Search

variable {V D : Type} [LinearOrder V] [LinearOrder D]

theorem length_neighbours_le (nLat nLon : Int) (pr : Point) :
    (neighbours nLat nLon pr).length ≤ 4 := by
  unfold neighbours
  split <;> split <;> simp

/-- The queue after an expansion is the old queue followed by the offered
neighbours that are not in the visited set. -/
theorem searchBody_expand (data : DataMatrix V) (dist : Point → D) (nLat nLon : Int)
    (dMaxDist : D) (pr : Point) (rest : List Point) (st : SearchState V D)
    (hnew : pr ∉ st.setNodesVisited) (hin : dist pr ≤ dMaxDist) :
    searchBody data dist nLat nLon dMaxDist pr rest st =
      { queueNodes := rest ++ (neighbours nLat nLon pr).filter
          (fun n => !setFind n (setInsert pr st.setNodesVisited)),
        setNodesVisited := setInsert pr st.setNodesVisited,
        out := if data.val pr.1 pr.2 > st.out.dMaxValue then
            { prMaximum := pr, dMaxValue := data.val pr.1 pr.2, dRMax := dist pr }
          else st.out } := by
  have h1 : setFind pr st.setNodesVisited = false := by
    simpa [setFind] using hnew
  have h2 : ¬ (dist pr > dMaxDist) := not_lt.2 hin
  unfold searchBody neighbours
  simp only [h1, Bool.false_eq_true, if_false, h2]
  congr 1
  by_cases a1 : setFind (pr.1, (pr.2 + nLon - 1) % nLon) (setInsert pr st.setNodesVisited) = true <;>
  by_cases a2 : setFind (pr.1, (pr.2 + 1) % nLon) (setInsert pr st.setNodesVisited) = true <;>
  by_cases a3 : pr.1 + 1 < nLat <;>
  by_cases a4 : pr.1 - 1 ≥ 0 <;>
  by_cases a5 : setFind (pr.1 + 1, pr.2) (setInsert pr st.setNodesVisited) = true <;>
  by_cases a6 : setFind (pr.1 - 1, pr.2) (setInsert pr st.setNodesVisited) = true <;>
  simp [a1, a2, a3, a4, a5, a6, List.filter_cons]

theorem searchBody_seen (data : DataMatrix V) (dist : Point → D) (nLat nLon : Int)
    (dMaxDist : D) (pr : Point) (rest : List Point) (st : SearchState V D)
    (hold : pr ∈ st.setNodesVisited) :
    searchBody data dist nLat nLon dMaxDist pr rest st = { st with queueNodes := rest } := by
  have h1 : setFind pr st.setNodesVisited = true := by simpa [setFind] using hold
  unfold searchBody
  simp only [h1, if_true]

theorem searchBody_outside (data : DataMatrix V) (dist : Point → D) (nLat nLon : Int)
    (dMaxDist : D) (pr : Point) (rest : List Point) (st : SearchState V D)
    (hnew : pr ∉ st.setNodesVisited) (hout : dMaxDist < dist pr) :
    searchBody data dist nLat nLon dMaxDist pr rest st =
      { queueNodes := rest, setNodesVisited := setInsert pr st.setNodesVisited,
        out := st.out } := by
  have h1 : setFind pr st.setNodesVisited = false := by
    simpa [setFind] using hnew
  have h2 : dist pr > dMaxDist := hout
  unfold searchBody
  simp only [h1, Bool.false_eq_true, if_false, h2, if_true]

theorem wrap_west (i nLon : Int) : (i + nLon - 1) % nLon = (i - 1) % nLon := by
  rw [show i + nLon - 1 = i - 1 + nLon by ring, Int.add_emod_self]

theorem mem_neighbours {nLat nLon : Int} {p : Point} (hp : InGrid nLat nLon p) (n : Point) :
    n ∈ neighbours nLat nLon p ↔ FourNeighbour nLat nLon p n := by
  obtain ⟨j, i⟩ := p
  obtain ⟨a, b⟩ := n
  obtain ⟨h1, h2, h3, h4⟩ := hp
  simp only at h1 h2 h3 h4
  unfold neighbours FourNeighbour
  simp only [wrap_west, List.mem_append, List.mem_cons, List.mem_singleton, Prod.mk.injEq,
    List.not_mem_nil, or_false]
  generalize (i - 1) % nLon = w
  generalize (i + 1) % nLon = e
  constructor
  · rintro (((⟨rfl, rfl⟩ | ⟨rfl, rfl⟩) | h) | h)
    · exact Or.inl ⟨rfl, Or.inr rfl⟩
    · exact Or.inl ⟨rfl, Or.inl rfl⟩
    · split at h
      · simp only [List.mem_singleton, Prod.mk.injEq] at h
        obtain ⟨rfl, rfl⟩ := h
        exact Or.inr ⟨rfl, Or.inl rfl, by omega, by omega⟩
      · simp at h
    · split at h
      · simp only [List.mem_singleton, Prod.mk.injEq] at h
        obtain ⟨rfl, rfl⟩ := h
        exact Or.inr ⟨rfl, Or.inr rfl, by omega, by omega⟩
      · simp at h
  · rintro (⟨rfl, rfl | rfl⟩ | ⟨rfl, rfl | rfl, h5, h6⟩)
    · exact Or.inl (Or.inl (Or.inr ⟨rfl, rfl⟩))
    · exact Or.inl (Or.inl (Or.inl ⟨rfl, rfl⟩))
    · refine Or.inl (Or.inr ?_)
      rw [if_pos h6]
      simp
    · refine Or.inr ?_
      rw [if_pos (by omega)]
      simp

theorem fourNeighbour_inGrid {nLat nLon : Int} {p n : Point} (hp : InGrid nLat nLon p)
    (h : FourNeighbour nLat nLon p n) : InGrid nLat nLon n := by
  obtain ⟨h1, h2, h3, h4⟩ := hp
  have hpos : 0 < nLon := by omega
  rcases h with ⟨e1, e2 | e2⟩ | ⟨e1, _, e3, e4⟩
  · exact ⟨by omega, by omega, by rw [e2]; exact Int.emod_nonneg _ (by omega),
      by rw [e2]; exact Int.emod_lt_of_pos _ hpos⟩
  · exact ⟨by omega, by omega, by rw [e2]; exact Int.emod_nonneg _ (by omega),
      by rw [e2]; exact Int.emod_lt_of_pos _ hpos⟩
  · exact ⟨e3, e4, by omega, by omega⟩

theorem mem_gridRows (nLon k : Nat) (p : Point) :
    p ∈ gridRows nLon k ↔ InGrid (k : Int) (nLon : Int) p := by
  induction k with
  | zero =>
    simp only [gridRows, List.not_mem_nil, InGrid, false_iff]
    intro h
    have := h.1
    have := h.2.1
    simp only [Nat.cast_zero] at *
    omega
  | succ k ih =>
    simp only [gridRows, List.mem_append, ih, List.mem_map, mem_intRangeFrom, InGrid]
    obtain ⟨j, i⟩ := p
    simp only [Prod.mk.injEq]
    push_cast
    constructor
    · rintro (h | ⟨x, hx, rfl, rfl⟩)
      · omega
      · omega
    · intro h
      by_cases hj : j < (k : Int)
      · exact Or.inl (by omega)
      · exact Or.inr ⟨i, by omega, by omega, rfl⟩

theorem length_intRangeFrom (n : Nat) (lo : Int) : (intRangeFrom lo n).length = n := by
  induction n generalizing lo with
  | zero => rfl
  | succ n ih => simp [intRangeFrom, ih]

theorem length_gridRows (nLon k : Nat) : (gridRows nLon k).length = k * nLon := by
  induction k with
  | zero => simp [gridRows]
  | succ k ih =>
    simp only [gridRows, List.length_append, ih, List.length_map, length_intRangeFrom]
    ring

theorem unvisitedCount_le (grid visited : List Point) :
    unvisitedCount grid visited ≤ grid.length := by
  unfold unvisitedCount
  exact List.length_filter_le _ _

/-- Marking a fresh node of the grid as visited lowers the number of
unvisited nodes. -/
theorem unvisitedCount_insert_lt (grid visited : List Point) (a : Point)
    (hg : a ∈ grid) (hv : a ∉ visited) :
    unvisitedCount grid (setInsert a visited) < unvisitedCount grid visited := by
  unfold unvisitedCount
  induction grid with
  | nil => simp at hg
  | cons b grid ih =>
    have mono : ∀ l : List Point,
        (l.filter (fun p => !setFind p (setInsert a visited))).length ≤
          (l.filter (fun p => !setFind p visited)).length := by
      intro l
      induction l with
      | nil => simp
      | cons c l ihl =>
        simp only [List.filter_cons]
        by_cases hc : c ∈ visited
        · have h1 : setFind c visited = true := (setFind_iff _ _).2 hc
          have h2 : setFind c (setInsert a visited) = true :=
            (setFind_iff _ _).2 ((mem_setInsert _ _ _).2 (Or.inr hc))
          simpa [h1, h2] using ihl
        · have h1 : setFind c visited = false := by simpa [setFind] using hc
          simp only [h1, Bool.not_false, if_true, List.length_cons]
          split
          · simpa using ihl
          · omega
    simp only [List.filter_cons]
    by_cases hb : b = a
    · subst hb
      have h1 : setFind b visited = false := by simpa [setFind] using hv
      have h2 : setFind b (setInsert b visited) = true :=
        (setFind_iff _ _).2 ((mem_setInsert _ _ _).2 (Or.inl rfl))
      simp only [h1, h2, Bool.not_true, Bool.false_eq_true, if_false, Bool.not_false, if_true,
        List.length_cons]
      have := mono grid
      omega
    · have hg2 : a ∈ grid := by
        rcases List.mem_cons.1 hg with h | h
        · exact absurd h.symm hb
        · exact h
      have := ih hg2
      by_cases hc : b ∈ visited
      · have h1 : setFind b visited = true := (setFind_iff _ _).2 hc
        have h2 : setFind b (setInsert a visited) = true :=
          (setFind_iff _ _).2 ((mem_setInsert _ _ _).2 (Or.inr hc))
        simpa [h1, h2] using this
      · have h1 : setFind b visited = false := by simpa [setFind] using hc
        have h2 : setFind b (setInsert a visited) = false := by
          have : b ∉ setInsert a visited := by
            rw [mem_setInsert]
            rintro (h | h)
            · exact hb h
            · exact hc h
          simpa [setFind] using this
        simpa [h1, h2] using this

theorem reaches_step {nLat nLon : Int} {dist : Point → D} {dMaxDist : D} {seed r n : Point}
    (hr : Reaches nLat nLon dist dMaxDist seed r) (hs : FourNeighbour nLat nLon r n)
    (hn : dist n ≤ dMaxDist) : Reaches nLat nLon dist dMaxDist seed n :=
  ⟨hr.1, Relation.ReflTransGen.tail hr.2 ⟨hs, hn⟩⟩

theorem reaches_within {nLat nLon : Int} {dist : Point → D} {dMaxDist : D} {seed r : Point}
    (hr : Reaches nLat nLon dist dMaxDist seed r) : dist r ≤ dMaxDist := by
  obtain ⟨h0, h⟩ := hr
  cases h with
  | refl => exact h0
  | tail _ hlast => exact hlast.2

/-- A pass through the loop body keeps the invariant. -/
theorem searchBody_inv (data : DataMatrix V) (dist : Point → D) (nLat nLon : Int)
    (dMaxDist : D) (seed pr : Point) (rest : List Point) (st : SearchState V D)
    (hseed : dist seed ≤ dMaxDist)
    (hq : st.queueNodes = pr :: rest)
    (inv : SearchInv data dist nLat nLon dMaxDist seed st) :
    SearchInv data dist nLat nLon dMaxDist seed
      (searchBody data dist nLat nLon dMaxDist pr rest st) := by
  have hprq : pr ∈ st.queueNodes := by rw [hq]; exact List.mem_cons_self _ _
  have hrestq : ∀ x, x ∈ rest → x ∈ st.queueNodes := by
    intro x hx; rw [hq]; exact List.mem_cons_of_mem _ hx
  have hqcases : ∀ x, x ∈ st.queueNodes → x = pr ∨ x ∈ rest := by
    intro x hx; rw [hq] at hx; exact List.mem_cons.1 hx
  have hprg : InGrid nLat nLon pr := inv.queue_grid pr hprq
  by_cases hold : pr ∈ st.setNodesVisited
  · rw [searchBody_seen data dist nLat nLon dMaxDist pr rest st hold]
    refine ⟨fun q hqm => inv.queue_grid q (hrestq q hqm), inv.visited_grid,
      fun q hqm => inv.queue_cand q (hrestq q hqm), inv.visited_reach, ?_, ?_,
      inv.out_val, inv.out_dist, inv.out_reach, inv.out_max⟩
    · rcases inv.seed_seen with h | h
      · exact Or.inl h
      · rcases hqcases _ h with h | h
        · exact Or.inl (h ▸ hold)
        · exact Or.inr h
    · intro v hv hvd n hn
      rcases inv.closed v hv hvd n hn with h | h
      · exact Or.inl h
      · rcases hqcases _ h with h | h
        · exact Or.inl (h ▸ hold)
        · exact Or.inr h
  · by_cases hout : dMaxDist < dist pr
    · rw [searchBody_outside data dist nLat nLon dMaxDist pr rest st hold hout]
      refine ⟨fun q hqm => inv.queue_grid q (hrestq q hqm), ?_,
        fun q hqm => inv.queue_cand q (hrestq q hqm), ?_, ?_, ?_,
        inv.out_val, inv.out_dist, inv.out_reach, ?_⟩
      · intro v hv
        rcases (mem_setInsert _ _ _).1 hv with h | h
        · exact h ▸ hprg
        · exact inv.visited_grid v h
      · intro v hv hvd
        rcases (mem_setInsert _ _ _).1 hv with h | h
        · exact absurd hvd (not_le.2 (h ▸ hout))
        · exact inv.visited_reach v h hvd
      · rcases inv.seed_seen with h | h
        · exact Or.inl ((mem_setInsert _ _ _).2 (Or.inr h))
        · rcases hqcases _ h with h | h
          · exact Or.inl ((mem_setInsert _ _ _).2 (Or.inl h))
          · exact Or.inr h
      · intro v hv hvd n hn
        rcases (mem_setInsert _ _ _).1 hv with h | h
        · exact absurd hvd (not_le.2 (h ▸ hout))
        · rcases inv.closed v h hvd n hn with h' | h'
          · exact Or.inl ((mem_setInsert _ _ _).2 (Or.inr h'))
          · rcases hqcases _ h' with h' | h'
            · exact Or.inl ((mem_setInsert _ _ _).2 (Or.inl h'))
            · exact Or.inr h'
      · intro v hv hvd
        rcases (mem_setInsert _ _ _).1 hv with h | h
        · exact absurd hvd (not_le.2 (h ▸ hout))
        · exact inv.out_max v h hvd
    · have hin : dist pr ≤ dMaxDist := not_lt.1 hout
      have hprr : Reaches nLat nLon dist dMaxDist seed pr := by
        rcases inv.queue_cand pr hprq with h | ⟨r, hr, hs⟩
        · rw [h]; exact ⟨hseed, Relation.ReflTransGen.refl⟩
        · exact reaches_step hr hs hin
      rw [searchBody_expand data dist nLat nLon dMaxDist pr rest st hold hin]
      have hnewq : ∀ x, x ∈ rest ++ (neighbours nLat nLon pr).filter
          (fun n => !setFind n (setInsert pr st.setNodesVisited)) →
          x ∈ rest ∨ FourNeighbour nLat nLon pr x := by
        intro x hx
        rcases List.mem_append.1 hx with h | h
        · exact Or.inl h
        · exact Or.inr ((mem_neighbours hprg x).1 (List.mem_filter.1 h).1)
      refine ⟨?_, ?_, ?_, ?_, ?_, ?_, ?_, ?_, ?_, ?_⟩
      · intro q hqm
        rcases hnewq q hqm with h | h
        · exact inv.queue_grid q (hrestq q h)
        · exact fourNeighbour_inGrid hprg h
      · intro v hv
        rcases (mem_setInsert _ _ _).1 hv with h | h
        · exact h ▸ hprg
        · exact inv.visited_grid v h
      · intro q hqm
        rcases hnewq q hqm with h | h
        · exact inv.queue_cand q (hrestq q h)
        · exact Or.inr ⟨pr, hprr, h⟩
      · intro v hv hvd
        rcases (mem_setInsert _ _ _).1 hv with h | h
        · exact h ▸ hprr
        · exact inv.visited_reach v h hvd
      · rcases inv.seed_seen with h | h
        · exact Or.inl ((mem_setInsert _ _ _).2 (Or.inr h))
        · rcases hqcases _ h with h | h
          · exact Or.inl ((mem_setInsert _ _ _).2 (Or.inl h))
          · exact Or.inr (List.mem_append.2 (Or.inl h))
      · intro v hv hvd n hn
        by_cases hnv : n ∈ setInsert pr st.setNodesVisited
        · exact Or.inl hnv
        · refine Or.inr ?_
          rcases (mem_setInsert _ _ _).1 hv with h | h
          · subst h
            refine List.mem_append.2 (Or.inr (List.mem_filter.2 ⟨(mem_neighbours hprg n).2 hn, ?_⟩))
            simpa [setFind] using hnv
          · rcases inv.closed v h hvd n hn with h' | h'
            · exact absurd ((mem_setInsert _ _ _).2 (Or.inr h')) hnv
            · rcases hqcases _ h' with h' | h'
              · exact absurd ((mem_setInsert _ _ _).2 (Or.inl h')) hnv
              · exact List.mem_append.2 (Or.inl h')
      · simp only
        split
        · rfl
        · exact inv.out_val
      · simp only
        split
        · rfl
        · exact inv.out_dist
      · simp only
        split
        · exact hprr
        · exact inv.out_reach
      · intro v hv hvd
        simp only
        rcases (mem_setInsert _ _ _).1 hv with h | h
        · subst h
          split
          · exact le_refl _
          · rename_i hgt
            exact not_lt.1 hgt
        · have := inv.out_max v h hvd
          split
          · rename_i hgt
            exact le_trans this (le_of_lt hgt)
          · exact this

/-- A pass through the loop body keeps the queue inside the grid. -/
theorem searchBody_queue_grid (data : DataMatrix V) (dist : Point → D) (nLat nLon : Int)
    (dMaxDist : D) (pr : Point) (rest : List Point) (st : SearchState V D)
    (hq : st.queueNodes = pr :: rest)
    (hqg : ∀ q ∈ st.queueNodes, InGrid nLat nLon q) :
    ∀ q ∈ (searchBody data dist nLat nLon dMaxDist pr rest st).queueNodes,
      InGrid nLat nLon q := by
  have hprg : InGrid nLat nLon pr := hqg pr (by rw [hq]; exact List.mem_cons_self _ _)
  have hrest : ∀ x, x ∈ rest → InGrid nLat nLon x := by
    intro x hx; exact hqg x (by rw [hq]; exact List.mem_cons_of_mem _ hx)
  by_cases hold : pr ∈ st.setNodesVisited
  · rw [searchBody_seen data dist nLat nLon dMaxDist pr rest st hold]
    exact hrest
  · by_cases hout : dMaxDist < dist pr
    · rw [searchBody_outside data dist nLat nLon dMaxDist pr rest st hold hout]
      exact hrest
    · rw [searchBody_expand data dist nLat nLon dMaxDist pr rest st hold (not_lt.1 hout)]
      intro q hqm
      rcases List.mem_append.1 hqm with h | h
      · exact hrest q h
      · exact fourNeighbour_inGrid hprg ((mem_neighbours hprg q).1 (List.mem_filter.1 h).1)

/-- A pass through the loop body lowers `searchMeasure`. -/
theorem searchBody_measure (data : DataMatrix V) (dist : Point → D) (nLat nLon : Int)
    (dMaxDist : D) (pr : Point) (rest : List Point) (st : SearchState V D)
    (grid : List Point) (hgrid : ∀ p, InGrid nLat nLon p → p ∈ grid)
    (hq : st.queueNodes = pr :: rest)
    (hqg : ∀ q ∈ st.queueNodes, InGrid nLat nLon q) :
    searchMeasure grid (searchBody data dist nLat nLon dMaxDist pr rest st) <
      searchMeasure grid st := by
  have hprg : pr ∈ grid := hgrid pr (hqg pr (by rw [hq]; exact List.mem_cons_self _ _))
  by_cases hold : pr ∈ st.setNodesVisited
  · rw [searchBody_seen data dist nLat nLon dMaxDist pr rest st hold]
    simp only [searchMeasure, hq, List.length_cons]
    omega
  · have hlt := unvisitedCount_insert_lt grid st.setNodesVisited pr hprg hold
    by_cases hout : dMaxDist < dist pr
    · rw [searchBody_outside data dist nLat nLon dMaxDist pr rest st hold hout]
      simp only [searchMeasure, hq, List.length_cons]
      omega
    · rw [searchBody_expand data dist nLat nLon dMaxDist pr rest st hold (not_lt.1 hout)]
      simp only [searchMeasure, hq, List.length_cons, List.length_append]
      have h4 := length_neighbours_le nLat nLon pr
      have hf := List.length_filter_le
        (fun n => !setFind n (setInsert pr st.setNodesVisited)) (neighbours nLat nLon pr)
      omega

/-- With a budget above `searchMeasure` the loop stops with an empty queue in
a state that satisfies the invariant. -/
theorem searchLoop_stops (data : DataMatrix V) (dist : Point → D) (nLat nLon : Int)
    (dMaxDist : D) (seed : Point) (grid : List Point)
    (hgrid : ∀ p, InGrid nLat nLon p → p ∈ grid) (hseed : dist seed ≤ dMaxDist) :
    ∀ (fuel : Nat) (st : SearchState V D),
      SearchInv data dist nLat nLon dMaxDist seed st → searchMeasure grid st < fuel →
      ∃ st', searchLoop data dist nLat nLon dMaxDist fuel st = some st' ∧
        SearchInv data dist nLat nLon dMaxDist seed st' ∧ st'.queueNodes = [] := by
  intro fuel
  induction fuel with
  | zero => intro st _ h; omega
  | succ fuel ih =>
    intro st inv hm
    cases hq : st.queueNodes with
    | nil =>
      refine ⟨st, ?_, inv, hq⟩
      simp only [searchLoop, hq]
    | cons pr rest =>
      have hi := searchBody_inv data dist nLat nLon dMaxDist seed pr rest st hseed hq inv
      have hd := searchBody_measure data dist nLat nLon dMaxDist pr rest st grid hgrid hq
        inv.queue_grid
      obtain ⟨st', h1, h2, h3⟩ := ih _ hi (by omega)
      refine ⟨st', ?_, h2, h3⟩
      simp only [searchLoop, hq]
      exact h1

/-- With a budget above `searchMeasure` the loop returns a state, whatever the
distances are. -/
theorem searchLoop_isSome (data : DataMatrix V) (dist : Point → D) (nLat nLon : Int)
    (dMaxDist : D) (grid : List Point)
    (hgrid : ∀ p, InGrid nLat nLon p → p ∈ grid) :
    ∀ (fuel : Nat) (st : SearchState V D),
      (∀ q ∈ st.queueNodes, InGrid nLat nLon q) → searchMeasure grid st < fuel →
      ∃ st', searchLoop data dist nLat nLon dMaxDist fuel st = some st' ∧
        st'.queueNodes = [] := by
  intro fuel
  induction fuel with
  | zero => intro st _ h; omega
  | succ fuel ih =>
    intro st hqg hm
    cases hq : st.queueNodes with
    | nil =>
      refine ⟨st, ?_, hq⟩
      simp only [searchLoop, hq]
    | cons pr rest =>
      have hi := searchBody_queue_grid data dist nLat nLon dMaxDist pr rest st hq hqg
      have hd := searchBody_measure data dist nLat nLon dMaxDist pr rest st grid hgrid hq hqg
      obtain ⟨st', h1, h2⟩ := ih _ hi (by omega)
      refine ⟨st', ?_, h2⟩
      simp only [searchLoop, hq]
      exact h1

/-- When the queue is empty every node of the region has been visited. -/
theorem reaches_visited (data : DataMatrix V) (dist : Point → D) (nLat nLon : Int)
    (dMaxDist : D) (seed : Point) (st : SearchState V D)
    (inv : SearchInv data dist nLat nLon dMaxDist seed st) (hempty : st.queueNodes = [])
    (p : Point) (hp : Reaches nLat nLon dist dMaxDist seed p) : p ∈ st.setNodesVisited := by
  obtain ⟨h0, h⟩ := hp
  induction h with
  | refl =>
    rcases inv.seed_seen with h | h
    · exact h
    · rw [hempty] at h; simp at h
  | tail hab hbc ih =>
    rename_i b c
    have hb : dist b ≤ dMaxDist := reaches_within ⟨h0, hab⟩
    rcases inv.closed b ih hb c hbc.1 with h | h
    · exact h
    · rw [hempty] at h; simp at h

/-- The initial state of the loop satisfies the invariant. -/
theorem searchInv_init (data : DataMatrix V) (dist : Point → D) (nLat nLon : Int)
    (dMaxDist : D) (seed : Point) (d0 : D) (hg : InGrid nLat nLon seed)
    (hseed : dist seed ≤ dMaxDist) (hd0 : d0 = dist seed) :
    SearchInv data dist nLat nLon dMaxDist seed
      { queueNodes := [seed], setNodesVisited := [],
        out := { prMaximum := seed, dMaxValue := data.val seed.1 seed.2, dRMax := d0 } } := by
  refine ⟨?_, ?_, ?_, ?_, ?_, ?_, rfl, hd0, ⟨hseed, Relation.ReflTransGen.refl⟩, ?_⟩
  · intro q hq
    simp only [List.mem_singleton] at hq
    exact hq ▸ hg
  · intro v hv; simp at hv
  · intro q hq
    simp only [List.mem_singleton] at hq
    exact Or.inl hq
  · intro v hv; simp at hv
  · exact Or.inr (List.mem_singleton.2 rfl)
  · intro v hv; simp at hv
  · intro v hv; simp at hv

theorem reaches_inGrid {nLat nLon : Int} {dist : Point → D} {dMaxDist : D} {seed p : Point}
    (hg : InGrid nLat nLon seed) (hp : Reaches nLat nLon dist dMaxDist seed p) :
    InGrid nLat nLon p := by
  obtain ⟨_, h⟩ := hp
  induction h with
  | refl => exact hg
  | tail _ hbc ih => exact fourNeighbour_inGrid ih hbc.1

/-- When every node of the grid is within the radius, the region of an
in-range seed is the whole grid: rows are joined by north/south steps and
columns by east/west steps. -/
theorem reaches_all {nLat nLon : Int} {dist : Point → D} {dMaxDist : D} {seed : Point}
    (hall : ∀ p, InGrid nLat nLon p → dist p ≤ dMaxDist) (hg : InGrid nLat nLon seed)
    (p : Point) (hp : InGrid nLat nLon p) : Reaches nLat nLon dist dMaxDist seed p := by
  refine ⟨hall seed hg, ?_⟩
  have north : ∀ (k : Nat) (j i : Int), 0 ≤ j → j + k < nLat → 0 ≤ i → i < nLon →
      Relation.ReflTransGen (fun a b => FourNeighbour nLat nLon a b ∧ dist b ≤ dMaxDist)
        (j, i) (j + k, i) := by
    intro k
    induction k with
    | zero => intro j i _ _ _ _; simp only [Nat.cast_zero, add_zero]; exact Relation.ReflTransGen.refl
    | succ k ih =>
      intro j i h1 h2 h3 h4
      push_cast at h2 ⊢
      refine Relation.ReflTransGen.tail (ih j i h1 (by omega) h3 h4) ⟨?_, ?_⟩
      · exact Or.inr ⟨rfl, Or.inl (by simp only; omega), by simp only; omega, by simp only; omega⟩
      · exact hall _ ⟨by simp only; omega, by simp only; omega, h3, h4⟩
  have south : ∀ (k : Nat) (j i : Int), 0 ≤ j → j + k < nLat → 0 ≤ i → i < nLon →
      Relation.ReflTransGen (fun a b => FourNeighbour nLat nLon a b ∧ dist b ≤ dMaxDist)
        (j + k, i) (j, i) := by
    intro k
    induction k with
    | zero => intro j i _ _ _ _; simp only [Nat.cast_zero, add_zero]; exact Relation.ReflTransGen.refl
    | succ k ih =>
      intro j i h1 h2 h3 h4
      push_cast at h2 ⊢
      refine Relation.ReflTransGen.head ⟨?_, ?_⟩ (ih j i h1 (by omega) h3 h4)
      · exact Or.inr ⟨rfl, Or.inr (by simp only; omega), by simp only; omega, by simp only; omega⟩
      · exact hall _ ⟨by simp only; omega, by simp only; omega, h3, h4⟩
  have east : ∀ (k : Nat) (j i : Int), 0 ≤ j → j < nLat → 0 ≤ i → i + k < nLon →
      Relation.ReflTransGen (fun a b => FourNeighbour nLat nLon a b ∧ dist b ≤ dMaxDist)
        (j, i) (j, i + k) := by
    intro k
    induction k with
    | zero => intro j i _ _ _ _; simp only [Nat.cast_zero, add_zero]; exact Relation.ReflTransGen.refl
    | succ k ih =>
      intro j i h1 h2 h3 h4
      push_cast at h2 h4 ⊢
      refine Relation.ReflTransGen.tail (ih j i h1 h2 h3 (by omega)) ⟨?_, ?_⟩
      · refine Or.inl ⟨rfl, Or.inl ?_⟩
        simp only
        rw [Int.emod_eq_of_lt (by omega) (by omega)]
        ring
      · exact hall _ ⟨h1, h2, by simp only; omega, by simp only; omega⟩
  have west : ∀ (k : Nat) (j i : Int), 0 ≤ j → j < nLat → 0 ≤ i → i + k < nLon →
      Relation.ReflTransGen (fun a b => FourNeighbour nLat nLon a b ∧ dist b ≤ dMaxDist)
        (j, i + k) (j, i) := by
    intro k
    induction k with
    | zero => intro j i _ _ _ _; simp only [Nat.cast_zero, add_zero]; exact Relation.ReflTransGen.refl
    | succ k ih =>
      intro j i h1 h2 h3 h4
      push_cast at h2 h4 ⊢
      refine Relation.ReflTransGen.head ⟨?_, ?_⟩ (ih j i h1 h2 h3 (by omega))
      · refine Or.inl ⟨rfl, Or.inr ?_⟩
        simp only
        rw [Int.emod_eq_of_lt (by omega) (by omega)]
        ring
      · exact hall _ ⟨h1, h2, by simp only; omega, by simp only; omega⟩
  obtain ⟨j0, i0⟩ := seed
  obtain ⟨j, i⟩ := p
  obtain ⟨a1, a2, a3, a4⟩ := hg
  obtain ⟨b1, b2, b3, b4⟩ := hp
  simp only at a1 a2 a3 a4 b1 b2 b3 b4
  have s1 := south j0.toNat 0 i0 (le_refl _) (by omega) a3 a4
  have s2 := west i0.toNat 0 0 (le_refl _) (by omega) (le_refl _) (by omega)
  have s3 := north j.toNat 0 0 (le_refl _) (by omega) (le_refl _) (by omega)
  have s4 := east i.toNat j 0 b1 b2 (le_refl _) (by omega)
  have e1 : (0 : Int) + (j0.toNat : Int) = j0 := by omega
  have e2 : (0 : Int) + (i0.toNat : Int) = i0 := by omega
  have e3 : (0 : Int) + (j.toNat : Int) = j := by omega
  have e4 : (0 : Int) + (i.toNat : Int) = i := by omega
  rw [e1] at s1
  rw [e2] at s2
  rw [e3] at s3
  rw [e4] at s4
  exact (s1.trans s2).trans (s3.trans s4)

end Search

theorem searchMeasure_init {V D : Type} (nLat nLon : Nat) (seed : Point) (out : MaxOutputs V D) :
    searchMeasure (gridRows nLon nLat)
      ({ queueNodes := [seed], setNodesVisited := [], out := out } : SearchState V D)
      < 4 * nLat * nLon + 2 := by
  have h := unvisitedCount_le (gridRows nLon nLat) []
  rw [length_gridRows] at h
  simp only [searchMeasure, List.length_singleton]
  have : 4 * nLat * nLon = 4 * (nLat * nLon) := by ring
  omega

section Run

variable {V C D : Type} [LinearOrder V] [LinearOrderedRing D]

/-- For an in-range seed the loop of `FindLocalMaximum` stops within its
budget, for every distance function and every radius. -/
theorem searchRun_isSome (greatCircle : C → C → C → C → D) (data : DataMatrix V)
    (dataLon dataLat : DataVector C) (iLat iLon : Int) (dMaxDist : D)
    (hg : InGrid (dataLat.nRows : Int) (dataLon.nRows : Int) (iLat, iLon)) :
    ∃ st, searchRun greatCircle data dataLon dataLat iLat iLon dMaxDist = some st ∧
      st.queueNodes = [] := by
  unfold searchRun
  apply searchLoop_isSome data _ _ _ dMaxDist (gridRows dataLon.nRows dataLat.nRows)
    (fun p hp => (mem_gridRows _ _ p).2 hp)
  · intro q hq
    simp only [List.mem_singleton] at hq
    exact hq ▸ hg
  · exact searchMeasure_init _ _ _ _

/-- For an in-range seed at distance `0` from itself and a radius `≥ 0`, the
loop of `FindLocalMaximum` stops with an empty queue in a state satisfying the
invariant. -/
theorem searchRun_spec (greatCircle : C → C → C → C → D) (data : DataMatrix V)
    (dataLon dataLat : DataVector C) (iLat iLon : Int) (dMaxDist : D)
    (hg : InGrid (dataLat.nRows : Int) (dataLon.nRows : Int) (iLat, iLon))
    (hself : greatCircle (dataLat.val iLat) (dataLon.val iLon)
      (dataLat.val iLat) (dataLon.val iLon) = 0)
    (h0 : 0 ≤ dMaxDist) :
    ∃ st, searchRun greatCircle data dataLon dataLat iLat iLon dMaxDist = some st ∧
      SearchInv data
        (fun pr => greatCircle (dataLat.val iLat) (dataLon.val iLon)
          (dataLat.val pr.1) (dataLon.val pr.2))
        (dataLat.nRows : Int) (dataLon.nRows : Int) dMaxDist (iLat, iLon) st ∧
      st.queueNodes = [] := by
  unfold searchRun
  have hseed : (fun pr : Point => greatCircle (dataLat.val iLat) (dataLon.val iLon)
      (dataLat.val pr.1) (dataLon.val pr.2)) (iLat, iLon) ≤ dMaxDist := by
    simp only [hself]; exact h0
  apply searchLoop_stops data _ _ _ dMaxDist (iLat, iLon) (gridRows dataLon.nRows dataLat.nRows)
    (fun p hp => (mem_gridRows _ _ p).2 hp) hseed
  · exact searchInv_init data _ _ _ dMaxDist (iLat, iLon) 0 hg hseed (by simp only [hself])
  · exact searchMeasure_init _ _ _ _

theorem FindLocalMaximum_of_run (greatCircle : C → C → C → C → D) (data : DataMatrix V)
    (dataLon dataLat : DataVector C) (iLat iLon : Int) (dMaxDist : D)
    (out0 : MaxOutputs V D) (st : SearchState V D) (h180 : dMaxDist ≤ 180)
    (hrun : searchRun greatCircle data dataLon dataLat iLat iLon dMaxDist = some st) :
    FindLocalMaximum greatCircle data dataLon dataLat iLat iLon dMaxDist out0 =
      (st.out, none) := by
  unfold FindLocalMaximum
  rw [if_neg (not_lt.2 h180), hrun]

end Run

/-! ### The great-circle distance over the reals -/

theorem greatCircleDeg_self (a b : ℝ) : greatCircleDeg a b a b = 0 := by
  unfold greatCircleDeg
  have h : Real.sin a * Real.sin a + Real.cos a * Real.cos a * Real.cos (b - b) = 1 := by
    rw [sub_self, Real.cos_zero, mul_one, ← sq, ← sq]
    exact Real.sin_sq_add_cos_sq a
  rw [h, Real.arccos_one, mul_zero]

theorem greatCircleDeg_le (a b c d : ℝ) : greatCircleDeg a b c d ≤ 180 := by
  unfold greatCircleDeg
  have hpi := Real.pi_pos
  calc 180 / Real.pi * Real.arccos _ ≤ 180 / Real.pi * Real.pi :=
        mul_le_mul_of_nonneg_left (Real.arccos_le_pi _) (div_nonneg (by norm_num) hpi.le)
    _ = 180 := by field_simp

/-- C4: for an in-range seed (so `nLat, nLon ≥ 1`) the call with
`dMaxDist = 180` visits every node of the grid and returns without raising;
`dMaxValue` bounds the field over all nodes and is the value at `prMaximum`,
a node of the grid. -/
theorem C4_global_maximum {V : Type} [LinearOrder V] (data : DataMatrix V)
    (dataLon dataLat : DataVector ℝ) (iLat iLon : Int) (out0 : MaxOutputs V ℝ)
    (hg : InGrid (dataLat.nRows : Int) (dataLon.nRows : Int) (iLat, iLon)) :
    ∃ st, searchRun greatCircleDeg data dataLon dataLat iLat iLon 180 = some st ∧
      (∀ p : Point, InGrid (dataLat.nRows : Int) (dataLon.nRows : Int) p →
        p ∈ st.setNodesVisited) ∧
      FindLocalMaximum greatCircleDeg data dataLon dataLat iLat iLon 180 out0
        = (st.out, none) ∧
      (∀ p : Point, InGrid (dataLat.nRows : Int) (dataLon.nRows : Int) p →
        data.val p.1 p.2 ≤ st.out.dMaxValue) ∧
      InGrid (dataLat.nRows : Int) (dataLon.nRows : Int) st.out.prMaximum ∧
      st.out.dMaxValue = data.val st.out.prMaximum.1 st.out.prMaximum.2 := by
  obtain ⟨st, hrun, inv, hempty⟩ := searchRun_spec greatCircleDeg data dataLon dataLat iLat iLon
    180 hg (greatCircleDeg_self _ _) (by norm_num)
  have hall : ∀ p : Point, InGrid (dataLat.nRows : Int) (dataLon.nRows : Int) p →
      (fun pr : Point => greatCircleDeg (dataLat.val iLat) (dataLon.val iLon)
        (dataLat.val pr.1) (dataLon.val pr.2)) p ≤ 180 :=
    fun p _ => greatCircleDeg_le _ _ _ _
  have hvis : ∀ p : Point, InGrid (dataLat.nRows : Int) (dataLon.nRows : Int) p →
      p ∈ st.setNodesVisited :=
    fun p hp => reaches_visited data _ _ _ _ _ st inv hempty p (reaches_all hall hg p hp)
  refine ⟨st, hrun, hvis, FindLocalMaximum_of_run _ _ _ _ _ _ _ _ _ (le_refl _) hrun, ?_,
    reaches_inGrid hg inv.out_reach, inv.out_val⟩
  intro p hp
  exact inv.out_max p (hvis p hp) (greatCircleDeg_le _ _ _ _)

theorem C4_global_maximum_witness :
    ∃ st, searchRun greatCircleDeg stepField quarterLon equatorLat 0 0 180 = some st ∧
      (∀ p : Point, InGrid (equatorLat.nRows : Int) (quarterLon.nRows : Int) p →
        p ∈ st.setNodesVisited) ∧
      FindLocalMaximum greatCircleDeg stepField quarterLon equatorLat 0 0 180 staleOutputs
        = (st.out, none) ∧
      (∀ p : Point, InGrid (equatorLat.nRows : Int) (quarterLon.nRows : Int) p →
        stepField.val p.1 p.2 ≤ st.out.dMaxValue) ∧
      InGrid (equatorLat.nRows : Int) (quarterLon.nRows : Int) st.out.prMaximum ∧
      st.out.dMaxValue = stepField.val st.out.prMaximum.1 st.out.prMaximum.2 :=
  C4_global_maximum stepField quarterLon equatorLat 0 0 staleOutputs (by decide)

/-- C10: `FindLocalMaximum` raises exactly when `dMaxDist > 180`. For every
`dMaxDist > 180` it raises and leaves the three outputs as they were; for every
`dMaxDist ≤ 180` (180 included) and in-range seed it returns a result without
raising. -/
theorem C10_raises_iff_above_180 {V : Type} [LinearOrder V] (data : DataMatrix V)
    (dataLon dataLat : DataVector ℝ) (iLat iLon : Int) (dMaxDist : ℝ) (out0 : MaxOutputs V ℝ) :
    (180 < dMaxDist →
        FindLocalMaximum greatCircleDeg data dataLon dataLat iLat iLon dMaxDist out0 =
          (out0, some (Failure.exception "MaxDist must be less than 180.0"))) ∧
      (InGrid (dataLat.nRows : Int) (dataLon.nRows : Int) (iLat, iLon) → dMaxDist ≤ 180 →
        ∃ r, FindLocalMaximum greatCircleDeg data dataLon dataLat iLat iLon dMaxDist out0 =
          (r, none)) ∧
      (InGrid (dataLat.nRows : Int) (dataLon.nRows : Int) (iLat, iLon) →
        ((FindLocalMaximum greatCircleDeg data dataLon dataLat iLat iLon dMaxDist out0).2 ≠ none
          ↔ 180 < dMaxDist)) := by
  have hraise : 180 < dMaxDist →
      FindLocalMaximum greatCircleDeg data dataLon dataLat iLat iLon dMaxDist out0 =
        (out0, some (Failure.exception "MaxDist must be less than 180.0")) := by
    intro h
    unfold FindLocalMaximum
    rw [if_pos h]
  have hret : InGrid (dataLat.nRows : Int) (dataLon.nRows : Int) (iLat, iLon) →
      dMaxDist ≤ 180 →
      ∃ r, FindLocalMaximum greatCircleDeg data dataLon dataLat iLat iLon dMaxDist out0 =
        (r, none) := by
    intro hg h
    obtain ⟨st, hrun, _⟩ := searchRun_isSome greatCircleDeg data dataLon dataLat iLat iLon
      dMaxDist hg
    exact ⟨st.out, FindLocalMaximum_of_run _ _ _ _ _ _ _ _ _ h hrun⟩
  refine ⟨hraise, hret, fun hg => ⟨?_, ?_⟩⟩
  · intro hne
    by_contra hle
    obtain ⟨r, hr⟩ := hret hg (not_lt.1 hle)
    rw [hr] at hne
    exact hne rfl
  · intro h
    rw [hraise h]
    simp

theorem C10_raises_iff_above_180_witness :
    FindLocalMaximum greatCircleDeg stepField quarterLon equatorLat 0 0 181 staleOutputs =
        (staleOutputs, some (Failure.exception "MaxDist must be less than 180.0")) ∧
      (∃ r, FindLocalMaximum greatCircleDeg stepField quarterLon equatorLat 0 0 180
        staleOutputs = (r, none)) :=
  ⟨(C10_raises_iff_above_180 stepField quarterLon equatorLat 0 0 181 staleOutputs).1
      (by norm_num),
    (C10_raises_iff_above_180 stepField quarterLon equatorLat 0 0 180 staleOutputs).2.1
      (by decide) (le_refl _)⟩
/-! ## The blob filter -/

theorem mem_setErase (a x : Point) (s : List Point) : x ∈ setErase a s ↔ x ∈ s ∧ x ≠ a := by
  simp [setErase, List.mem_filter]

theorem length_setErase_le (a : Point) (s : List Point) : (setErase a s).length ≤ s.length :=
  List.length_filter_le _ _

theorem length_setErase_lt (a : Point) (s : List Point) (h : a ∈ s) :
    (setErase a s).length < s.length := by
  induction s with
  | nil => simp at h
  | cons b s ih =>
    unfold setErase at ih ⊢
    by_cases hb : b = a
    · have := List.length_filter_le (fun c => !decide (c = a)) s
      simp only [List.filter_cons, hb, decide_True, Bool.not_true, Bool.false_eq_true, if_false,
        List.length_cons]
      omega
    · have ha : a ∈ s := by
        rcases List.mem_cons.1 h with h | h
        · exact absurd h.symm hb
        · exact h
      simp only [List.filter_cons, hb, decide_False, Bool.not_false, if_true, List.length_cons]
      have := ih ha
      omega

theorem length_setInsert_le (a : Point) (s : List Point) :
    (setInsert a s).length ≤ s.length + 1 := by
  induction s with
  | nil => simp [setInsert]
  | cons b s ih =>
    unfold setInsert
    split
    · simp
    · split
      · simp
      · simp only [List.length_cons]; omega

theorem nodup_setInsert (a : Point) (s : List Point) (ha : a ∉ s) (hs : s.Nodup) :
    (setInsert a s).Nodup := by
  induction s with
  | nil => simp [setInsert]
  | cons b s ih =>
    have hab : a ≠ b := fun h => ha (h ▸ List.mem_cons_self _ _)
    have has : a ∉ s := fun h => ha (List.mem_cons_of_mem _ h)
    unfold setInsert
    split
    · exact List.nodup_cons.2 ⟨ha, hs⟩
    · have hs' := List.nodup_cons.1 hs
      refine List.nodup_cons.2 ⟨?_, ih has hs'.2⟩
      rw [mem_setInsert]
      rintro (h | h)
      · exact hab h.symm
      · exact hs'.1 h

theorem nodup_setErase (a : Point) (s : List Point) (hs : s.Nodup) : (setErase a s).Nodup :=
  List.Nodup.filter _ hs

theorem exploreNeighbourhood_eq (nLat nLon : Int) (pt : Point) (st : List Point × List Point) :
    exploreNeighbourhood nLat nLon pt st =
      offsetPairs.foldl (fun st o => exploreOffset nLat nLon pt o.1 o.2 st) st := by
  simp [exploreNeighbourhood, stencilOffsets, offsetPairs]

/-- The column computed by lines 496-501 is the column mod `nLon`. -/
theorem wrap_column (nLon i d : Int) (h1 : 0 ≤ i) (h2 : i < nLon) (hd1 : -1 ≤ d) (hd2 : d ≤ 1) :
    (if (if i + d < 0 then i + d + nLon else i + d) ≥ nLon
      then (if i + d < 0 then i + d + nLon else i + d) - nLon
      else (if i + d < 0 then i + d + nLon else i + d)) = (i + d) % nLon := by
  by_cases hneg : i + d < 0
  · rw [if_pos hneg, if_neg (by omega)]
    rw [← Int.add_emod_self, Int.emod_eq_of_lt (by omega) (by omega)]
  · rw [if_neg hneg]
    by_cases hge : i + d ≥ nLon
    · rw [if_pos hge]
      have : i + d = nLon := by omega
      rw [this, Int.emod_self]
      omega
    · rw [if_neg hge, Int.emod_eq_of_lt (by omega) (by omega)]

theorem wrappedNeighbour_eq (nLat nLon : Int) (pt : Point) (j i : Int)
    (h1 : 0 ≤ pt.2) (h2 : pt.2 < nLon) (hi1 : -1 ≤ i) (hi2 : i ≤ 1) :
    wrappedNeighbour nLat nLon pt j i =
      if pt.1 + j < 0 ∨ pt.1 + j ≥ nLat then none else some (pt.1 + j, (pt.2 + i) % nLon) := by
  unfold wrappedNeighbour
  simp only
  by_cases a : pt.1 + j < 0
  · simp [a]
  · by_cases b : pt.1 + j ≥ nLat
    · simp [a, b]
    · have hab : ¬ (pt.1 + j < 0 ∨ pt.1 + j ≥ nLat) := by tauto
      rw [if_neg a, if_neg b, wrap_column nLon pt.2 i h1 h2 hi1 hi2, if_neg hab]

theorem mem_offsetPairs (o : Int × Int) :
    o ∈ offsetPairs ↔ (o.1 = -1 ∨ o.1 = 0 ∨ o.1 = 1) ∧ (o.2 = -1 ∨ o.2 = 0 ∨ o.2 = 1) := by
  obtain ⟨a, b⟩ := o
  simp only [offsetPairs, List.mem_cons, Prod.mk.injEq, List.mem_singleton, List.not_mem_nil,
    or_false]
  constructor
  · rintro (h | h | h | h | h | h | h | h | h) <;> simp [h.1, h.2]
  · rintro ⟨rfl | rfl | rfl, rfl | rfl | rfl⟩ <;> simp

/-- The nodes looked up around an in-range node are its adjacent nodes. -/
theorem wrappedNeighbour_iff (nLat nLon : Int) (pt x : Point) (hp : InGrid nLat nLon pt) :
    (∃ o ∈ offsetPairs, wrappedNeighbour nLat nLon pt o.1 o.2 = some x) ↔
      SegAdjacent nLat nLon pt x := by
  obtain ⟨g1, g2, g3, g4⟩ := hp
  constructor
  · rintro ⟨o, ho, hw⟩
    rw [mem_offsetPairs] at ho
    rw [wrappedNeighbour_eq nLat nLon pt o.1 o.2 g3 g4 (by omega) (by omega)] at hw
    split at hw
    · simp at hw
    · rename_i hr
      simp only [Option.some.injEq] at hw
      subst hw
      refine ⟨g1, g2, by simp only; omega, by simp only; omega, by simp only; omega, ?_⟩
      simp only
      rcases ho.2 with h | h | h
      · left; rw [h]; rfl
      · right; left; rw [h, add_zero]
      · right; right; rw [h]
  · rintro ⟨a1, a2, a3, a4, a5, a6⟩
    have hrow : ∃ dj : Int, (dj = -1 ∨ dj = 0 ∨ dj = 1) ∧ x.1 = pt.1 + dj := by
      rcases a5 with h | h | h
      · exact ⟨-1, Or.inl rfl, by omega⟩
      · exact ⟨0, Or.inr (Or.inl rfl), by omega⟩
      · exact ⟨1, Or.inr (Or.inr rfl), by omega⟩
    have hcol : ∃ di : Int, (di = -1 ∨ di = 0 ∨ di = 1) ∧ x.2 = (pt.2 + di) % nLon := by
      rcases a6 with h | h | h
      · exact ⟨-1, Or.inl rfl, h⟩
      · exact ⟨0, Or.inr (Or.inl rfl), by rw [add_zero]; exact h⟩
      · exact ⟨1, Or.inr (Or.inr rfl), h⟩
    obtain ⟨dj, hdj, ej⟩ := hrow
    obtain ⟨di, hdi, ei⟩ := hcol
    refine ⟨(dj, di), (mem_offsetPairs _).2 ⟨hdj, hdi⟩, ?_⟩
    rw [wrappedNeighbour_eq nLat nLon pt dj di g3 g4 (by omega) (by omega)]
    rw [if_neg (by omega)]
    simp only [Option.some.injEq]
    rw [← ej, ← ei]

theorem exploreOffset_cases (nLat nLon : Int) (pt : Point) (j i : Int) (B E : List Point) :
    (exploreOffset nLat nLon pt j i (B, E) = (B, E) ∧
        ∀ x, wrappedNeighbour nLat nLon pt j i = some x → x ∉ B) ∨
      (∃ pt2, wrappedNeighbour nLat nLon pt j i = some pt2 ∧ pt2 ∈ B ∧
        exploreOffset nLat nLon pt j i (B, E) = (setErase pt2 B, setInsert pt2 E)) := by
  unfold exploreOffset
  cases hw : wrappedNeighbour nLat nLon pt j i with
  | none => exact Or.inl ⟨rfl, fun x hx => by simp at hx⟩
  | some pt2 =>
    by_cases hf : pt2 ∈ B
    · refine Or.inr ⟨pt2, rfl, hf, ?_⟩
      simp only [(setFind_iff pt2 B).2 hf, if_true]
    · refine Or.inl ⟨?_, ?_⟩
      · have : setFind pt2 B = false := by simpa [setFind] using hf
        simp only [this, Bool.false_eq_true, if_false]
      · intro x hx
        simp only [Option.some.injEq] at hx
        exact hx ▸ hf

/-- What the loops over the offsets do to `(setBlobs, setPointsToExplore)`:
the looked-up nodes found in `setBlobs` move to `setPointsToExplore`. -/
theorem exploreFold_spec (nLat nLon : Int) (pt : Point) (l : List (Int × Int)) :
    ∀ B E : List Point,
      (∀ x, x ∈ (l.foldl (fun st o => exploreOffset nLat nLon pt o.1 o.2 st) (B, E)).1 ↔
        x ∈ B ∧ ∀ o ∈ l, wrappedNeighbour nLat nLon pt o.1 o.2 ≠ some x) ∧
      (∀ x, x ∈ (l.foldl (fun st o => exploreOffset nLat nLon pt o.1 o.2 st) (B, E)).2 ↔
        x ∈ E ∨ (x ∈ B ∧ ∃ o ∈ l, wrappedNeighbour nLat nLon pt o.1 o.2 = some x)) ∧
      (l.foldl (fun st o => exploreOffset nLat nLon pt o.1 o.2 st) (B, E)).1.length +
        (l.foldl (fun st o => exploreOffset nLat nLon pt o.1 o.2 st) (B, E)).2.length
          ≤ B.length + E.length ∧
      (B.Nodup → E.Nodup → (∀ x ∈ B, x ∉ E) →
        (l.foldl (fun st o => exploreOffset nLat nLon pt o.1 o.2 st) (B, E)).1.Nodup ∧
        (l.foldl (fun st o => exploreOffset nLat nLon pt o.1 o.2 st) (B, E)).2.Nodup) := by
  induction l with
  | nil =>
    intro B E
    exact ⟨by simp, by simp, by simp, fun hB hE _ => ⟨hB, hE⟩⟩
  | cons o l ih =>
    intro B E
    simp only [List.foldl_cons]
    rcases exploreOffset_cases nLat nLon pt o.1 o.2 B E with ⟨heq, hnot⟩ | ⟨pt2, hw, hin, heq⟩
    · rw [heq]
      obtain ⟨i1, i2, i3, i4⟩ := ih B E
      refine ⟨?_, ?_, i3, i4⟩
      · intro x
        rw [i1 x]
        simp only [List.mem_cons, forall_eq_or_imp]
        constructor
        · rintro ⟨hx, h⟩
          exact ⟨hx, fun hc => hnot x hc hx, h⟩
        · rintro ⟨hx, _, h⟩
          exact ⟨hx, h⟩
      · intro x
        rw [i2 x]
        simp only [List.mem_cons, exists_eq_or_imp]
        constructor
        · rintro (h | ⟨hx, h⟩)
          · exact Or.inl h
          · exact Or.inr ⟨hx, Or.inr h⟩
        · rintro (h | ⟨hx, hc | h⟩)
          · exact Or.inl h
          · exact absurd hx (hnot x hc)
          · exact Or.inr ⟨hx, h⟩
    · rw [heq]
      obtain ⟨i1, i2, i3, i4⟩ := ih (setErase pt2 B) (setInsert pt2 E)
      refine ⟨?_, ?_, ?_, ?_⟩
      · intro x
        rw [i1 x, mem_setErase]
        simp only [List.mem_cons, forall_eq_or_imp]
        constructor
        · rintro ⟨⟨hx, hne⟩, h⟩
          refine ⟨hx, ?_, h⟩
          rw [hw]
          intro hc
          simp only [Option.some.injEq] at hc
          exact hne hc.symm
        · rintro ⟨hx, hne, h⟩
          refine ⟨⟨hx, ?_⟩, h⟩
          intro hc
          apply hne
          rw [hw, hc]
      · intro x
        rw [i2 x, mem_setInsert, mem_setErase]
        simp only [List.mem_cons, exists_eq_or_imp]
        constructor
        · rintro ((h | h) | ⟨⟨hx, _⟩, h⟩)
          · exact Or.inr ⟨h ▸ hin, Or.inl (by rw [hw, h])⟩
          · exact Or.inl h
          · exact Or.inr ⟨hx, Or.inr h⟩
        · rintro (h | ⟨hx, hc | h⟩)
          · exact Or.inl (Or.inr h)
          · rw [hw] at hc
            simp only [Option.some.injEq] at hc
            exact Or.inl (Or.inl hc.symm)
          · by_cases hxe : x = pt2
            · exact Or.inl (Or.inl hxe)
            · exact Or.inr ⟨⟨hx, hxe⟩, h⟩
      · have h1 := length_setErase_lt pt2 B hin
        have h2 := length_setInsert_le pt2 E
        omega
      · intro hB hE hd
        apply i4 (nodup_setErase _ _ hB) (nodup_setInsert _ _ (hd pt2 hin) hE)
        intro x hx
        rw [mem_setErase] at hx
        rw [mem_setInsert]
        rintro (h | h)
        · exact hx.2 h
        · exact hd x hx.1 h

/-- One pass of the inner loop: the state it produces. -/
theorem floodLoop_succ (nLat nLon : Int) (fuel : Nat) (st : FloodState) (pt : Point)
    (rest : List Point) (h : st.setPointsToExplore = pt :: rest) :
    floodLoop nLat nLon (fuel + 1) st =
      floodLoop nLat nLon fuel
        { setBlobs := (exploreNeighbourhood nLat nLon pt (st.setBlobs, rest)).1,
          setPointsToExplore := (exploreNeighbourhood nLat nLon pt (st.setBlobs, rest)).2,
          setThisBlob := setInsert pt st.setThisBlob } := by
  simp only [floodLoop, h]

theorem floodLoop_done (nLat nLon : Int) (fuel : Nat) (st : FloodState)
    (h : st.setPointsToExplore = []) : floodLoop nLat nLon (fuel + 1) st = some st := by
  simp only [floodLoop, h]

/-- A pass through the inner loop keeps the invariant and lowers
`|setBlobs| + |setPointsToExplore|`. -/
theorem floodStep_inv (nLat nLon : Int) (S0 : List Point) (pt0 : Point) (st : FloodState)
    (hgrid : ∀ x ∈ S0, InGrid nLat nLon x) (pt : Point) (rest : List Point)
    (hq : st.setPointsToExplore = pt :: rest) (inv : FloodInv nLat nLon S0 pt0 st) :
    FloodInv nLat nLon S0 pt0
        { setBlobs := (exploreNeighbourhood nLat nLon pt (st.setBlobs, rest)).1,
          setPointsToExplore := (exploreNeighbourhood nLat nLon pt (st.setBlobs, rest)).2,
          setThisBlob := setInsert pt st.setThisBlob } ∧
      (exploreNeighbourhood nLat nLon pt (st.setBlobs, rest)).1.length +
        (exploreNeighbourhood nLat nLon pt (st.setBlobs, rest)).2.length <
          st.setBlobs.length + st.setPointsToExplore.length := by
  have hpte : pt ∈ st.setPointsToExplore := by rw [hq]; exact List.mem_cons_self _ _
  have hptS : pt ∈ S0 := (inv.part pt).2 (Or.inr (Or.inl hpte))
  have hptg : InGrid nLat nLon pt := hgrid pt hptS
  have hnd := inv.nodup_e
  rw [hq] at hnd
  have hnd' := List.nodup_cons.1 hnd
  have hrest : ∀ x, x ∈ rest → x ∈ st.setPointsToExplore := by
    intro x hx; rw [hq]; exact List.mem_cons_of_mem _ hx
  have hecases : ∀ x, x ∈ st.setPointsToExplore → x = pt ∨ x ∈ rest := by
    intro x hx; rw [hq] at hx; exact List.mem_cons.1 hx
  obtain ⟨f1, f2, f3, f4⟩ := exploreFold_spec nLat nLon pt offsetPairs st.setBlobs rest
  rw [← exploreNeighbourhood_eq] at f1 f2 f3 f4
  have m1 : ∀ x, x ∈ (exploreNeighbourhood nLat nLon pt (st.setBlobs, rest)).1 ↔
      x ∈ st.setBlobs ∧ ¬ SegAdjacent nLat nLon pt x := by
    intro x
    rw [f1 x, ← wrappedNeighbour_iff nLat nLon pt x hptg]
    simp only [not_exists, not_and]
  have m2 : ∀ x, x ∈ (exploreNeighbourhood nLat nLon pt (st.setBlobs, rest)).2 ↔
      x ∈ rest ∨ (x ∈ st.setBlobs ∧ SegAdjacent nLat nLon pt x) := by
    intro x
    rw [f2 x, ← wrappedNeighbour_iff nLat nLon pt x hptg]
  have hdisj : ∀ x ∈ st.setBlobs, x ∉ rest := fun x hx hr => inv.disj_be x hx (hrest x hr)
  obtain ⟨n1, n2⟩ := f4 inv.nodup_b hnd'.2 hdisj
  refine ⟨⟨?_, ?_, ?_, ?_, n1, n2, ?_, ?_, ?_, ?_⟩, ?_⟩
  · intro x
    simp only [m1, m2, mem_setInsert]
    rw [inv.part x]
    constructor
    · rintro (h | h | h)
      · by_cases ha : SegAdjacent nLat nLon pt x
        · exact Or.inr (Or.inl (Or.inr ⟨h, ha⟩))
        · exact Or.inl ⟨h, ha⟩
      · rcases hecases x h with h | h
        · exact Or.inr (Or.inr (Or.inl h))
        · exact Or.inr (Or.inl (Or.inl h))
      · exact Or.inr (Or.inr (Or.inr h))
    · rintro (⟨h, _⟩ | (h | ⟨h, _⟩) | (h | h))
      · exact Or.inl h
      · exact Or.inr (Or.inl (hrest x h))
      · exact Or.inl h
      · exact Or.inr (Or.inl (h ▸ hpte))
      · exact Or.inr (Or.inr h)
  · intro x hx
    simp only [m1] at hx
    simp only [m2]
    rintro (h | ⟨_, h⟩)
    · exact hdisj x hx.1 h
    · exact hx.2 h
  · intro x hx
    simp only [m1] at hx
    simp only [mem_setInsert]
    rintro (h | h)
    · exact inv.disj_be x hx.1 (h ▸ hpte)
    · exact inv.disj_bt x hx.1 h
  · intro x hx
    simp only [m2] at hx
    simp only [mem_setInsert]
    rintro (h | h)
    · rcases hx with hx | ⟨hx, _⟩
      · exact hnd'.1 (h ▸ hx)
      · exact inv.disj_be x hx (h ▸ hpte)
    · rcases hx with hx | ⟨hx, _⟩
      · exact inv.disj_et x (hrest x hx) h
      · exact inv.disj_bt x hx h
  · exact nodup_setInsert pt _ (inv.disj_et pt hpte) inv.nodup_t
  · intro x hx
    simp only [m2, mem_setInsert] at hx
    rcases hx with (hx | ⟨hx, ha⟩) | (hx | hx)
    · exact inv.conn x (Or.inl (hrest x hx))
    · exact Relation.ReflTransGen.tail (inv.conn pt (Or.inl hpte))
        ⟨ha, (inv.part x).2 (Or.inl hx)⟩
    · exact hx ▸ inv.conn pt (Or.inl hpte)
    · exact inv.conn x (Or.inr hx)
  · intro t ht b hb
    simp only [mem_setInsert] at ht
    simp only [m1] at hb
    rcases ht with ht | ht
    · rw [ht]; exact hb.2
    · exact inv.closed t ht b hb.1
  · simp only [m2, mem_setInsert]
    rcases inv.seed with h | h
    · rcases hecases pt0 h with h | h
      · exact Or.inr (Or.inl h)
      · exact Or.inl (Or.inl h)
    · exact Or.inr (Or.inr h)
  · rw [hq]
    simp only [List.length_cons]
    omega

/-- With a budget above `|setBlobs| + |setPointsToExplore|` the inner loop
stops with an empty exploration set in a state satisfying the invariant. -/
theorem floodLoop_stops (nLat nLon : Int) (S0 : List Point) (pt0 : Point)
    (hgrid : ∀ x ∈ S0, InGrid nLat nLon x) :
    ∀ (fuel : Nat) (st : FloodState), FloodInv nLat nLon S0 pt0 st →
      st.setBlobs.length + st.setPointsToExplore.length < fuel →
      ∃ st', floodLoop nLat nLon fuel st = some st' ∧ FloodInv nLat nLon S0 pt0 st' ∧
        st'.setPointsToExplore = [] := by
  intro fuel
  induction fuel with
  | zero => intro st _ h; omega
  | succ fuel ih =>
    intro st inv hm
    cases hq : st.setPointsToExplore with
    | nil => exact ⟨st, floodLoop_done nLat nLon fuel st hq, inv, hq⟩
    | cons pt rest =>
      obtain ⟨hi, hd⟩ := floodStep_inv nLat nLon S0 pt0 st hgrid pt rest hq inv
      obtain ⟨st', h1, h2, h3⟩ := ih _ hi (by simp only; omega)
      exact ⟨st', by rw [floodLoop_succ nLat nLon fuel st pt rest hq]; exact h1, h2, h3⟩

/-- At the end of the inner loop `setThisBlob` holds exactly the nodes joined
to the start node inside `S0`, and `setBlobs` the other nodes of `S0`. -/
theorem floodInv_final (nLat nLon : Int) (S0 : List Point) (pt0 : Point) (st : FloodState)
    (inv : FloodInv nLat nLon S0 pt0 st) (hempty : st.setPointsToExplore = []) :
    (∀ x, x ∈ st.setThisBlob ↔ ConnectedIn nLat nLon S0 pt0 x) ∧
      (∀ x, x ∈ st.setBlobs ↔ x ∈ S0 ∧ ¬ ConnectedIn nLat nLon S0 pt0 x) := by
  have hpart : ∀ x, x ∈ S0 ↔ (x ∈ st.setBlobs ∨ x ∈ st.setThisBlob) := by
    intro x
    rw [inv.part x, hempty]
    simp
  have hT : ∀ x, ConnectedIn nLat nLon S0 pt0 x → x ∈ st.setThisBlob := by
    intro x hx
    induction hx with
    | refl =>
      rcases inv.seed with h | h
      · rw [hempty] at h; simp at h
      · exact h
    | @tail b c _ hbc ih =>
      rcases (hpart c).1 hbc.2 with h | h
      · exact absurd hbc.1 (inv.closed b ih c h)
      · exact h
  refine ⟨fun x => ⟨fun hx => inv.conn x (Or.inr hx), hT x⟩, ?_⟩
  intro x
  constructor
  · intro hx
    exact ⟨(hpart x).2 (Or.inl hx), fun hc => inv.disj_bt x hx (hT x hc)⟩
  · rintro ⟨hx, hn⟩
    rcases (hpart x).1 hx with h | h
    · exact h
    · exact absurd (inv.conn x (Or.inr h)) hn

/-- The initial state of the inner loop satisfies the invariant. -/
theorem floodInv_init (nLat nLon : Int) (pt : Point) (rest : List Point)
    (hnd : (pt :: rest).Nodup) :
    FloodInv nLat nLon (pt :: rest) pt
      { setBlobs := rest, setPointsToExplore := setInsert pt [], setThisBlob := [] } := by
  have hnd' := List.nodup_cons.1 hnd
  refine ⟨?_, ?_, ?_, ?_, hnd'.2, ?_, List.nodup_nil, ?_, ?_, ?_⟩
  · intro x
    simp only [setInsert, List.mem_cons, List.mem_singleton, List.not_mem_nil, or_false]
    tauto
  · intro x hx
    simp only [setInsert, List.mem_singleton]
    intro h
    exact hnd'.1 (h ▸ hx)
  · intro x _; simp
  · intro x _; simp
  · simp [setInsert]
  · intro x hx
    simp only [setInsert, List.mem_singleton, List.not_mem_nil, or_false] at hx
    rw [hx]
    exact Relation.ReflTransGen.refl
  · intro t ht; simp at ht
  · exact Or.inl (by simp [setInsert])

/-! ### Adjacency, components and their sizes -/

theorem segAdjacent_symm {nLat nLon : Int} {a b : Point} (ha : InGrid nLat nLon a)
    (h : SegAdjacent nLat nLon a b) : SegAdjacent nLat nLon b a := by
  obtain ⟨_, _, a3, a4⟩ := ha
  obtain ⟨h1, h2, h3, h4, h5, h6⟩ := h
  refine ⟨h3, h4, h1, h2, by omega, ?_⟩
  have hself : a.2 % nLon = a.2 := Int.emod_eq_of_lt a3 a4
  rcases h6 with e | e | e
  · right; right
    rw [e, Int.emod_add_emod, show a.2 - 1 + 1 = a.2 by ring, hself]
  · right; left
    rw [e, Int.emod_emod_of_dvd _ (dvd_refl _), hself]
  · left
    rw [e, show (a.2 + 1) % nLon - 1 = (a.2 + 1) % nLon + (-1) by ring, Int.emod_add_emod,
      show a.2 + 1 + -1 = a.2 by ring, hself]

theorem segConnected_masked {mask : DataMatrix Int} {p q : Point} (hp : Masked mask p)
    (h : SegConnected mask p q) : Masked mask q := by
  cases h with
  | refl => exact hp
  | tail _ hlast => exact hlast.2

theorem segConnected_symm {mask : DataMatrix Int} {p q : Point} (hp : Masked mask p)
    (h : SegConnected mask p q) : SegConnected mask q p := by
  induction h with
  | refl => exact Relation.ReflTransGen.refl
  | @tail b c hab hbc ih =>
    have hb : Masked mask b := segConnected_masked hp hab
    exact Relation.ReflTransGen.head ⟨segAdjacent_symm hb.1 hbc.1, hb⟩ ih

/-- Two connected nodes have the same component. -/
theorem segConnected_congr {mask : DataMatrix Int} {p q : Point} (hp : Masked mask p)
    (h : SegConnected mask p q) (x : Point) : SegConnected mask p x ↔ SegConnected mask q x :=
  ⟨fun hx => (segConnected_symm hp h).trans hx, fun hx => h.trans hx⟩

theorem componentSize_congr {mask : DataMatrix Int} {p q : Point} (hp : Masked mask p)
    (h : SegConnected mask p q) : componentSize mask p = componentSize mask q := by
  unfold componentSize
  congr 1
  ext x
  exact segConnected_congr hp h x

/-- A duplicate-free list of the nodes of a component has the component's size. -/
theorem componentSize_eq_length {mask : DataMatrix Int} {p : Point} (T : List Point)
    (hnd : T.Nodup) (hT : ∀ q, q ∈ T ↔ SegConnected mask p q) :
    componentSize mask p = T.length := by
  unfold componentSize
  have : {q : Point | SegConnected mask p q} = (↑T.toFinset : Set Point) := by
    ext q
    simp only [Set.mem_setOf_eq, Finset.mem_coe, List.mem_toFinset]
    exact (hT q).symm
  rw [this, Set.ncard_coe_Finset, List.toFinset_card_of_nodup hnd]

/-! ### The set of tagged nodes -/

theorem ptLt_iff (a b : Point) :
    ptLt a b = true ↔ a.1 < b.1 ∨ (a.1 = b.1 ∧ a.2 < b.2) := by
  simp [ptLt]

/-- Inserting into a strictly increasing list keeps it strictly increasing. -/
theorem setInsert_sorted (a : Point) (s : List Point)
    (hs : s.Pairwise (fun x y => ptLt x y = true)) :
    (setInsert a s).Pairwise (fun x y => ptLt x y = true) := by
  induction s with
  | nil => simp [setInsert]
  | cons b s ih =>
    have hs' := List.pairwise_cons.1 hs
    unfold setInsert
    split
    · rename_i hab
      refine List.pairwise_cons.2 ⟨?_, hs⟩
      intro x hx
      rcases List.mem_cons.1 hx with h | h
      · rw [h]; exact hab
      · have hbx := hs'.1 x h
        rw [ptLt_iff] at hab hbx ⊢
        omega
    · rename_i hab
      split
      · exact hs
      · rename_i hne
        refine List.pairwise_cons.2 ⟨?_, ih hs'.2⟩
        intro x hx
        rcases (mem_setInsert _ _ _).1 hx with h | h
        · rw [h]
          have hne' : ¬ (a.1 = b.1 ∧ a.2 = b.2) := fun h => hne (Prod.ext h.1 h.2)
          rw [ptLt_iff] at hab ⊢
          omega
        · exact hs'.1 x h

theorem sorted_nodup (s : List Point) (hs : s.Pairwise (fun x y => ptLt x y = true)) :
    s.Nodup := by
  refine List.Pairwise.imp ?_ hs
  intro x y hxy heq
  rw [heq, ptLt_iff] at hxy
  omega

theorem foldl_insert_if_sorted {β : Type} (f : β → Point) (c : β → Bool) (l : List β)
    (s : List Point) (hs : s.Pairwise (fun x y => ptLt x y = true)) :
    (l.foldl (fun s b => if c b then setInsert (f b) s else s) s).Pairwise
      (fun x y => ptLt x y = true) := by
  induction l generalizing s with
  | nil => exact hs
  | cons b l ih =>
    simp only [List.foldl_cons]
    apply ih
    split
    · exact setInsert_sorted _ _ hs
    · exact hs

theorem collectBlobs_sorted (mask : DataMatrix Int) :
    (collectBlobs mask).Pairwise (fun x y => ptLt x y = true) := by
  unfold collectBlobs
  simp only
  have outer : ∀ (rows : List Int) (s : List Point),
      s.Pairwise (fun x y => ptLt x y = true) →
      (rows.foldl (fun s j => (intRange 0 (mask.nCols : Int)).foldl
        (fun s i => if mask.val j i ≠ 0 then setInsert (j, i) s else s) s) s).Pairwise
        (fun x y => ptLt x y = true) := by
    intro rows
    induction rows with
    | nil => intro s hs; exact hs
    | cons j rows ih =>
      intro s hs
      simp only [List.foldl_cons]
      apply ih
      have := foldl_insert_if_sorted (fun i => (j, i)) (fun i => decide (mask.val j i ≠ 0))
        (intRange 0 (mask.nCols : Int)) s hs
      simpa using this
  exact outer _ _ List.Pairwise.nil

theorem mem_collectBlobs (mask : DataMatrix Int) (x : Point) :
    x ∈ collectBlobs mask ↔ Masked mask x := by
  unfold collectBlobs Masked InGrid
  simp only
  have inner : ∀ (j : Int) (s : List Point),
      x ∈ (intRange 0 (mask.nCols : Int)).foldl
        (fun s i => if mask.val j i ≠ 0 then setInsert (j, i) s else s) s ↔
      x ∈ s ∨ (x.1 = j ∧ 0 ≤ x.2 ∧ x.2 < (mask.nCols : Int) ∧ mask.val x.1 x.2 ≠ 0) := by
    intro j s
    have := mem_foldl_insert_if (fun i => (j, i)) (fun i => decide (mask.val j i ≠ 0))
      (intRange 0 (mask.nCols : Int)) s x
    simp only [decide_eq_true_eq] at this
    rw [this]
    apply or_congr Iff.rfl
    constructor
    · rintro ⟨i, hi, hc, rfl⟩
      rw [mem_intRange] at hi
      exact ⟨rfl, hi.1, hi.2, hc⟩
    · rintro ⟨rfl, h1, h2, hc⟩
      exact ⟨x.2, (mem_intRange _ _ _).2 ⟨h1, h2⟩, hc, rfl⟩
  have outer : ∀ (rows : List Int) (s : List Point),
      x ∈ rows.foldl (fun s j => (intRange 0 (mask.nCols : Int)).foldl
        (fun s i => if mask.val j i ≠ 0 then setInsert (j, i) s else s) s) s ↔
      x ∈ s ∨ (x.1 ∈ rows ∧ 0 ≤ x.2 ∧ x.2 < (mask.nCols : Int) ∧ mask.val x.1 x.2 ≠ 0) := by
    intro rows
    induction rows with
    | nil => intro s; simp
    | cons j rows ih =>
      intro s
      simp only [List.foldl_cons, ih, inner, List.mem_cons]
      tauto
  rw [outer, mem_intRange]
  simp only [List.not_mem_nil, false_or]
  tauto

theorem clearBlob_spec (blob : List Point) :
    ∀ tag : DataMatrix Int,
      (clearBlob tag blob).nRows = tag.nRows ∧ (clearBlob tag blob).nCols = tag.nCols ∧
      ∀ j i : Int, (clearBlob tag blob).val j i = if (j, i) ∈ blob then 0 else tag.val j i := by
  induction blob with
  | nil => intro tag; simp [clearBlob]
  | cons p blob ih =>
    intro tag
    obtain ⟨h1, h2, h3⟩ := ih (tag.set p.1 p.2 0)
    unfold clearBlob at h1 h2 h3 ⊢
    simp only [List.foldl_cons]
    refine ⟨h1, h2, ?_⟩
    intro j i
    rw [h3 j i]
    simp only [DataMatrix.set, List.mem_cons]
    by_cases hb : (j, i) ∈ blob
    · simp [hb]
    · by_cases hp : j = p.1 ∧ i = p.2
      · have : (j, i) = p := Prod.ext hp.1 hp.2
        simp [hp, this]
      · have : (j, i) ≠ p := fun h => hp ⟨by rw [← h], by rw [← h]⟩
        simp [hb, hp, this]

/-! ### The outer loop -/

/-- Inside a set of masked nodes closed under adjacency, being joined within
the set and being joined within the mask agree. -/
theorem connectedIn_iff (mask : DataMatrix Int) (S : List Point) (pt : Point)
    (hsub : ∀ x ∈ S, Masked mask x)
    (hclosed : ∀ a ∈ S, ∀ b, Masked mask b →
      SegAdjacent (mask.nRows : Int) (mask.nCols : Int) a b → b ∈ S)
    (hpt : pt ∈ S) (x : Point) :
    ConnectedIn (mask.nRows : Int) (mask.nCols : Int) S pt x ↔ SegConnected mask pt x := by
  constructor
  · intro h
    induction h with
    | refl => exact Relation.ReflTransGen.refl
    | @tail b c _ hbc ih => exact Relation.ReflTransGen.tail ih ⟨hbc.1, hsub c hbc.2⟩
  · intro h
    have : x ∈ S ∧ ConnectedIn (mask.nRows : Int) (mask.nCols : Int) S pt x := by
      induction h with
      | refl => exact ⟨hpt, Relation.ReflTransGen.refl⟩
      | @tail b c _ hbc ih =>
        have hc : c ∈ S := hclosed b ih.1 c hbc.2 hbc.1
        exact ⟨hc, Relation.ReflTransGen.tail ih.2 ⟨hbc.1, hc⟩⟩
    exact this.2

theorem blobLoop_succ (nLat nLon nMinArea : Int) (fuel : Nat) (st : BlobState) (pt : Point)
    (rest : List Point) (fs : FloodState) (h : st.setBlobs = pt :: rest)
    (hf : floodLoop nLat nLon (rest.length + 2)
      { setBlobs := rest, setPointsToExplore := setInsert pt [], setThisBlob := [] } = some fs) :
    blobLoop nLat nLon nMinArea (fuel + 1) st =
      blobLoop nLat nLon nMinArea fuel
        { setBlobs := fs.setBlobs,
          dIWVtag := if (fs.setThisBlob.length : Int) < nMinArea
            then clearBlob st.dIWVtag fs.setThisBlob else st.dIWVtag,
          blobs := st.blobs ++ [fs.setThisBlob] } := by
  simp only [blobLoop, h, hf]

theorem blobLoop_done (nLat nLon nMinArea : Int) (fuel : Nat) (st : BlobState)
    (h : st.setBlobs = []) : blobLoop nLat nLon nMinArea (fuel + 1) st = some st := by
  simp only [blobLoop, h]

/-- One pass of the outer loop: the inner loop returns a state, and the state
after the pass satisfies the invariant with a shorter `setBlobs`. -/
theorem blobStep_inv (mask : DataMatrix Int) (nMinArea : Int) (st : BlobState) (pt : Point)
    (rest : List Point) (hq : st.setBlobs = pt :: rest) (inv : BlobInv mask nMinArea st) :
    ∃ fs, floodLoop (mask.nRows : Int) (mask.nCols : Int) (rest.length + 2)
        { setBlobs := rest, setPointsToExplore := setInsert pt [], setThisBlob := [] } = some fs ∧
      BlobInv mask nMinArea
        { setBlobs := fs.setBlobs,
          dIWVtag := if (fs.setThisBlob.length : Int) < nMinArea
            then clearBlob st.dIWVtag fs.setThisBlob else st.dIWVtag,
          blobs := st.blobs ++ [fs.setThisBlob] } ∧
      fs.setBlobs.length < st.setBlobs.length := by
  have hnd : (pt :: rest).Nodup := hq ▸ inv.nodup
  have hsub : ∀ x ∈ pt :: rest, Masked mask x := hq ▸ inv.sub
  have hclosed : ∀ a ∈ pt :: rest, ∀ b, Masked mask b →
      SegAdjacent (mask.nRows : Int) (mask.nCols : Int) a b → b ∈ pt :: rest := hq ▸ inv.closed
  have hptS : pt ∈ pt :: rest := List.mem_cons_self _ _
  have hptM : Masked mask pt := hsub pt hptS
  obtain ⟨fs, hfs, finv, hempty⟩ := floodLoop_stops (mask.nRows : Int) (mask.nCols : Int)
    (pt :: rest) pt (fun x hx => (hsub x hx).1) (rest.length + 2)
    { setBlobs := rest, setPointsToExplore := setInsert pt [], setThisBlob := [] }
    (floodInv_init _ _ pt rest hnd) (by simp [setInsert])
  obtain ⟨hT0, hB0⟩ := floodInv_final _ _ _ _ fs finv hempty
  have hT : ∀ x, x ∈ fs.setThisBlob ↔ SegConnected mask pt x := by
    intro x
    rw [hT0 x, connectedIn_iff mask (pt :: rest) pt hsub hclosed hptS x]
  have hB : ∀ x, x ∈ fs.setBlobs ↔ x ∈ st.setBlobs ∧ ¬ SegConnected mask pt x := by
    intro x
    rw [hB0 x, connectedIn_iff mask (pt :: rest) pt hsub hclosed hptS x, hq]
  have hTS : ∀ x, x ∈ fs.setThisBlob → x ∈ st.setBlobs := by
    intro x hx
    have := (finv.part x).2 (Or.inr (Or.inr hx))
    rw [hq]; exact this
  have hsize : componentSize mask pt = fs.setThisBlob.length :=
    componentSize_eq_length fs.setThisBlob finv.nodup_t hT
  have hptT : pt ∈ fs.setThisBlob := (hT pt).2 Relation.ReflTransGen.refl
  have htag : ∀ x : Point, x ∉ fs.setThisBlob →
      (if (fs.setThisBlob.length : Int) < nMinArea
        then clearBlob st.dIWVtag fs.setThisBlob else st.dIWVtag).val x.1 x.2 =
        st.dIWVtag.val x.1 x.2 := by
    intro x hx
    split
    · rw [(clearBlob_spec fs.setThisBlob st.dIWVtag).2.2 x.1 x.2, if_neg hx]
    · rfl
  refine ⟨fs, hfs, ⟨?_, finv.nodup_b, ?_, ?_, ?_, ?_, ?_, ?_, ?_, ?_, ?_⟩, ?_⟩
  · intro x hx
    exact inv.sub x ((hB x).1 hx).1
  · intro a ha b hb hab
    have ha' := (hB a).1 ha
    refine (hB b).2 ⟨inv.closed a ha'.1 b hb hab, ?_⟩
    intro hc
    apply ha'.2
    exact Relation.ReflTransGen.tail hc
      ⟨segAdjacent_symm (inv.sub a ha'.1).1 hab, inv.sub a ha'.1⟩
  · simp only
    split
    · rw [(clearBlob_spec fs.setThisBlob st.dIWVtag).1]; exact inv.rows
    · exact inv.rows
  · simp only
    split
    · rw [(clearBlob_spec fs.setThisBlob st.dIWVtag).2.1]; exact inv.cols
    · exact inv.cols
  · intro x hx
    simp only at hx ⊢
    have hxT : x ∉ fs.setThisBlob := by
      intro hc
      rcases hx with hx | hx
      · exact ((hB x).1 hx).2 ((hT x).1 hc)
      · exact hx (inv.sub x (hTS x hc))
    rw [htag x hxT]
    rcases hx with hx | hx
    · exact inv.tag_todo x (Or.inl ((hB x).1 hx).1)
    · exact inv.tag_todo x (Or.inr hx)
  · intro x hxM hxS hlt
    simp only at hxS ⊢
    by_cases hxT : x ∈ fs.setThisBlob
    · have hcs : componentSize mask x = fs.setThisBlob.length := by
        rw [← componentSize_congr hptM ((hT x).1 hxT)]; exact hsize
      rw [hcs] at hlt
      rw [if_pos hlt, (clearBlob_spec fs.setThisBlob st.dIWVtag).2.2 x.1 x.2, if_pos hxT]
    · rw [htag x hxT]
      have hxS' : x ∉ st.setBlobs := fun hc => hxS ((hB x).2 ⟨hc, fun h => hxT ((hT x).2 h)⟩)
      exact inv.tag_small x hxM hxS' hlt
  · intro x hxM hxS hge
    simp only at hxS ⊢
    by_cases hxT : x ∈ fs.setThisBlob
    · have hcs : componentSize mask x = fs.setThisBlob.length := by
        rw [← componentSize_congr hptM ((hT x).1 hxT)]; exact hsize
      rw [hcs] at hge
      rw [if_neg hge]
      exact inv.tag_todo x (Or.inl (hTS x hxT))
    · rw [htag x hxT]
      have hxS' : x ∉ st.setBlobs := fun hc => hxS ((hB x).2 ⟨hc, fun h => hxT ((hT x).2 h)⟩)
      exact inv.tag_big x hxM hxS' hge
  · intro B hB'
    simp only [List.mem_append, List.mem_singleton] at hB'
    rcases hB' with h | h
    · exact inv.blob_comp B h
    · rw [h]
      exact ⟨finv.nodup_t, pt, hptM, hT⟩
  · intro x hxM
    simp only [List.mem_append, List.mem_singleton]
    constructor
    · intro hxS
      by_cases hxT : x ∈ fs.setThisBlob
      · exact ⟨fs.setThisBlob, Or.inr rfl, hxT⟩
      · have hxS' : x ∉ st.setBlobs :=
          fun hc => hxS ((hB x).2 ⟨hc, fun h => hxT ((hT x).2 h)⟩)
        obtain ⟨B, hB1, hB2⟩ := (inv.blob_cover x hxM).1 hxS'
        exact ⟨B, Or.inl hB1, hB2⟩
    · rintro ⟨B, hB1 | hB1, hB2⟩ hxS
      · exact (inv.blob_cover x hxM).2 ⟨B, hB1, hB2⟩ ((hB x).1 hxS).1
      · rw [hB1] at hB2
        exact ((hB x).1 hxS).2 ((hT x).1 hB2)
  · simp only
    rw [List.pairwise_append]
    refine ⟨inv.blob_disj, List.pairwise_singleton _ _, ?_⟩
    intro B hB1 T hT1
    simp only [List.mem_singleton] at hT1
    rw [hT1]
    intro x hxB hxT
    obtain ⟨_, p, hp, hpq⟩ := inv.blob_comp B hB1
    have hxM : Masked mask x := segConnected_masked hp ((hpq x).1 hxB)
    exact (inv.blob_cover x hxM).2 ⟨B, hB1, hxB⟩ (hTS x hxT)
  · have hsubl : fs.setBlobs ⊆ rest := by
      intro x hx
      have h := (hB x).1 hx
      rw [hq] at h
      rcases List.mem_cons.1 h.1 with h' | h'
      · exact absurd (h' ▸ Relation.ReflTransGen.refl) h.2
      · exact h'
    have := (finv.nodup_b.subperm hsubl).length_le
    rw [hq]
    simp only [List.length_cons]
    omega

/-- With a budget above `|setBlobs|` the outer loop stops with an empty
`setBlobs` in a state satisfying the invariant. -/
theorem blobLoop_stops (mask : DataMatrix Int) (nMinArea : Int) :
    ∀ (fuel : Nat) (st : BlobState), BlobInv mask nMinArea st → st.setBlobs.length < fuel →
      ∃ st', blobLoop (mask.nRows : Int) (mask.nCols : Int) nMinArea fuel st = some st' ∧
        BlobInv mask nMinArea st' ∧ st'.setBlobs = [] := by
  intro fuel
  induction fuel with
  | zero => intro st _ h; omega
  | succ fuel ih =>
    intro st inv hm
    cases hq : st.setBlobs with
    | nil => exact ⟨st, blobLoop_done _ _ _ fuel st hq, inv, hq⟩
    | cons pt rest =>
      obtain ⟨fs, hfs, hi, hd⟩ := blobStep_inv mask nMinArea st pt rest hq inv
      obtain ⟨st', h1, h2, h3⟩ := ih _ hi (by simp only; omega)
      exact ⟨st', by rw [blobLoop_succ _ _ _ fuel st pt rest fs hq hfs]; exact h1, h2, h3⟩

/-- The flood fill always runs to completion, in a state satisfying the
invariant with nothing left in `setBlobs`. -/
theorem extractBlobs_spec (mask : DataMatrix Int) (nMinArea : Int) :
    ∃ st, extractBlobs mask nMinArea = some st ∧ BlobInv mask nMinArea st ∧
      st.setBlobs = [] := by
  unfold extractBlobs
  apply blobLoop_stops mask nMinArea
  · refine ⟨?_, sorted_nodup _ (collectBlobs_sorted mask), ?_, rfl, rfl, ?_, ?_, ?_, ?_, ?_, ?_⟩
    · intro x hx; exact (mem_collectBlobs mask x).1 hx
    · intro a _ b hb _; exact (mem_collectBlobs mask b).2 hb
    · intro x _; rfl
    · intro x hx hn; exact absurd ((mem_collectBlobs mask x).2 hx) hn
    · intro x hx hn; exact absurd ((mem_collectBlobs mask x).2 hx) hn
    · intro B hB; simp at hB
    · intro x hx
      simp only [List.not_mem_nil, false_and, exists_false, iff_false, not_not]
      exact (mem_collectBlobs mask x).2 hx
    · exact List.Pairwise.nil
  · simp only
    omega

/-- The tag matrix after the blob filter, for a positive minimum area: the
pass returns, keeps the size of the matrix, clears the masked nodes whose
component is too small and leaves every other entry as it was. -/
theorem blobFilter_spec (mask : DataMatrix Int) (nMinArea : Int) (hm : 0 < nMinArea) :
    ∃ out, blobFilter mask nMinArea = some out ∧
      out.nRows = mask.nRows ∧ out.nCols = mask.nCols ∧
      (∀ x : Point, Masked mask x → (componentSize mask x : Int) < nMinArea →
        out.val x.1 x.2 = 0) ∧
      (∀ x : Point, ¬ (Masked mask x ∧ (componentSize mask x : Int) < nMinArea) →
        out.val x.1 x.2 = mask.val x.1 x.2) := by
  obtain ⟨st, hst, inv, hempty⟩ := extractBlobs_spec mask nMinArea
  refine ⟨st.dIWVtag, ?_, inv.rows, inv.cols, ?_, ?_⟩
  · unfold blobFilter
    rw [if_pos hm, hst]
    rfl
  · intro x hx hlt
    exact inv.tag_small x hx (by rw [hempty]; simp) hlt
  · intro x hx
    by_cases hM : Masked mask x
    · exact inv.tag_big x hM (by rw [hempty]; simp) (fun h => hx ⟨hM, h⟩)
    · exact inv.tag_todo x (Or.inr hM)

/-- C5: for a minimum area `m > 0` the blob filter returns a mask in which an
in-range node is set exactly when it was set in the input mask and its
connected component (8-connectivity with longitude wraparound) has at least
`m` nodes. -/
theorem C5_blob_filter (mask : DataMatrix Int) (m : Int) (hm : 0 < m) :
    ∃ out, blobFilter mask m = some out ∧
      ∀ j i : Int, InGrid (mask.nRows : Int) (mask.nCols : Int) (j, i) →
        (out.val j i ≠ 0 ↔ mask.val j i ≠ 0 ∧ m ≤ (componentSize mask (j, i) : Int)) := by
  obtain ⟨out, hout, _, _, hsmall, hkeep⟩ := blobFilter_spec mask m hm
  refine ⟨out, hout, ?_⟩
  intro j i hg
  by_cases hlt : Masked mask (j, i) ∧ (componentSize mask (j, i) : Int) < m
  · have h0 : out.val j i = 0 := hsmall (j, i) hlt.1 hlt.2
    constructor
    · intro h; exact absurd h0 h
    · rintro ⟨_, h⟩
      omega
  · have hk : out.val j i = mask.val j i := hkeep (j, i) hlt
    rw [hk]
    constructor
    · intro h
      refine ⟨h, ?_⟩
      by_contra hc
      exact hlt ⟨⟨hg, h⟩, by omega⟩
    · exact fun h => h.1

theorem C5_blob_filter_witness :
    (∃ out, blobFilter exampleMask 2 = some out ∧
      ∀ j i : Int, InGrid (exampleMask.nRows : Int) (exampleMask.nCols : Int) (j, i) →
        (out.val j i ≠ 0 ↔
          exampleMask.val j i ≠ 0 ∧ 2 ≤ (componentSize exampleMask (j, i) : Int))) ∧
      collectBlobs exampleMask = [(0, 0), (0, 3), (2, 0), (2, 5), (3, 1)] ∧
      (blobFilter exampleMask 2).map collectBlobs = some [(2, 0), (2, 5), (3, 1)] :=
  ⟨C5_blob_filter exampleMask 2 (by decide), by decide, by decide⟩

/-- C6: the flood fill runs to completion and the successive values of
`setThisBlob` are the connected components of the masked nodes: two nodes of a
blob are joined by a path of adjacent nodes of that blob, a blob holds only
masked nodes, no masked node adjacent to a node of a blob lies outside it, and
every masked node lies in exactly one of the blobs. -/
theorem C6_blobs_are_components (mask : DataMatrix Int) (m : Int) :
    ∃ st, extractBlobs mask m = some st ∧
      (∀ B ∈ st.blobs, ∀ a ∈ B, ∀ b ∈ B,
        Relation.ReflTransGen
          (fun x y => SegAdjacent (mask.nRows : Int) (mask.nCols : Int) x y ∧ y ∈ B) a b) ∧
      (∀ B ∈ st.blobs, ∀ a ∈ B, Masked mask a) ∧
      (∀ B ∈ st.blobs, ∀ a ∈ B, ∀ b, Masked mask b →
        SegAdjacent (mask.nRows : Int) (mask.nCols : Int) a b → b ∈ B) ∧
      (∀ p, Masked mask p → ∃! k : Fin st.blobs.length, p ∈ st.blobs.get k) := by
  obtain ⟨st, hst, inv, hempty⟩ := extractBlobs_spec mask m
  refine ⟨st, hst, ?_, ?_, ?_, ?_⟩
  · intro B hB a ha b hb
    obtain ⟨_, p, hp, hpq⟩ := inv.blob_comp B hB
    have hpa := (hpq a).1 ha
    have hab : SegConnected mask a b := (segConnected_symm hp hpa).trans ((hpq b).1 hb)
    have key : ∀ x, SegConnected mask a x →
        Relation.ReflTransGen
          (fun x y => SegAdjacent (mask.nRows : Int) (mask.nCols : Int) x y ∧ y ∈ B) a x := by
      intro x hx
      induction hx with
      | refl => exact Relation.ReflTransGen.refl
      | @tail c d hac hcd ih =>
        refine Relation.ReflTransGen.tail ih ⟨hcd.1, (hpq d).2 ?_⟩
        exact hpa.trans (Relation.ReflTransGen.tail hac hcd)
    exact key b hab
  · intro B hB a ha
    obtain ⟨_, p, hp, hpq⟩ := inv.blob_comp B hB
    exact segConnected_masked hp ((hpq a).1 ha)
  · intro B hB a ha b hb hab
    obtain ⟨_, p, hp, hpq⟩ := inv.blob_comp B hB
    exact (hpq b).2 (Relation.ReflTransGen.tail ((hpq a).1 ha) ⟨hab, hb⟩)
  · intro p hp
    obtain ⟨B, hB1, hB2⟩ := (inv.blob_cover p hp).1 (by rw [hempty]; simp)
    obtain ⟨k, hk⟩ := List.mem_iff_get.1 hB1
    have hpk : p ∈ st.blobs.get k := by rw [hk]; exact hB2
    refine ⟨k, hpk, ?_⟩
    intro k' hk'
    by_contra hne
    have hdisj := List.pairwise_iff_get.1 inv.blob_disj
    rcases lt_or_gt_of_ne hne with h | h
    · exact hdisj k' k h hk' hpk
    · exact hdisj k k' h hpk hk'

/-- C7: the blob filter always returns, and applied to its own output mask
with the same minimum area it returns that mask unchanged. -/
theorem C7_blob_filter_idempotent (mask : DataMatrix Int) (m : Int) :
    ∃ out, blobFilter mask m = some out ∧ blobFilter out m = some out := by
  by_cases hm : 0 < m
  · obtain ⟨out, hout, hr, hc, hsmall, hkeep⟩ := blobFilter_spec mask m hm
    obtain ⟨out2, hout2, hr2, hc2, _, hkeep2⟩ := blobFilter_spec out m hm
    refine ⟨out, hout, ?_⟩
    rw [hout2]
    have hmasked : ∀ y : Point, Masked out y ↔
        Masked mask y ∧ ¬ (componentSize mask y : Int) < m := by
      intro y
      unfold Masked
      rw [hr, hc]
      constructor
      · rintro ⟨hg, hv⟩
        by_cases hs : Masked mask y ∧ (componentSize mask y : Int) < m
        · exact absurd (hsmall y hs.1 hs.2) hv
        · rw [hkeep y hs] at hv
          exact ⟨⟨hg, hv⟩, fun h => hs ⟨⟨hg, hv⟩, h⟩⟩
      · rintro ⟨⟨hg, hv⟩, hs⟩
        refine ⟨hg, ?_⟩
        rw [hkeep y (fun h => hs h.2)]
        exact hv
    have hconn : ∀ x : Point, Masked out x →
        ∀ q, SegConnected out x q ↔ SegConnected mask x q := by
      intro x hx q
      have hxm := (hmasked x).1 hx
      unfold SegConnected
      rw [hr, hc]
      constructor
      · intro h
        induction h with
        | refl => exact Relation.ReflTransGen.refl
        | @tail b c _ hbc ih =>
          exact Relation.ReflTransGen.tail ih ⟨hbc.1, ((hmasked c).1 hbc.2).1⟩
      · intro h
        induction h with
        | refl => exact Relation.ReflTransGen.refl
        | @tail b c hxb hbc ih =>
          refine Relation.ReflTransGen.tail ih ⟨hbc.1, (hmasked c).2 ⟨hbc.2, ?_⟩⟩
          rw [← componentSize_congr hxm.1 (Relation.ReflTransGen.tail hxb hbc)]
          exact hxm.2
    have hval : ∀ j i : Int, out2.val j i = out.val j i := by
      intro j i
      apply hkeep2 (j, i)
      rintro ⟨hM, hs⟩
      have hxm := (hmasked (j, i)).1 hM
      have hsz : componentSize out (j, i) = componentSize mask (j, i) := by
        unfold componentSize
        congr 1
        ext q
        exact hconn (j, i) hM q
      rw [hsz] at hs
      exact hxm.2 hs
    obtain ⟨r2, c2, v2⟩ := out2
    obtain ⟨r, c, v⟩ := out
    simp only at hr2 hc2 hval
    subst hr2 hc2
    have : v2 = v := by
      funext j i
      exact hval j i
    rw [this]
  · refine ⟨mask, ?_, ?_⟩ <;>
    · unfold blobFilter
      rw [if_neg hm]
/-! ## The latitude-longitude grid -/

section Grid

variable {C : Type}

/-- One node of the double loop: the counter advances, the node stored at the
counter receives its coordinates and its adjacency entries, nothing else
changes. -/
theorem generateNode_spec (vecLat vecLon : DataVector C) (fRegional : Bool)
    (nLat nLon j i ixs : Int) (g : SimpleGrid C) :
    (generateNode vecLat vecLon fRegional nLat nLon j i (ixs, g)).1 = ixs + 1 ∧
      (generateNode vecLat vecLon fRegional nLat nLon j i (ixs, g)).2.m_vecConnectivity.size =
        g.m_vecConnectivity.size ∧
      (generateNode vecLat vecLon fRegional nLat nLon j i (ixs, g)).2.m_nGridDim =
        g.m_nGridDim ∧
      ∀ k : Int, (generateNode vecLat vecLon fRegional nLat nLon j i (ixs, g)).2.node k =
        if k = ixs then
          (vecLat.val j, vecLon.val i,
            g.m_vecConnectivity.get k ++ codeAdjacency fRegional nLat nLon j i)
        else g.node k := by
  unfold generateNode codeAdjacency
  generalize ((!fRegional) || (decide (i ≠ 0) && decide (i ≠ nLon - 1))) = b
  by_cases h1 : j ≠ 0 <;> by_cases h2 : j ≠ nLat - 1 <;> cases b <;>
    · simp only [if_pos h1, if_neg h1, if_pos h2, if_neg h2, if_true, if_false,
        Bool.false_eq_true]
      refine ⟨trivial, by trivial, by trivial, ?_⟩
      intro k
      by_cases hk : k = ixs <;>
        simp [SimpleGrid.node, DataVector.set, StdVector.pushBackAt, hk]

/-- One row of the double loop, columns `i0, ..., i0+n-1`. -/
theorem generateRow_spec (vecLat vecLon : DataVector C) (fRegional : Bool)
    (nLat nLon j : Int) (n : Nat) :
    ∀ (i0 ixs : Int) (g : SimpleGrid C),
      ((intRangeFrom i0 n).foldl
          (fun st i => generateNode vecLat vecLon fRegional nLat nLon j i st) (ixs, g)).1
        = ixs + n ∧
      ((intRangeFrom i0 n).foldl
          (fun st i => generateNode vecLat vecLon fRegional nLat nLon j i st)
          (ixs, g)).2.m_vecConnectivity.size = g.m_vecConnectivity.size ∧
      ((intRangeFrom i0 n).foldl
          (fun st i => generateNode vecLat vecLon fRegional nLat nLon j i st)
          (ixs, g)).2.m_nGridDim = g.m_nGridDim ∧
      ∀ k : Int,
        ((intRangeFrom i0 n).foldl
          (fun st i => generateNode vecLat vecLon fRegional nLat nLon j i st)
          (ixs, g)).2.node k =
        if ixs ≤ k ∧ k < ixs + n then
          (vecLat.val j, vecLon.val (i0 + (k - ixs)),
            g.m_vecConnectivity.get k ++ codeAdjacency fRegional nLat nLon j (i0 + (k - ixs)))
        else g.node k := by
  induction n with
  | zero =>
    intro i0 ixs g
    refine ⟨by simp [intRangeFrom], rfl, rfl, ?_⟩
    intro k
    have : ¬ (ixs ≤ k ∧ k < ixs + ((0 : Nat) : Int)) := by push_cast; omega
    simp only [intRangeFrom, List.foldl_nil, this, if_false]
  | succ n ih =>
    intro i0 ixs g
    obtain ⟨a1, a2, a3, a4⟩ := generateNode_spec vecLat vecLon fRegional nLat nLon j i0 ixs g
    simp only [intRangeFrom, List.foldl_cons]
    generalize hg1 : generateNode vecLat vecLon fRegional nLat nLon j i0 (ixs, g) = st1 at *
    obtain ⟨ixs1, g1⟩ := st1
    simp only at a1 a2 a3 a4
    subst a1
    obtain ⟨b1, b2, b3, b4⟩ := ih (i0 + 1) (ixs + 1) g1
    refine ⟨by rw [b1]; push_cast; ring, by rw [b2, a2], by rw [b3, a3], ?_⟩
    intro k
    rw [b4 k]
    by_cases hk : k = ixs
    · subst hk
      have h1 : ¬ (k + 1 ≤ k ∧ k < k + 1 + (n : Int)) := by omega
      have h2 : k ≤ k ∧ k < k + ((n + 1 : Nat) : Int) := by push_cast; omega
      rw [if_neg h1, if_pos h2, a4 k, if_pos rfl]
      simp
    · by_cases hw : ixs + 1 ≤ k ∧ k < ixs + 1 + (n : Int)
      · have h2 : ixs ≤ k ∧ k < ixs + ((n + 1 : Nat) : Int) := by push_cast; omega
        have hc : g1.m_vecConnectivity.get k = g.m_vecConnectivity.get k := by
          have := a4 k
          rw [if_neg hk] at this
          exact congrArg (fun t => t.2.2) this
        rw [if_pos hw, if_pos h2, hc]
        have e : i0 + 1 + (k - (ixs + 1)) = i0 + (k - ixs) := by ring
        rw [e]
      · have h2 : ¬ (ixs ≤ k ∧ k < ixs + ((n + 1 : Nat) : Int)) := by push_cast; omega
        rw [if_neg hw, if_neg h2, a4 k, if_neg hk]

/-- The double loop over the rows `j0, ..., j0+m-1`, each with the columns
`0, ..., nLon-1`. -/
theorem generateRows_spec (vecLat vecLon : DataVector C) (fRegional : Bool)
    (nLat : Int) (nLon : Nat) (m : Nat) :
    ∀ (j0 ixs : Int) (g : SimpleGrid C),
      ((intRangeFrom j0 m).foldl
          (fun st j => (intRangeFrom 0 nLon).foldl
            (fun st i => generateNode vecLat vecLon fRegional nLat nLon j i st) st)
          (ixs, g)).2.m_vecConnectivity.size = g.m_vecConnectivity.size ∧
      ((intRangeFrom j0 m).foldl
          (fun st j => (intRangeFrom 0 nLon).foldl
            (fun st i => generateNode vecLat vecLon fRegional nLat nLon j i st) st)
          (ixs, g)).2.m_nGridDim = g.m_nGridDim ∧
      (∀ k : Int, k < ixs →
        ((intRangeFrom j0 m).foldl
          (fun st j => (intRangeFrom 0 nLon).foldl
            (fun st i => generateNode vecLat vecLon fRegional nLat nLon j i st) st)
          (ixs, g)).2.node k = g.node k) ∧
      ∀ j i : Int, j0 ≤ j → j < j0 + m → 0 ≤ i → i < nLon →
        ((intRangeFrom j0 m).foldl
          (fun st j => (intRangeFrom 0 nLon).foldl
            (fun st i => generateNode vecLat vecLon fRegional nLat nLon j i st) st)
          (ixs, g)).2.node (ixs + (j - j0) * nLon + i) =
        (vecLat.val j, vecLon.val i,
          g.m_vecConnectivity.get (ixs + (j - j0) * nLon + i)
            ++ codeAdjacency fRegional nLat nLon j i) := by
  induction m with
  | zero =>
    intro j0 ixs g
    refine ⟨rfl, rfl, fun k _ => rfl, ?_⟩
    intro j i h1 h2
    push_cast at h2
    omega
  | succ m ih =>
    intro j0 ixs g
    obtain ⟨a1, a2, a3, a4⟩ :=
      generateRow_spec vecLat vecLon fRegional nLat nLon j0 nLon 0 ixs g
    simp only [intRangeFrom, List.foldl_cons]
    generalize hg1 : (intRangeFrom 0 nLon).foldl
      (fun st i => generateNode vecLat vecLon fRegional nLat nLon j0 i st) (ixs, g) = st1 at *
    obtain ⟨ixs1, g1⟩ := st1
    simp only at a1 a2 a3 a4
    subst a1
    obtain ⟨b1, b2, b3, b4⟩ := ih (j0 + 1) (ixs + nLon) g1
    refine ⟨by rw [b1, a2], by rw [b2, a3], ?_, ?_⟩
    · intro k hk
      rw [b3 k (by omega), a4 k, if_neg (by omega)]
    · intro j i h1 h2 h3 h4
      push_cast at h2
      by_cases hj : j = j0
      · subst hj
        have e : ixs + (j - j) * (nLon : Int) + i = ixs + i := by ring
        rw [e, b3 (ixs + i) (by omega), a4 (ixs + i), if_pos (by omega)]
        have e2 : (0 : Int) + (ixs + i - ixs) = i := by ring
        rw [e2]
      · have hpos : 0 ≤ (j - (j0 + 1)) * (nLon : Int) :=
          Int.mul_nonneg (by omega) (Int.ofNat_nonneg _)
        have e : ixs + (j - j0) * (nLon : Int) + i
            = ixs + nLon + (j - (j0 + 1)) * (nLon : Int) + i := by ring
        rw [e, b4 j i (by omega) (by omega) h3 h4]
        have hc : g1.m_vecConnectivity.get (ixs + nLon + (j - (j0 + 1)) * (nLon : Int) + i) =
            g.m_vecConnectivity.get (ixs + nLon + (j - (j0 + 1)) * (nLon : Int) + i) := by
          have := a4 (ixs + nLon + (j - (j0 + 1)) * (nLon : Int) + i)
          rw [if_neg (by omega)] at this
          exact congrArg (fun t => t.2.2) this
        rw [hc]

end Grid

section GridCalls

variable {C : Type} [LinearOrderedField C]

theorem rangeBound_eq (M_PI : C) : 0.5 * M_PI + 1.0e-12 = M_PI / 2 + 1 / 10 ^ 12 := by
  norm_num
  ring

theorem intRange_zero_cast (n : Nat) : intRange 0 (n : Int) = intRangeFrom 0 n := by
  unfold intRange
  simp

/-- The range check of lines 59-64 finds an entry exactly when some latitude
of the array exceeds the bound in magnitude. -/
theorem rangeCheck_iff (M_PI : C) (vecLat : DataVector C) :
    (intRange 0 (vecLat.nRows : Int)).any
        (fun j => decide (|vecLat.val j| > 0.5 * M_PI + 1.0e-12)) = true ↔
      ∃ j : Int, 0 ≤ j ∧ j < (vecLat.nRows : Int) ∧ |vecLat.val j| > M_PI / 2 + 1 / 10 ^ 12 := by
  rw [List.any_eq_true]
  simp only [mem_intRange, decide_eq_true_eq, rangeBound_eq]
  constructor
  · rintro ⟨j, ⟨h1, h2⟩, h3⟩
    exact ⟨j, h1, h2, h3⟩
  · rintro ⟨j, h1, h2, h3⟩
    exact ⟨j, ⟨h1, h2⟩, h3⟩

/-- When the range check passes, `GenerateLatitudeLongitude` returns without
raising; the grid has `nLat*nLon` nodes, dimensions `[nLat, nLon]`, and node
`j*nLon+i` holds the latitude `vecLat[j]`, the longitude `vecLon[i]` and, after
what its adjacency list held before, the entries of `codeAdjacency`. -/
theorem generate_spec (M_PI : C) (self : SimpleGrid C) (vecLat vecLon : DataVector C)
    (fRegional : Bool)
    (hrange : ¬ ∃ j : Int, 0 ≤ j ∧ j < (vecLat.nRows : Int) ∧
      |vecLat.val j| > M_PI / 2 + 1 / 10 ^ 12) :
    ∃ g, GenerateLatitudeLongitude M_PI self vecLat vecLon fRegional = (g, none) ∧
      g.GetSize = vecLat.nRows * vecLon.nRows ∧
      g.m_nGridDim = [vecLat.nRows, vecLon.nRows] ∧
      ∀ j i : Int, 0 ≤ j → j < (vecLat.nRows : Int) → 0 ≤ i → i < (vecLon.nRows : Int) →
        g.node (j * (vecLon.nRows : Int) + i) =
          (vecLat.val j, vecLon.val i,
            (self.m_vecConnectivity.resize ((vecLon.nRows : Int) * (vecLat.nRows : Int))).get
                (j * (vecLon.nRows : Int) + i)
              ++ codeAdjacency fRegional (vecLat.nRows : Int) (vecLon.nRows : Int) j i) := by
  have hc : ¬ ((intRange 0 (vecLat.nRows : Int)).any
      (fun j => decide (|vecLat.val j| > 0.5 * M_PI + 1.0e-12)) = true) :=
    fun h => hrange ((rangeCheck_iff M_PI vecLat).1 h)
  unfold GenerateLatitudeLongitude
  simp only []
  rw [if_neg hc]
  simp only [intRange_zero_cast]
  obtain ⟨b1, b2, _, b4⟩ := generateRows_spec vecLat vecLon fRegional (vecLat.nRows : Int)
    vecLon.nRows vecLat.nRows 0 0
    { m_dLat := DataVector.Initialize ((vecLon.nRows : Int) * (vecLat.nRows : Int)),
      m_dLon := DataVector.Initialize ((vecLon.nRows : Int) * (vecLat.nRows : Int)),
      m_vecConnectivity :=
        self.m_vecConnectivity.resize ((vecLon.nRows : Int) * (vecLat.nRows : Int)),
      m_nGridDim := [(vecLat.nRows : Int).toNat, (vecLon.nRows : Int).toNat] }
  refine ⟨_, rfl, ?_, ?_, ?_⟩
  · unfold SimpleGrid.GetSize
    rw [b1]
    simp only [StdVector.resize]
    rw [← Nat.cast_mul, Int.toNat_ofNat, Nat.mul_comm]
  · rw [b2]
    simp
  · intro j i h1 h2 h3 h4
    have := b4 j i h1 (by omega) h3 h4
    simp only [zero_add, sub_zero] at this
    exact this

/-- On a default-constructed grid the adjacency lists start empty. -/
theorem fresh_resize_get (n k : Int) :
    ((SimpleGrid.fresh : SimpleGrid C).m_vecConnectivity.resize n).get k = [] := by
  simp [SimpleGrid.fresh, StdVector.resize]

theorem codeAdjacency_false (nLat nLon j i : Int) :
    codeAdjacency false nLat nLon j i = referenceAdjacency nLat nLon j i := by
  simp [codeAdjacency, referenceAdjacency]

theorem toSizeT_lt (x : Int) (n : Nat) (h0 : 0 ≤ x) (h : x < (n : Int)) : ¬ (toSizeT x ≥ n) := by
  unfold toSizeT
  omega

end GridCalls

theorem twoLat_in_range :
    ¬ ∃ j : Int, 0 ≤ j ∧ j < (twoLat.nRows : Int) ∧
      |twoLat.val j| > Real.pi / 2 + 1 / 10 ^ 12 := by
  rintro ⟨j, _, _, h⟩
  have hpi := Real.pi_gt_three
  have hb : (1 : ℝ) / 10 < Real.pi / 2 + 1 / 10 ^ 12 := by
    have : (0 : ℝ) < 1 / 10 ^ 12 := by positivity
    linarith
  unfold twoLat at h
  simp only at h
  split at h
  · rw [abs_zero] at h
    linarith
  · rw [abs_of_pos (by norm_num : (0 : ℝ) < 1 / 10)] at h
    linarith

/-! ### Claims about `SimpleGrid` -/

/-- C11: for latitude and longitude arrays that pass the range check,
`GenerateLatitudeLongitude` with `fRegional = false` on a default-constructed
grid returns without raising a grid of `nLat*nLon` nodes in which node
`j*nLon+i` has latitude `vecLat[j]`, longitude `vecLon[i]` and the reference
adjacency list; that list has 4 entries on an interior row and fewer on the
first or last row. -/
theorem C11_reference_grid {C : Type} [LinearOrderedField C] (M_PI : C)
    (vecLat vecLon : DataVector C)
    (hrange : ∀ j : Int, 0 ≤ j → j < (vecLat.nRows : Int) →
      |vecLat.val j| ≤ M_PI / 2 + 1 / 10 ^ 12) :
    ∃ g, GenerateLatitudeLongitude M_PI SimpleGrid.fresh vecLat vecLon false = (g, none) ∧
      g.GetSize = vecLat.nRows * vecLon.nRows ∧
      ∀ j i : Int, 0 ≤ j → j < (vecLat.nRows : Int) → 0 ≤ i → i < (vecLon.nRows : Int) →
        g.m_dLat.val (j * (vecLon.nRows : Int) + i) = vecLat.val j ∧
        g.m_dLon.val (j * (vecLon.nRows : Int) + i) = vecLon.val i ∧
        g.m_vecConnectivity.get (j * (vecLon.nRows : Int) + i) =
          referenceAdjacency (vecLat.nRows : Int) (vecLon.nRows : Int) j i ∧
        (0 < j → j < (vecLat.nRows : Int) - 1 →
          (g.m_vecConnectivity.get (j * (vecLon.nRows : Int) + i)).length = 4) ∧
        ((j = 0 ∨ j = (vecLat.nRows : Int) - 1) →
          (g.m_vecConnectivity.get (j * (vecLon.nRows : Int) + i)).length < 4) := by
  obtain ⟨g, hg, hsize, _, hnode⟩ := generate_spec M_PI SimpleGrid.fresh vecLat vecLon false
    (by
      rintro ⟨j, h1, h2, h3⟩
      exact absurd (hrange j h1 h2) (not_le.2 h3))
  refine ⟨g, hg, hsize, ?_⟩
  intro j i h1 h2 h3 h4
  have hn := hnode j i h1 h2 h3 h4
  rw [fresh_resize_get, List.nil_append, codeAdjacency_false] at hn
  have e1 : g.m_dLat.val (j * (vecLon.nRows : Int) + i) = vecLat.val j :=
    congrArg (fun t => t.1) hn
  have e2 : g.m_dLon.val (j * (vecLon.nRows : Int) + i) = vecLon.val i :=
    congrArg (fun t => t.2.1) hn
  have e3 : g.m_vecConnectivity.get (j * (vecLon.nRows : Int) + i) =
      referenceAdjacency (vecLat.nRows : Int) (vecLon.nRows : Int) j i :=
    congrArg (fun t => t.2.2) hn
  refine ⟨e1, e2, e3, ?_, ?_⟩
  · intro h5 h6
    rw [e3]
    unfold referenceAdjacency
    rw [if_pos (by omega), if_pos (by omega)]
    rfl
  · intro h5
    rw [e3]
    unfold referenceAdjacency
    rcases h5 with h5 | h5
    · rw [if_neg (by omega)]
      split <;> simp
    · rw [if_neg (fun h : j ≠ (vecLat.nRows : Int) - 1 => h h5)]
      split <;> simp

theorem C11_reference_grid_witness :
    ∃ g, GenerateLatitudeLongitude Real.pi SimpleGrid.fresh twoLat threeLon false = (g, none) ∧
      g.GetSize = twoLat.nRows * threeLon.nRows ∧
      ∀ j i : Int, 0 ≤ j → j < (twoLat.nRows : Int) → 0 ≤ i → i < (threeLon.nRows : Int) →
        g.m_dLat.val (j * (threeLon.nRows : Int) + i) = twoLat.val j ∧
        g.m_dLon.val (j * (threeLon.nRows : Int) + i) = threeLon.val i ∧
        g.m_vecConnectivity.get (j * (threeLon.nRows : Int) + i) =
          referenceAdjacency (twoLat.nRows : Int) (threeLon.nRows : Int) j i ∧
        (0 < j → j < (twoLat.nRows : Int) - 1 →
          (g.m_vecConnectivity.get (j * (threeLon.nRows : Int) + i)).length = 4) ∧
        ((j = 0 ∨ j = (twoLat.nRows : Int) - 1) →
          (g.m_vecConnectivity.get (j * (threeLon.nRows : Int) + i)).length < 4) :=
  C11_reference_grid Real.pi twoLat threeLon (by
    intro j h1 h2
    by_contra h
    exact twoLat_in_range ⟨j, h1, h2, not_le.1 h⟩)

/-- C12 (the code at the failing input): on the regional grid of 2 latitudes
and 3 longitudes, node (0, 0) (index 0) lists only its north neighbour 3: its
east neighbour (0, 1) (index 1) is missing, although node (0, 1) lists node
(0, 0); node (0, 2) (index 2) likewise misses its west neighbour 1. On the
non-regional grid node (0, 0) lists 3, 1 and 2. -/
theorem C12_regional_boundary_columns :
    ∃ g g', GenerateLatitudeLongitude Real.pi SimpleGrid.fresh twoLat threeLon true = (g, none) ∧
      GenerateLatitudeLongitude Real.pi SimpleGrid.fresh twoLat threeLon false = (g', none) ∧
      g.m_vecConnectivity.get 0 = [3] ∧ (1 : Int) ∉ g.m_vecConnectivity.get 0 ∧
      g.m_vecConnectivity.get 1 = [4, 2, 0] ∧ (0 : Int) ∈ g.m_vecConnectivity.get 1 ∧
      g.m_vecConnectivity.get 2 = [5] ∧ (1 : Int) ∉ g.m_vecConnectivity.get 2 ∧
      g'.m_vecConnectivity.get 0 = [3, 1, 2] := by
  obtain ⟨g, hg, _, _, hnode⟩ :=
    generate_spec Real.pi SimpleGrid.fresh twoLat threeLon true twoLat_in_range
  obtain ⟨g', hg', _, _, hnode'⟩ :=
    generate_spec Real.pi SimpleGrid.fresh twoLat threeLon false twoLat_in_range
  have c : ∀ j i : Int, 0 ≤ j → j < 2 → 0 ≤ i → i < 3 →
      g.m_vecConnectivity.get (j * 3 + i) = codeAdjacency true 2 3 j i := by
    intro j i h1 h2 h3 h4
    have hn := hnode j i h1 h2 h3 h4
    rw [fresh_resize_get, List.nil_append] at hn
    exact congrArg (fun t => t.2.2) hn
  have c' : g'.m_vecConnectivity.get (0 * 3 + 0) = codeAdjacency false 2 3 0 0 := by
    have hn := hnode' 0 0 (by decide) (by decide) (by decide) (by decide)
    rw [fresh_resize_get, List.nil_append] at hn
    exact congrArg (fun t => t.2.2) hn
  have c0 := c 0 0 (by decide) (by decide) (by decide) (by decide)
  have c1 := c 0 1 (by decide) (by decide) (by decide) (by decide)
  have c2 := c 0 2 (by decide) (by decide) (by decide) (by decide)
  have k0 : (0 : Int) * 3 + 0 = 0 := by decide
  have k1 : (0 : Int) * 3 + 1 = 1 := by decide
  have k2 : (0 : Int) * 3 + 2 = 2 := by decide
  rw [k0] at c0 c'
  rw [k1] at c1
  rw [k2] at c2
  have v0 : codeAdjacency true 2 3 0 0 = [3] := by decide
  have v1 : codeAdjacency true 2 3 0 1 = [4, 2, 0] := by decide
  have v2 : codeAdjacency true 2 3 0 2 = [5] := by decide
  have v0' : codeAdjacency false 2 3 0 0 = [3, 1, 2] := by decide
  rw [v0] at c0
  rw [v1] at c1
  rw [v2] at c2
  rw [v0'] at c'
  refine ⟨g, g', hg, hg', c0, ?_, c1, ?_, c2, ?_, c'⟩
  · rw [c0]; decide
  · rw [c1]; decide
  · rw [c2]; decide

/-- C13: `GenerateLatitudeLongitude` raises exactly when some entry of the
latitude array has magnitude above `M_PI/2 + 1e-12`; when no entry has, it
returns without raising a grid of `nLat*nLon` nodes with dimensions
`[nLat, nLon]`. -/
theorem C13_raises_iff_out_of_range {C : Type} [LinearOrderedField C] (M_PI : C)
    (self : SimpleGrid C) (vecLat vecLon : DataVector C) (fRegional : Bool) :
    ((GenerateLatitudeLongitude M_PI self vecLat vecLon fRegional).2 ≠ none ↔
        ∃ j : Int, 0 ≤ j ∧ j < (vecLat.nRows : Int) ∧
          |vecLat.val j| > M_PI / 2 + 1 / 10 ^ 12) ∧
      ((∃ j : Int, 0 ≤ j ∧ j < (vecLat.nRows : Int) ∧
          |vecLat.val j| > M_PI / 2 + 1 / 10 ^ 12) →
        (GenerateLatitudeLongitude M_PI self vecLat vecLon fRegional).2 = some
          (Failure.exception "In SimpleGrid, latitude array must be given in radians")) ∧
      ((∀ j : Int, 0 ≤ j → j < (vecLat.nRows : Int) →
          |vecLat.val j| ≤ M_PI / 2 + 1 / 10 ^ 12) →
        ∃ g, GenerateLatitudeLongitude M_PI self vecLat vecLon fRegional = (g, none) ∧
          g.GetSize = vecLat.nRows * vecLon.nRows ∧
          g.m_nGridDim = [vecLat.nRows, vecLon.nRows]) := by
  have hbad : (∃ j : Int, 0 ≤ j ∧ j < (vecLat.nRows : Int) ∧
      |vecLat.val j| > M_PI / 2 + 1 / 10 ^ 12) →
      (GenerateLatitudeLongitude M_PI self vecLat vecLon fRegional).2 = some
        (Failure.exception "In SimpleGrid, latitude array must be given in radians") := by
    intro h
    have hc := (rangeCheck_iff M_PI vecLat).2 h
    unfold GenerateLatitudeLongitude
    simp only []
    rw [if_pos hc]
  have hgood : (¬ ∃ j : Int, 0 ≤ j ∧ j < (vecLat.nRows : Int) ∧
      |vecLat.val j| > M_PI / 2 + 1 / 10 ^ 12) →
      ∃ g, GenerateLatitudeLongitude M_PI self vecLat vecLon fRegional = (g, none) ∧
        g.GetSize = vecLat.nRows * vecLon.nRows ∧
        g.m_nGridDim = [vecLat.nRows, vecLon.nRows] := by
    intro h
    obtain ⟨g, h1, h2, h3, _⟩ := generate_spec M_PI self vecLat vecLon fRegional h
    exact ⟨g, h1, h2, h3⟩
  refine ⟨⟨?_, ?_⟩, hbad, ?_⟩
  · intro hne
    by_contra hno
    obtain ⟨g, h1, _⟩ := hgood hno
    rw [h1] at hne
    exact hne rfl
  · intro h
    rw [hbad h]
    simp
  · intro h
    apply hgood
    rintro ⟨j, h1, h2, h3⟩
    exact absurd (h j h1 h2) (not_le.2 h3)

theorem C13_raises_iff_out_of_range_witness :
    (GenerateLatitudeLongitude Real.pi SimpleGrid.fresh badLat threeLon false).2 = some
        (Failure.exception "In SimpleGrid, latitude array must be given in radians") ∧
      ∃ g, GenerateLatitudeLongitude Real.pi SimpleGrid.fresh twoLat threeLon false = (g, none) ∧
        g.GetSize = twoLat.nRows * threeLon.nRows ∧
        g.m_nGridDim = [twoLat.nRows, threeLon.nRows] :=
  ⟨(C13_raises_iff_out_of_range Real.pi SimpleGrid.fresh badLat threeLon false).2.1
      ⟨0, le_refl _, by decide, by
        have hlt := Real.pi_lt_d2
        have hsmall : (1 : ℝ) / 10 ^ 12 < 1 / 100 := by norm_num
        show |(2 : ℝ)| > Real.pi / 2 + 1 / 10 ^ 12
        rw [abs_of_pos (by norm_num : (0 : ℝ) < 2)]
        linarith⟩,
    (C13_raises_iff_out_of_range Real.pi SimpleGrid.fresh twoLat threeLon false).2.2 (by
      intro j h1 h2
      by_contra h
      exact twoLat_in_range ⟨j, h1, h2, not_le.1 h⟩)⟩

/-- For a grid with dimensions `[nLat, nLon]` and in-range coordinates
`[j, i]`, the loop of `CoordinateVectorToIndex` adds `0*1` and then `1*nLat`:
the result is `nLat`, whatever `j` and `i` are. -/
theorem coordinateVectorToIndex_eq {C : Type} (g : SimpleGrid C) (nLat nLon : Nat)
    (hdim : g.m_nGridDim = [nLat, nLon]) (j i : Int)
    (hj0 : 0 ≤ j) (hj : j < (nLat : Int)) (hi0 : 0 ≤ i) (hi : i < (nLon : Int)) :
    CoordinateVectorToIndex g [j, i] = Except.ok (nLat : Int) := by
  have t0 := toSizeT_lt j nLat hj0 hj
  have t1 := toSizeT_lt i nLon hi0 hi
  unfold CoordinateVectorToIndex
  simp [hdim, t0, t1, List.range_succ, coordinateStep]

/-- C14 (the code at the failing input): on the grid of 2 latitudes and 3
longitudes, `CoordinateVectorToIndex` returns 2 (the number of latitudes) for
the coordinates `[1, 2]` and for `[0, 0]`, while the latitude and longitude of
node (1, 2) are stored at the row-major index `1*3 + 2 = 5`. -/
theorem C14_index_ignores_coordinates :
    ∃ g, GenerateLatitudeLongitude Real.pi SimpleGrid.fresh twoLat threeLon false = (g, none) ∧
      CoordinateVectorToIndex g [1, 2] = Except.ok 2 ∧
      CoordinateVectorToIndex g [0, 0] = Except.ok 2 ∧
      g.m_dLat.val (1 * 3 + 2) = twoLat.val 1 ∧ g.m_dLon.val (1 * 3 + 2) = threeLon.val 2 ∧
      (1 : Int) * 3 + 2 ≠ 2 := by
  obtain ⟨g, hg, _, hdim, hnode⟩ :=
    generate_spec Real.pi SimpleGrid.fresh twoLat threeLon false twoLat_in_range
  have hn := hnode 1 2 (by decide) (by decide) (by decide) (by decide)
  refine ⟨g, hg, ?_, ?_, congrArg (fun t => t.1) hn, congrArg (fun t => t.2.1) hn, by decide⟩
  · exact coordinateVectorToIndex_eq g 2 3 hdim 1 2 (by decide) (by decide) (by decide)
      (by decide)
  · exact coordinateVectorToIndex_eq g 2 3 hdim 0 0 (by decide) (by decide) (by decide)
      (by decide)
/-! ## The Laplacian stencil and the tagger -/

theorem nodup_intRangeFrom (n : Nat) : ∀ lo : Int, (intRangeFrom lo n).Nodup := by
  induction n with
  | zero => intro lo; simp [intRangeFrom]
  | succ n ih =>
    intro lo
    simp only [intRangeFrom, List.nodup_cons, mem_intRangeFrom]
    exact ⟨by omega, ih (lo + 1)⟩

theorem nodup_intRange (lo hi : Int) : (intRange lo hi).Nodup :=
  nodup_intRangeFrom _ _

/-- A double loop whose body for `(j, i)` changes the entry `(j, i)` only: the
final matrix, entry by entry. -/
theorem foldl_grid_val {V : Type} (rows cols : List Int) (hr : rows.Nodup) (hc : cols.Nodup)
    (step : Int → Int → DataMatrix V → DataMatrix V) (F : Int → Int → V → V)
    (hstep : ∀ (j i : Int) (m : DataMatrix V) (a b : Int),
      (step j i m).val a b = if a = j ∧ b = i then F j i (m.val a b) else m.val a b)
    (m0 : DataMatrix V) (a b : Int) :
    (rows.foldl (fun m j => cols.foldl (fun m i => step j i m) m) m0).val a b =
      if a ∈ rows ∧ b ∈ cols then F a b (m0.val a b) else m0.val a b := by
  have inner : ∀ (j : Int) (cs : List Int), cs.Nodup → ∀ m : DataMatrix V,
      (cs.foldl (fun m i => step j i m) m).val a b =
        if a = j ∧ b ∈ cs then F j b (m.val a b) else m.val a b := by
    intro j cs
    induction cs with
    | nil => intro _ m; simp
    | cons c cs ih =>
      intro hnd m
      have hnd' := List.nodup_cons.1 hnd
      simp only [List.foldl_cons]
      rw [ih hnd'.2 (step j c m), hstep j c m a b]
      by_cases h1 : a = j ∧ b ∈ cs
      · have hbc : b ≠ c := fun h => hnd'.1 (h ▸ h1.2)
        have h2 : ¬ (a = j ∧ b = c) := fun h => hbc h.2
        have h3 : a = j ∧ b ∈ c :: cs := ⟨h1.1, List.mem_cons_of_mem _ h1.2⟩
        rw [if_pos h1, if_neg h2, if_pos h3]
      · rw [if_neg h1]
        by_cases h2 : a = j ∧ b = c
        · have h3 : a = j ∧ b ∈ c :: cs := ⟨h2.1, h2.2 ▸ List.mem_cons_self _ _⟩
          rw [if_pos h2, if_pos h3, h2.2]
        · have h3 : ¬ (a = j ∧ b ∈ c :: cs) := by
            rintro ⟨h4, h5⟩
            rcases List.mem_cons.1 h5 with h | h
            · exact h2 ⟨h4, h⟩
            · exact h1 ⟨h4, h⟩
          rw [if_neg h2, if_neg h3]
  induction rows generalizing m0 with
  | nil => simp
  | cons r rs ih =>
    have hnd' := List.nodup_cons.1 hr
    simp only [List.foldl_cons]
    rw [ih hnd'.2, inner r cols hc m0]
    by_cases h1 : a ∈ rs ∧ b ∈ cols
    · have har : a ≠ r := fun h => hnd'.1 (h ▸ h1.1)
      have h2 : ¬ (a = r ∧ b ∈ cols) := fun h => har h.1
      have h3 : a ∈ r :: rs ∧ b ∈ cols := ⟨List.mem_cons_of_mem _ h1.1, h1.2⟩
      rw [if_pos h1, if_neg h2, if_pos h3]
    · rw [if_neg h1]
      by_cases h2 : a = r ∧ b ∈ cols
      · have h3 : a ∈ r :: rs ∧ b ∈ cols := ⟨h2.1 ▸ List.mem_cons_self _ _, h2.2⟩
        rw [if_pos h2, if_pos h3, h2.1]
      · have h3 : ¬ (a ∈ r :: rs ∧ b ∈ cols) := by
          rintro ⟨h4, h5⟩
          rcases List.mem_cons.1 h4 with h | h
          · exact h2 ⟨h, h5⟩
          · exact h1 ⟨h, h5⟩
        rw [if_neg h2, if_neg h3]

section Tagger

variable {K : Type} [LinearOrderedField K]

/-- The array `dLaplacian` after the loops: the stencil value at the nodes of
the computed rows and columns, the old content elsewhere. -/
theorem computeLaplacian_val (w : StencilWeights K) (dIWV : DataMatrix K)
    (nLat nLon k : Int) (fRegional : Bool) (L0 : DataMatrix K) (a b : Int) :
    (computeLaplacian w dIWV nLat nLon k fRegional L0).val a b =
      if (k ≤ a ∧ a < nLat - k) ∧
          ((if fRegional then k else 0) ≤ b ∧ b < (if fRegional then nLon - k else nLon))
      then stencilValue w dIWV nLon k a b else L0.val a b := by
  unfold computeLaplacian
  simp only []
  rw [foldl_grid_val _ _ (nodup_intRange _ _) (nodup_intRange _ _)
    (fun j i m => m.set j i (stencilValue w dIWV nLon k j i))
    (fun j i _ => stencilValue w dIWV nLon k j i)
    (by intro j i m a b; rfl)]
  simp only [mem_intRange]

/-- What the body of the tagging loops does to the tag array. -/
theorem tagNode_val (opt : TaggerOptions K) (dLatDeg : DataVector K)
    (dIWV L : DataMatrix K) (nLat nLon j i : Int) (t : DataMatrix Int) (a b : Int) :
    (tagNode opt dLatDeg dIWV L nLat nLon j i t).val a b =
      if a = j ∧ b = i then
        (if passesThresholds opt dLatDeg dIWV nLat nLon j i
          then (if L.val j i > -opt.dMinLaplacian then 0 else 1) else t.val a b)
      else t.val a b := by
  unfold tagNode passesThresholds
  by_cases h1 : |dLatDeg.val j| < opt.dMinAbsLat
  · simp [h1]
  · by_cases h2 : dIWV.val j i < opt.dMinIWV
    · simp [h1, h2]
    · by_cases h3 : dIWV.val j i <
          zonalThreshold dIWV nLon opt.dZonalMeanWeight opt.dZonalMaxWeight j
      · simp [h1, h2, h3]
      · by_cases h4 : dIWV.val j i <
            meridThreshold dIWV nLat nLon opt.dMeridMeanWeight opt.dMeridMaxWeight i
        · simp [h1, h2, h3, h4]
        · have hp : ¬|dLatDeg.val j| < opt.dMinAbsLat ∧ ¬dIWV.val j i < opt.dMinIWV ∧
              ¬dIWV.val j i <
                zonalThreshold dIWV nLon opt.dZonalMeanWeight opt.dZonalMaxWeight j ∧
              ¬dIWV.val j i <
                meridThreshold dIWV nLat nLon opt.dMeridMeanWeight opt.dMeridMaxWeight i :=
            ⟨h1, h2, h3, h4⟩
          simp only [if_neg h1, if_neg h2, if_neg h3, if_neg h4, if_pos hp]
          by_cases h5 : L.val j i > -opt.dMinLaplacian
          · simp only [if_pos h5, DataMatrix.set]
          · simp only [if_neg h5, DataMatrix.set]

/-- The tag array after the tagging loops, entry by entry. -/
theorem buildTags_val (opt : TaggerOptions K) (dLatDeg : DataVector K)
    (dIWV L : DataMatrix K) (nLat nLon : Int) (t0 : DataMatrix Int) (a b : Int) :
    (buildTags opt dLatDeg dIWV L nLat nLon t0).val a b =
      if (0 ≤ a ∧ a < nLat) ∧ (0 ≤ b ∧ b < nLon) then
        (if passesThresholds opt dLatDeg dIWV nLat nLon a b
          then (if L.val a b > -opt.dMinLaplacian then 0 else 1) else t0.val a b)
      else t0.val a b := by
  unfold buildTags
  rw [foldl_grid_val _ _ (nodup_intRange _ _) (nodup_intRange _ _)
    (fun j i t => tagNode opt dLatDeg dIWV L nLat nLon j i t)
    (fun j i old => if passesThresholds opt dLatDeg dIWV nLat nLon j i
      then (if L.val j i > -opt.dMinLaplacian then 0 else 1) else old)
    (by intro j i m a b; exact tagNode_val opt dLatDeg dIWV L nLat nLon j i m a b)]
  simp only [mem_intRange]

end Tagger

/-- The weights of the stencil sum to zero. -/
theorem weights_sum_zero {K : Type} [LinearOrderedField K] (P Q : K) (hP : P ≠ 0) (hQ : Q ≠ 0) :
    4 * (laplacianWeights P Q).dA + 2 * (laplacianWeights P Q).dB
      + 2 * (laplacianWeights P Q).dC + (laplacianWeights P Q).dD = 0 := by
  unfold laplacianWeights
  simp only
  field_simp
  ring

/-- The stencil sum of a quadratic polynomial sampled at spacings `X`, `Y`. -/
theorem stencil_quadratic {K : Type} [LinearOrderedField K] (X Y x y a b c d e g : K)
    (hX : X ≠ 0) (hY : Y ≠ 0) (q : K → K → K)
    (hq : ∀ s t, q s t = a + b * s + c * t + d * s ^ 2 + e * (s * t) + g * t ^ 2) :
    (laplacianWeights (X * X) (Y * Y)).dA * q (x - X) (y - Y)
      + (laplacianWeights (X * X) (Y * Y)).dB * q (x - X) y
      + (laplacianWeights (X * X) (Y * Y)).dA * q (x - X) (y + Y)
      + (laplacianWeights (X * X) (Y * Y)).dC * q x (y - Y)
      + (laplacianWeights (X * X) (Y * Y)).dD * q x y
      + (laplacianWeights (X * X) (Y * Y)).dC * q x (y + Y)
      + (laplacianWeights (X * X) (Y * Y)).dA * q (x + X) (y - Y)
      + (laplacianWeights (X * X) (Y * Y)).dB * q (x + X) y
      + (laplacianWeights (X * X) (Y * Y)).dA * q (x + X) (y + Y) = 2 * d + 2 * g := by
  have hu : X⁻¹ * X = 1 := inv_mul_cancel₀ hX
  have hv : Y⁻¹ * Y = 1 := inv_mul_cancel₀ hY
  unfold laplacianWeights
  simp only [hq, div_eq_mul_inv, mul_inv]
  generalize X⁻¹ = u at hu ⊢
  generalize Y⁻¹ = v at hv ⊢
  linear_combination (2 * d) * (u * X + 1) * hu + (2 * g) * (v * Y + 1) * hv

/-! ### Claims about the stencil and the threshold test -/

/-- C15: for nonzero spacings `dLon`, `dLat` (the spacings of the coordinate
arrays in radians), a half-width `k ≥ 1` and a field that is the polynomial
`a + b x + c y + d x² + e x y + g y²` in `x = i*dLon`, `y = j*dLat`, the
stencil value at a node whose columns `i-k` and `i+k` lie inside `[0, nLon)`
is `2 d + 2 g`, and the weights satisfy `4 dA + 2 dB + 2 dC + dD = 0`. -/
theorem C15_stencil_exact_on_quadratics {K : Type} [LinearOrderedField K] (M_PI : K)
    (dLonDeg dLatDeg : DataVector K) (k : Int) (dLon dLat : K)
    (hdLon : dLon = (dLonDeg.val 1 - dLonDeg.val 0) / 180 * M_PI)
    (hdLat : dLat = (dLatDeg.val 1 - dLatDeg.val 0) / 180 * M_PI)
    (hLon : dLon ≠ 0) (hLat : dLat ≠ 0) (hk : 1 ≤ k)
    (a b c d e g : K) (dIWV : DataMatrix K)
    (hf : ∀ j i : Int, dIWV.val j i =
      a + b * ((i : K) * dLon) + c * ((j : K) * dLat) + d * ((i : K) * dLon) ^ 2
        + e * (((i : K) * dLon) * ((j : K) * dLat)) + g * ((j : K) * dLat) ^ 2)
    (nLon j i : Int) (hw : k ≤ i) (he : i + k < nLon) :
    stencilValue
        (laplacianWeights (stencilSpacingSq M_PI dLonDeg k) (stencilSpacingSq M_PI dLatDeg k))
        dIWV nLon k j i = 2 * d + 2 * g ∧
      4 * (laplacianWeights (stencilSpacingSq M_PI dLonDeg k)
            (stencilSpacingSq M_PI dLatDeg k)).dA
        + 2 * (laplacianWeights (stencilSpacingSq M_PI dLonDeg k)
            (stencilSpacingSq M_PI dLatDeg k)).dB
        + 2 * (laplacianWeights (stencilSpacingSq M_PI dLonDeg k)
            (stencilSpacingSq M_PI dLatDeg k)).dC
        + (laplacianWeights (stencilSpacingSq M_PI dLonDeg k)
            (stencilSpacingSq M_PI dLatDeg k)).dD = 0 := by
  have h0 : Int.tmod (i + nLon - k) nLon = i - k := by
    rw [Int.tmod_eq_emod (by omega) (by omega), show i + nLon - k = i - k + nLon by ring,
      Int.add_emod_self, Int.emod_eq_of_lt (by omega) (by omega)]
  have h2 : Int.tmod (i + k) nLon = i + k := Int.tmod_eq_of_lt (by omega) he
  have hk' : (k : K) ≠ 0 := by
    have : (k : K) ≥ 1 := by exact_mod_cast hk
    intro h
    rw [h] at this
    exact absurd this (by norm_num)
  have e1 : stencilSpacingSq M_PI dLonDeg k = (dLon * (k : K)) * (dLon * (k : K)) := by
    rw [hdLon]; rfl
  have e2 : stencilSpacingSq M_PI dLatDeg k = (dLat * (k : K)) * (dLat * (k : K)) := by
    rw [hdLat]; rfl
  have hX : dLon * (k : K) ≠ 0 := mul_ne_zero hLon hk'
  have hY : dLat * (k : K) ≠ 0 := mul_ne_zero hLat hk'
  rw [e1, e2]
  refine ⟨?_, weights_sum_zero _ _ (mul_ne_zero hX hX) (mul_ne_zero hY hY)⟩
  have key := stencil_quadratic (dLon * (k : K)) (dLat * (k : K)) ((i : K) * dLon)
    ((j : K) * dLat) a b c d e g hX hY
    (fun s t => a + b * s + c * t + d * s ^ 2 + e * (s * t) + g * t ^ 2) (fun _ _ => rfl)
  unfold stencilValue
  simp only [h0, h2, hf]
  push_cast
  simp only at key
  rw [← key]
  ring

theorem C15_stencil_exact_on_quadratics_witness :
    stencilValue
        (laplacianWeights (stencilSpacingSq 3 (unitDegreesQ 5) 1)
          (stencilSpacingSq 3 (unitDegreesQ 5) 1))
        bowlField 5 1 2 2 = 2 * 1 + 2 * 1 ∧
      4 * (laplacianWeights (stencilSpacingSq 3 (unitDegreesQ 5) 1)
            (stencilSpacingSq 3 (unitDegreesQ 5) 1)).dA
        + 2 * (laplacianWeights (stencilSpacingSq 3 (unitDegreesQ 5) 1)
            (stencilSpacingSq 3 (unitDegreesQ 5) 1)).dB
        + 2 * (laplacianWeights (stencilSpacingSq 3 (unitDegreesQ 5) 1)
            (stencilSpacingSq 3 (unitDegreesQ 5) 1)).dC
        + (laplacianWeights (stencilSpacingSq 3 (unitDegreesQ 5) 1)
            (stencilSpacingSq 3 (unitDegreesQ 5) 1)).dD = 0 :=
  C15_stencil_exact_on_quadratics (3 : ℚ) (unitDegreesQ 5) (unitDegreesQ 5) 1 (1 / 60) (1 / 60)
    (by simp [unitDegreesQ]; norm_num) (by simp [unitDegreesQ]; norm_num)
    (by norm_num) (by norm_num) (by decide) 0 0 0 1 0 1 bowlField
    (by intro j i; simp [bowlField]) 5 2 2 (by decide) (by decide)

/-- The tag of a node for which the stencil is computed in the same pass. -/
theorem tagArray_val {K : Type} [LinearOrderedField K] (M_PI : K) (opt : TaggerOptions K)
    (dLonDeg dLatDeg : DataVector K) (dIWV L0 : DataMatrix K) (T0 : DataMatrix Int)
    (j i : Int) (hk : 0 ≤ opt.iLaplacianSize)
    (hj : opt.iLaplacianSize ≤ j ∧ j < (dLatDeg.nRows : Int) - opt.iLaplacianSize)
    (hi : 0 ≤ i ∧ i < (dLonDeg.nRows : Int))
    (hr : opt.fRegional = true →
      opt.iLaplacianSize ≤ i ∧ i < (dLonDeg.nRows : Int) - opt.iLaplacianSize) :
    (tagArray M_PI opt dLonDeg dLatDeg dIWV L0 T0).val j i =
      if passesThresholds opt dLatDeg dIWV dLatDeg.nRows dLonDeg.nRows j i then
        (if stencilValue
              (laplacianWeights (stencilSpacingSq M_PI dLonDeg opt.iLaplacianSize)
                (stencilSpacingSq M_PI dLatDeg opt.iLaplacianSize))
              dIWV dLonDeg.nRows opt.iLaplacianSize j i > -opt.dMinLaplacian
          then 0 else 1)
      else 0 := by
  unfold tagArray laplacianArray
  simp only [buildTags_val, computeLaplacian_val]
  have h1 : (0 ≤ j ∧ j < (dLatDeg.nRows : Int)) ∧ (0 ≤ i ∧ i < (dLonDeg.nRows : Int)) :=
    ⟨⟨by omega, by omega⟩, hi⟩
  have h2 : (opt.iLaplacianSize ≤ j ∧ j < (dLatDeg.nRows : Int) - opt.iLaplacianSize) ∧
      ((if opt.fRegional then opt.iLaplacianSize else 0) ≤ i ∧
        i < (if opt.fRegional then (dLonDeg.nRows : Int) - opt.iLaplacianSize
              else (dLonDeg.nRows : Int))) := by
    refine ⟨hj, ?_⟩
    cases hf : opt.fRegional
    · simpa using hi
    · simpa using hr hf
  rw [if_pos h1, if_pos h2]
  rfl

/-- The stencil value at the centre of the spike field. -/
theorem spike_stencil :
    stencilValue
        (laplacianWeights (stencilSpacingSq Real.pi (unitDegrees 3) spikeOptions.iLaplacianSize)
          (stencilSpacingSq Real.pi (unitDegrees 3) spikeOptions.iLaplacianSize))
        spikeField 3 spikeOptions.iLaplacianSize 1 1 =
      -5 / 3 * (1 / (Real.pi / 180) ^ 2 + 1 / (Real.pi / 180) ^ 2) := by
  have t0 : Int.tmod (1 + 3 - 1) 3 = 0 := by decide
  have t2 : Int.tmod (1 + 1) 3 = 2 := by decide
  simp only [stencilValue, spikeOptions, t0, t2, spikeField, laplacianWeights, stencilSpacingSq,
    unitDegrees]
  norm_num
  ring

/-- The centre of the spike field passes the four tests before the test on
the Laplacian. -/
theorem spike_passes :
    passesThresholds spikeOptions (unitDegrees 3) spikeField 3 3 1 1 := by
  simp [passesThresholds, spikeOptions, zonalThreshold, meridThreshold, unitDegrees, spikeField]

theorem spike_bound : 2025 ≤ 1 / (Real.pi / 180) ^ 2 := by
  have hp : 0 < Real.pi := Real.pi_pos
  have h4 : Real.pi ≤ 4 := Real.pi_le_four
  rw [le_div_iff₀ (by positivity)]
  have : (Real.pi / 180) ^ 2 ≤ (4 / 180) ^ 2 := by
    apply pow_le_pow_left₀ (by positivity)
    linarith
  nlinarith

/-- C16 (counterexample): on a 3x3 grid with one-degree spacing, half-width 1,
minimum Laplacian 4 and a field that is 1 at the centre and 0 elsewhere, the
centre is tagged 1, so the value tested was at most -4; the stencil value
multiplied by `(pi/180)^2` is `-10/3`, which is greater than -4, so a test on
the converted value would have left the tag 0. -/
theorem C16_counterexample :
    (tagArray Real.pi spikeOptions (unitDegrees 3) (unitDegrees 3) spikeField
        (zeroMatrix ℝ 3 3) (zeroMatrix Int 3 3)).val 1 1 = 1 ∧
      stencilValue
          (laplacianWeights (stencilSpacingSq Real.pi (unitDegrees 3) spikeOptions.iLaplacianSize)
            (stencilSpacingSq Real.pi (unitDegrees 3) spikeOptions.iLaplacianSize))
          spikeField 3 spikeOptions.iLaplacianSize 1 1 * (Real.pi / 180) ^ 2
        > -spikeOptions.dMinLaplacian := by
  constructor
  · rw [tagArray_val Real.pi spikeOptions (unitDegrees 3) (unitDegrees 3) spikeField _ _ 1 1
      (by decide) (by decide) (by decide) (by intro h; exact absurd h (by decide))]
    have hb := spike_bound
    have hs := spike_stencil
    have hp := spike_passes
    simp only [unitDegrees, Nat.cast_ofNat] at hs hp ⊢
    rw [if_pos hp]
    refine if_neg ?_
    rw [hs]
    simp only [spikeOptions, gt_iff_lt, not_lt]
    linarith
  · rw [spike_stencil]
    have hp : 0 < Real.pi := Real.pi_pos
    have e : (-5 / 3 * (1 / (Real.pi / 180) ^ 2 + 1 / (Real.pi / 180) ^ 2))
        * (Real.pi / 180) ^ 2 = -10 / 3 := by
      field_simp
      ring
    rw [e]
    simp only [spikeOptions]
    norm_num

/-- C16 (amended): in the atmospheric-river tagger, at every node for which
the stencil is computed (row within `[k, nLat - k)`, column within `[0, nLon)`
and, on a regional grid, within `[k, nLon - k)`), the tag is 1 exactly when the
node passes the four threshold tests and the 9-point stencil value itself
(computed with spacings in radians, not multiplied by any factor) is not
greater than minus the minimum Laplacian; otherwise the tag is 0. -/
theorem C16_threshold_on_raw_stencil {K : Type} [LinearOrderedField K] (M_PI : K)
    (opt : TaggerOptions K) (dLonDeg dLatDeg : DataVector K) (dIWV L0 : DataMatrix K)
    (T0 : DataMatrix Int) (j i : Int) (hk : 0 ≤ opt.iLaplacianSize)
    (hj : opt.iLaplacianSize ≤ j ∧ j < (dLatDeg.nRows : Int) - opt.iLaplacianSize)
    (hi : 0 ≤ i ∧ i < (dLonDeg.nRows : Int))
    (hr : opt.fRegional = true →
      opt.iLaplacianSize ≤ i ∧ i < (dLonDeg.nRows : Int) - opt.iLaplacianSize) :
    ((tagArray M_PI opt dLonDeg dLatDeg dIWV L0 T0).val j i = 1 ↔
        passesThresholds opt dLatDeg dIWV dLatDeg.nRows dLonDeg.nRows j i ∧
          ¬ stencilValue
              (laplacianWeights (stencilSpacingSq M_PI dLonDeg opt.iLaplacianSize)
                (stencilSpacingSq M_PI dLatDeg opt.iLaplacianSize))
              dIWV dLonDeg.nRows opt.iLaplacianSize j i > -opt.dMinLaplacian) ∧
      ((tagArray M_PI opt dLonDeg dLatDeg dIWV L0 T0).val j i = 1 ∨
        (tagArray M_PI opt dLonDeg dLatDeg dIWV L0 T0).val j i = 0) := by
  rw [tagArray_val M_PI opt dLonDeg dLatDeg dIWV L0 T0 j i hk hj hi hr]
  by_cases hp : passesThresholds opt dLatDeg dIWV dLatDeg.nRows dLonDeg.nRows j i
  · by_cases hs : stencilValue
        (laplacianWeights (stencilSpacingSq M_PI dLonDeg opt.iLaplacianSize)
          (stencilSpacingSq M_PI dLatDeg opt.iLaplacianSize))
        dIWV dLonDeg.nRows opt.iLaplacianSize j i > -opt.dMinLaplacian
    · rw [if_pos hp, if_pos hs]
      exact ⟨⟨fun h => absurd h (by decide), fun h => absurd hs h.2⟩, Or.inr rfl⟩
    · rw [if_pos hp, if_neg hs]
      exact ⟨⟨fun _ => ⟨hp, hs⟩, fun _ => rfl⟩, Or.inl rfl⟩
  · rw [if_neg hp]
    exact ⟨⟨fun h => absurd h (by decide), fun h => absurd h.1 hp⟩, Or.inr rfl⟩

theorem C16_threshold_on_raw_stencil_witness :
    ((tagArray Real.pi spikeOptions (unitDegrees 3) (unitDegrees 3) spikeField
          (zeroMatrix ℝ 3 3) (zeroMatrix Int 3 3)).val 1 1 = 1 ↔
        passesThresholds spikeOptions (unitDegrees 3) spikeField (unitDegrees 3).nRows
            (unitDegrees 3).nRows 1 1 ∧
          ¬ stencilValue
              (laplacianWeights
                (stencilSpacingSq Real.pi (unitDegrees 3) spikeOptions.iLaplacianSize)
                (stencilSpacingSq Real.pi (unitDegrees 3) spikeOptions.iLaplacianSize))
              spikeField (unitDegrees 3).nRows spikeOptions.iLaplacianSize 1 1
            > -spikeOptions.dMinLaplacian) ∧
      ((tagArray Real.pi spikeOptions (unitDegrees 3) (unitDegrees 3) spikeField
          (zeroMatrix ℝ 3 3) (zeroMatrix Int 3 3)).val 1 1 = 1 ∨
        (tagArray Real.pi spikeOptions (unitDegrees 3) (unitDegrees 3) spikeField
          (zeroMatrix ℝ 3 3) (zeroMatrix Int 3 3)).val 1 1 = 0) :=
  C16_threshold_on_raw_stencil Real.pi spikeOptions (unitDegrees 3) (unitDegrees 3) spikeField
    (zeroMatrix ℝ 3 3) (zeroMatrix Int 3 3) 1 1 (by decide) (by decide) (by decide)
    (by intro h; exact absurd h (by decide))

/-! ## The cyclone detector -/

/-- Membership in the result of the scan for maxima: the pairs already in
`setMaxima` and the interior nodes at which `fMaximum` stays set. -/
theorem mem_FindAllLocalMaxima {V : Type} [LinearOrder V] (data : DataMatrix V)
    (s0 : List Point) (x : Point) :
    x ∈ FindAllLocalMaxima data s0 ↔
      x ∈ s0 ∨ (1 ≤ x.1 ∧ x.1 < (data.nRows : Int) - 1 ∧ 0 ≤ x.2 ∧ x.2 < (data.nCols : Int)
        ∧ fMaximum data x.1 x.2 = true) := by
  unfold FindAllLocalMaxima
  simp only
  have inner : ∀ (j : Int) (s : List Point),
      x ∈ (intRange 0 (data.nCols : Int)).foldl
        (fun s i => if fMaximum data j i then setInsert (j, i) s else s) s ↔
      x ∈ s ∨ (x.1 = j ∧ 0 ≤ x.2 ∧ x.2 < (data.nCols : Int) ∧ fMaximum data x.1 x.2 = true) := by
    intro j s
    rw [mem_foldl_insert_if (fun i => (j, i)) (fun i => fMaximum data j i)]
    apply or_congr Iff.rfl
    constructor
    · rintro ⟨i, hi, hc, rfl⟩
      rw [mem_intRange] at hi
      exact ⟨rfl, hi.1, hi.2, hc⟩
    · rintro ⟨rfl, h1, h2, hc⟩
      exact ⟨x.2, (mem_intRange _ _ _).2 ⟨h1, h2⟩, hc, rfl⟩
  have outer : ∀ (rows : List Int) (s : List Point),
      x ∈ rows.foldl (fun s j => (intRange 0 (data.nCols : Int)).foldl
        (fun s i => if fMaximum data j i then setInsert (j, i) s else s) s) s ↔
      x ∈ s ∨ (x.1 ∈ rows ∧ 0 ≤ x.2 ∧ x.2 < (data.nCols : Int)
        ∧ fMaximum data x.1 x.2 = true) := by
    intro rows
    induction rows with
    | nil => intro s; simp
    | cons j rows ih =>
      intro s
      simp only [List.foldl_cons, ih, inner, List.mem_cons]
      tauto
  rw [outer, mem_intRange]
  tauto

/-- The flag `fMaximum` is cleared when the entry below the node in the next
row is strictly above the centre value. -/
theorem fMaximum_eq_false_of_next_row {V : Type} [LinearOrder V] (data : DataMatrix V)
    (j i : Int) (h : data.val (j + 1) ((i + 0) % (data.nCols : Int)) > data.val j i) :
    fMaximum data j i = false := by
  unfold fMaximum stencilOffsets
  simp only [stencil_column_eq, List.all_cons, List.all_nil, Bool.and_true]
  rw [Bool.eq_false_iff]
  intro hall
  simp only [Bool.and_eq_true, Bool.not_eq_true', decide_eq_false_iff_not] at hall
  exact hall.2.2.2.1 h

/-- The index built from a set of maxima holds the embedded nodes, in order. -/
theorem buildIndex_eq_map {K : Type} [Field K] (lib : LibM K) (dataLat dataLon : DataVector K)
    (setMaxima : List Point) :
    buildIndex lib dataLat dataLon setMaxima =
      setMaxima.map (fun pr => embed lib (dataLat.val pr.1) (dataLon.val pr.2)) := by
  unfold buildIndex
  have gen : ∀ (l : List Point) (acc : List (Vec3 K)),
      l.foldl (fun tree pr =>
        kd_insert3 tree (lib.sin (dataLon.val pr.2) * lib.cos (dataLat.val pr.1))
          (lib.cos (dataLon.val pr.2) * lib.cos (dataLat.val pr.1))
          (lib.sin (dataLat.val pr.1))) acc
        = acc ++ l.map (fun pr => embed lib (dataLat.val pr.1) (dataLon.val pr.2)) := by
    intro l
    induction l with
    | nil => intro acc; simp
    | cons a l ih =>
      intro acc
      rw [List.foldl_cons, ih]
      simp only [List.map_cons, kd_insert3, embed, List.append_assoc, List.singleton_append]
  simpa using gen setMaxima []

/-- The query on an index that holds a point finds a point of the index that
no other point of the index is nearer than. -/
theorem kd_nearest3_spec {K : Type} [LinearOrderedField K] (tree : List (Vec3 K)) (x y z : K)
    (h : tree ≠ []) :
    ∃ pos, kd_nearest3 tree x y z = some pos ∧ pos ∈ tree ∧
      ∀ p ∈ tree, chordSq (x, y, z) pos ≤ chordSq (x, y, z) p := by
  unfold kd_nearest3
  induction tree using List.reverseRecOn with
  | nil => exact absurd rfl h
  | append_singleton l a ih =>
    rw [List.foldl_append]
    simp only [List.foldl_cons, List.foldl_nil]
    by_cases hl : l = []
    · subst hl
      simp
    · obtain ⟨b, hb, hbl, hmin⟩ := ih hl
      rw [hb]
      simp only
      by_cases hlt : chordSq (x, y, z) a < chordSq (x, y, z) b
      · rw [if_pos hlt]
        refine ⟨a, rfl, by simp, ?_⟩
        intro p hp
        rcases List.mem_append.1 hp with hp | hp
        · exact le_trans (le_of_lt hlt) (hmin p hp)
        · rw [List.mem_singleton.1 hp]
      · rw [if_neg hlt]
        refine ⟨b, rfl, by simp [hbl], ?_⟩
        intro p hp
        rcases List.mem_append.1 hp with hp | hp
        · exact hmin p hp
        · rw [List.mem_singleton.1 hp]
          exact not_lt.1 hlt

/-- The query on an index that holds no point reports no match. -/
theorem kd_nearest3_nil {K : Type} [LinearOrderedField K] (x y z : K) :
    kd_nearest3 ([] : List (Vec3 K)) x y z = none := rfl

theorem chordSq_nonneg {K : Type} [LinearOrderedField K] (q pos : Vec3 K) :
    0 ≤ chordSq q pos := by
  unfold chordSq
  nlinarith [mul_self_nonneg (q.1 - pos.1), mul_self_nonneg (q.2.1 - pos.2.1),
    mul_self_nonneg (q.2.2 - pos.2.2)]

theorem chordSq_self {K : Type} [LinearOrderedField K] (q : Vec3 K) : chordSq q q = 0 := by
  unfold chordSq
  ring

/-- The angular distance over the reals is 0 when the chord is 0. -/
theorem angularDist_of_chordSq_zero (q pos : Vec3 ℝ) (h : chordSq q pos = 0) :
    angularDist realLibM q pos = 0 := by
  unfold angularDist
  unfold chordSq at h
  simp only [realLibM, h, Real.sqrt_zero, mul_zero, Real.arcsin_zero, zero_mul, zero_div]

/-- C17: over the reals, for every pressure-minimum candidate `pr` whose node
is in the set of temperature maxima from which the index was built, the query
for the embedded candidate finds a position, and the angular distance that
lines 567-579 compute from it (`2 * asin(0.5 * c) * 180 / M_PI` for the chord
`c`) is 0. -/
theorem C17_present_point_distance_zero (dataLat dataLon : DataVector ℝ)
    (setMaxima : List Point) (pr : Point) (h : pr ∈ setMaxima) :
    ∃ pos,
      kd_res_item
          (kd_nearest3 (buildIndex realLibM dataLat dataLon setMaxima)
            (embed realLibM (dataLat.val pr.1) (dataLon.val pr.2)).1
            (embed realLibM (dataLat.val pr.1) (dataLon.val pr.2)).2.1
            (embed realLibM (dataLat.val pr.1) (dataLon.val pr.2)).2.2)
        = Except.ok pos ∧
      angularDist realLibM (embed realLibM (dataLat.val pr.1) (dataLon.val pr.2)) pos = 0 := by
  have hmem : embed realLibM (dataLat.val pr.1) (dataLon.val pr.2) ∈
      buildIndex realLibM dataLat dataLon setMaxima := by
    rw [buildIndex_eq_map]
    exact List.mem_map.2 ⟨pr, h, rfl⟩
  obtain ⟨pos, hpos, _, hmin⟩ := kd_nearest3_spec (buildIndex realLibM dataLat dataLon setMaxima)
    (embed realLibM (dataLat.val pr.1) (dataLon.val pr.2)).1
    (embed realLibM (dataLat.val pr.1) (dataLon.val pr.2)).2.1
    (embed realLibM (dataLat.val pr.1) (dataLon.val pr.2)).2.2
    (List.ne_nil_of_mem hmem)
  refine ⟨pos, by rw [hpos]; rfl, ?_⟩
  apply angularDist_of_chordSq_zero
  have h0 := hmin _ hmem
  rw [chordSq_self] at h0
  exact le_antisymm h0 (chordSq_nonneg _ _)

theorem C17_present_point_distance_zero_witness :
    ∃ pos,
      kd_res_item
          (kd_nearest3 (buildIndex realLibM twoLat threeLon [(1, 0), (1, 2)])
            (embed realLibM (twoLat.val 1) (threeLon.val 2)).1
            (embed realLibM (twoLat.val 1) (threeLon.val 2)).2.1
            (embed realLibM (twoLat.val 1) (threeLon.val 2)).2.2)
        = Except.ok pos ∧
      angularDist realLibM (embed realLibM (twoLat.val 1) (threeLon.val 2)) pos = 0 :=
  C17_present_point_distance_zero twoLat threeLon [(1, 0), (1, 2)] (1, 2) (by decide)

/-- Once the loop over the pressure minima has failed, it stays failed. -/
theorem warmCoreFold_error {K : Type} [LinearOrderedField K] (lib : LibM K)
    (opt : DetectOptions K) (dataLat dataLon : DataVector K) (t200 t500 : List (Vec3 K))
    (l : List Point) (e : RunFailure) :
    l.foldl
        (fun acc pr =>
          match acc with
          | Except.error e => Except.error e
          | Except.ok st => warmCoreStep lib opt dataLat dataLon t200 t500 pr st)
        (Except.error e) = Except.error e := by
  induction l with
  | nil => rfl
  | cons a l ih => simpa only [List.foldl_cons] using ih

/-- With an index that holds no point, the body of the loop over the pressure
minima reads the position of a result that holds no match. -/
theorem warmCoreStep_null {K : Type} [LinearOrderedField K] (lib : LibM K)
    (opt : DetectOptions K) (dataLat dataLon : DataVector K) (t200 t500 : List (Vec3 K))
    (h : t200 = [] ∨ t500 = []) (pr : Point) (st : WarmCoreState) :
    warmCoreStep lib opt dataLat dataLon t200 t500 pr st =
      Except.error RunFailure.nullResult := by
  unfold warmCoreStep
  simp only
  by_cases h2 : t200 = []
  · subst h2
    rfl
  · have h5 : t500 = [] := h.resolve_left h2
    subst h5
    obtain ⟨pos, hpos, _⟩ := kd_nearest3_spec t200
      (lib.sin (dataLon.val pr.2) * lib.cos (dataLat.val pr.1))
      (lib.cos (dataLon.val pr.2) * lib.cos (dataLat.val pr.1)) (lib.sin (dataLat.val pr.1)) h2
    rw [hpos]
    rfl

/-- With an index that holds no point and at least one pressure minimum, the
warm-core filter stops at the first minimum. -/
theorem warmCoreFilter_null {K : Type} [LinearOrderedField K] (lib : LibM K)
    (opt : DetectOptions K) (dataLat dataLon : DataVector K) (t200 t500 : List (Vec3 K))
    (h : t200 = [] ∨ t500 = []) (minima : List Point) (hm : minima ≠ []) :
    warmCoreFilter lib opt dataLat dataLon t200 t500 minima =
      Except.error RunFailure.nullResult := by
  unfold warmCoreFilter
  cases minima with
  | nil => exact absurd rfl hm
  | cons a l =>
    rw [List.foldl_cons]
    simp only
    rw [warmCoreStep_null lib opt dataLat dataLon t200 t500 h]
    exact warmCoreFold_error lib opt dataLat dataLon t200 t500 l _

/-- A timestep with the warm-core filter switched on, no maximum of one of
the temperature fields and at least one pressure minimum stops the run. -/
theorem processTimestep_null {K : Type} [LinearOrderedField K] (lib : LibM K)
    (opt : DetectOptions K) (dataLat dataLon : DataVector K) (step : Timestep K)
    (h1 : opt.dWarmCoreDist ≠ 0 ∨ opt.dNoWarmCoreDist ≠ 0)
    (h2 : FindAllLocalMaxima ⟨dataLat.nRows, dataLon.nRows, step.dataT200⟩ [] = [] ∨
      FindAllLocalMaxima ⟨dataLat.nRows, dataLon.nRows, step.dataT500⟩ [] = [])
    (h3 : FindAllLocalMinima ⟨dataLat.nRows, dataLon.nRows, step.dataPSL⟩ [] ≠ []) :
    processTimestep lib opt dataLat dataLon step = Except.error RunFailure.nullResult := by
  unfold processTimestep
  simp only [if_pos h1]
  rw [warmCoreFilter_null lib opt dataLat dataLon _ _ _ _ h3]
  rcases h2 with h2 | h2
  · left; rw [h2]; rfl
  · right; rw [h2]; rfl

/-- The temperature fields of `risingStep` have no local maximum on a 3x3
grid: the entry in the next row is always above. -/
theorem rising_no_maxima :
    FindAllLocalMaxima (⟨3, 3, risingStep.dataT200⟩ : DataMatrix ℝ) [] = [] := by
  rw [List.eq_nil_iff_forall_not_mem]
  intro x hx
  rw [mem_FindAllLocalMaxima] at hx
  rcases hx with hx | ⟨_, _, _, _, hx⟩
  · exact absurd hx (List.not_mem_nil _)
  · rw [fMaximum_eq_false_of_next_row] at hx
    · exact absurd hx (by decide)
    · simp [risingStep]

/-- The constant pressure field of `risingStep` has a local minimum on a 3x3
grid. -/
theorem rising_has_minimum :
    FindAllLocalMinima (⟨3, 3, risingStep.dataPSL⟩ : DataMatrix ℝ) [] ≠ [] := by
  apply List.ne_nil_of_mem (a := ((1, 0) : Point))
  rw [mem_FindAllLocalMinima]
  right
  refine ⟨by decide, by decide, by decide, by decide, ?_⟩
  rw [fMinimum_iff]
  intro q p _ _ _ _
  simp [risingStep]

/-- C18 (the code at the failing input): on a 3x3 grid with a constant
pressure field (so that there are pressure minima), temperature fields that
rise with the row index (so that neither index holds a point) and
`warmcoredist = 5`, the run does not branch on the outcome of the query: it
stops in the first timestep at the read of the position of a result that holds
no match, and writes no record. -/
theorem C18_empty_index_read :
    runMain realLibM warmOptions risingInput = ([], some RunFailure.nullResult) := by
  have e1 : ¬ ("in.nc".length = 0) := by decide
  have e2 : ¬ ("out.txt".length = 0) := by decide
  have hc : checkOptions warmOptions = none := by
    simp [checkOptions, warmOptions, e1, e2]
  unfold runMain
  rw [hc]
  simp only [risingInput, runLoop]
  rw [processTimestep_null]
  · simp [warmOptions]
  · left
    exact rising_no_maxima
  · exact rising_has_minimum

theorem length_setInsert_of_not_mem (a : Point) (s : List Point) (ha : a ∉ s) :
    (setInsert a s).length = s.length + 1 := by
  induction s with
  | nil => simp [setInsert]
  | cons b s ih =>
    have hab : a ≠ b := fun h => ha (by simp [h])
    have has : a ∉ s := fun h => ha (by simp [h])
    unfold setInsert
    by_cases hlt : ptLt a b = true
    · rw [if_pos hlt]
      simp
    · rw [if_neg hlt, if_neg hab]
      simp only [List.length_cons, ih has]

/-- The option check passes exactly when both file names are given and the
two warm-core distances are not both nonzero. -/
theorem checkOptions_eq_none {K : Type} [LinearOrderedField K] (opt : DetectOptions K) :
    checkOptions opt = none ↔
      opt.strInputFile.length ≠ 0 ∧ opt.strOutputFile.length ≠ 0 ∧
        ¬ (opt.dWarmCoreDist ≠ 0 ∧ opt.dNoWarmCoreDist ≠ 0) := by
  unfold checkOptions
  by_cases h1 : opt.strInputFile.length = 0
  · simp [h1]
  · by_cases h2 : opt.strOutputFile.length = 0
    · simp [h1, h2]
    · by_cases h3 : opt.dWarmCoreDist ≠ 0 ∧ opt.dNoWarmCoreDist ≠ 0
      · rw [if_neg h1, if_neg h2, if_pos h3]
        simp [h3]
      · rw [if_neg h1, if_neg h2, if_neg h3]
        simp only [ne_eq, h1, not_false_eq_true, h2, h3, and_self]

/-- The option check always fails with an exception when both warm-core
distances are nonzero. -/
theorem checkOptions_both {K : Type} [LinearOrderedField K] (opt : DetectOptions K)
    (h : opt.dWarmCoreDist ≠ 0 ∧ opt.dNoWarmCoreDist ≠ 0) :
    ∃ msg, checkOptions opt = some (Failure.exception msg) := by
  unfold checkOptions
  by_cases h1 : opt.strInputFile.length = 0
  · exact ⟨_, if_pos h1⟩
  · by_cases h2 : opt.strOutputFile.length = 0
    · rw [if_neg h1, if_pos h2]
      exact ⟨_, rfl⟩
    · rw [if_neg h1, if_neg h2, if_pos h]
      exact ⟨_, rfl⟩

/-- With exactly one of the two warm-core distances nonzero, the two tests
either insert the minimum and leave the counters, or leave the set and add one
to exactly one counter. -/
theorem warmCoreDecide_exclusive {K : Type} [LinearOrderedField K] (opt : DetectOptions K)
    (hx : ¬ (opt.dWarmCoreDist ≠ 0 ∧ opt.dNoWarmCoreDist ≠ 0))
    (hy : opt.dWarmCoreDist ≠ 0 ∨ opt.dNoWarmCoreDist ≠ 0)
    (pr : Point) (d2 d5 : K) (st : WarmCoreState) :
    ((warmCoreDecide opt pr d2 d5 st).setNewPressureMinima =
          setInsert pr st.setNewPressureMinima ∧
        (warmCoreDecide opt pr d2 d5 st).nRejectedWarmCore = st.nRejectedWarmCore ∧
        (warmCoreDecide opt pr d2 d5 st).nRejectedNoWarmCore = st.nRejectedNoWarmCore) ∨
      ((warmCoreDecide opt pr d2 d5 st).setNewPressureMinima = st.setNewPressureMinima ∧
        (warmCoreDecide opt pr d2 d5 st).nRejectedWarmCore
            + (warmCoreDecide opt pr d2 d5 st).nRejectedNoWarmCore
          = st.nRejectedWarmCore + st.nRejectedNoWarmCore + 1) := by
  unfold warmCoreDecide
  by_cases hn : opt.dNoWarmCoreDist ≠ 0
  · have hw : ¬ opt.dWarmCoreDist ≠ 0 := fun h => hx ⟨h, hn⟩
    simp only [if_pos hn, if_neg hw]
    split
    · left; exact ⟨rfl, rfl, rfl⟩
    · right; refine ⟨rfl, ?_⟩; simp only; ring
  · have hw : opt.dWarmCoreDist ≠ 0 := hy.resolve_right hn
    simp only [if_neg hn, if_pos hw]
    split
    · left; exact ⟨rfl, rfl, rfl⟩
    · right; refine ⟨rfl, ?_⟩; simp only; ring

/-- With two indices that hold a point, the body of the loop over the
pressure minima applies the two tests to two distances. -/
theorem warmCoreStep_ok {K : Type} [LinearOrderedField K] (lib : LibM K)
    (opt : DetectOptions K) (dataLat dataLon : DataVector K) (t200 t500 : List (Vec3 K))
    (h2 : t200 ≠ []) (h5 : t500 ≠ []) (pr : Point) (st : WarmCoreState) :
    ∃ d2 d5, warmCoreStep lib opt dataLat dataLon t200 t500 pr st =
      Except.ok (warmCoreDecide opt pr d2 d5 st) := by
  unfold warmCoreStep
  simp only
  obtain ⟨p2, hp2, _⟩ := kd_nearest3_spec t200
    (lib.sin (dataLon.val pr.2) * lib.cos (dataLat.val pr.1))
    (lib.cos (dataLon.val pr.2) * lib.cos (dataLat.val pr.1)) (lib.sin (dataLat.val pr.1)) h2
  obtain ⟨p5, hp5, _⟩ := kd_nearest3_spec t500
    (lib.sin (dataLon.val pr.2) * lib.cos (dataLat.val pr.1))
    (lib.cos (dataLon.val pr.2) * lib.cos (dataLat.val pr.1)) (lib.sin (dataLat.val pr.1)) h5
  rw [hp2, hp5]
  exact ⟨_, _, rfl⟩

/-- The loop over the pressure minima, from any state: every minimum adds one
either to the size of the new set or to one of the two counters. -/
theorem warmCoreFold_partition {K : Type} [LinearOrderedField K] (lib : LibM K)
    (opt : DetectOptions K) (dataLat dataLon : DataVector K) (t200 t500 : List (Vec3 K))
    (hx : ¬ (opt.dWarmCoreDist ≠ 0 ∧ opt.dNoWarmCoreDist ≠ 0))
    (hy : opt.dWarmCoreDist ≠ 0 ∨ opt.dNoWarmCoreDist ≠ 0)
    (h2 : t200 ≠ []) (h5 : t500 ≠ []) (l : List Point) :
    ∀ st0 : WarmCoreState, l.Nodup → (∀ p ∈ l, p ∉ st0.setNewPressureMinima) →
      ∃ res,
        l.foldl
            (fun acc pr =>
              match acc with
              | Except.error e => Except.error e
              | Except.ok st => warmCoreStep lib opt dataLat dataLon t200 t500 pr st)
            (Except.ok st0) = Except.ok res ∧
          (∀ x ∈ res.setNewPressureMinima, x ∈ st0.setNewPressureMinima ∨ x ∈ l) ∧
          (res.setNewPressureMinima.length : Int) + res.nRejectedWarmCore
              + res.nRejectedNoWarmCore
            = (st0.setNewPressureMinima.length : Int) + st0.nRejectedWarmCore
              + st0.nRejectedNoWarmCore + (l.length : Int) := by
  induction l with
  | nil =>
    intro st0 _ _
    exact ⟨st0, rfl, fun x hx => Or.inl hx, by simp⟩
  | cons a l ih =>
    intro st0 hnd hfresh
    have hnd' := List.nodup_cons.1 hnd
    obtain ⟨d2, d5, hstep⟩ := warmCoreStep_ok lib opt dataLat dataLon t200 t500 h2 h5 a st0
    have ha : a ∉ st0.setNewPressureMinima := hfresh a (by simp)
    rw [List.foldl_cons]
    simp only
    rw [hstep]
    have hdec := warmCoreDecide_exclusive opt hx hy a d2 d5 st0
    have hfresh1 : ∀ p ∈ l, p ∉ (warmCoreDecide opt a d2 d5 st0).setNewPressureMinima := by
      intro p hp hmem
      rcases hdec with ⟨hs, _, _⟩ | ⟨hs, _⟩
      · rw [hs, mem_setInsert] at hmem
        rcases hmem with hmem | hmem
        · exact hnd'.1 (hmem ▸ hp)
        · exact hfresh p (by simp [hp]) hmem
      · rw [hs] at hmem
        exact hfresh p (by simp [hp]) hmem
    obtain ⟨res, hres, hsub, hcount⟩ := ih (warmCoreDecide opt a d2 d5 st0) hnd'.2 hfresh1
    refine ⟨res, hres, ?_, ?_⟩
    · intro x hxm
      rcases hsub x hxm with h | h
      · rcases hdec with ⟨hs, _, _⟩ | ⟨hs, _⟩
        · rw [hs, mem_setInsert] at h
          rcases h with h | h
          · right; simp [h]
          · left; exact h
        · rw [hs] at h
          left; exact h
      · right; simp [h]
    · rw [hcount]
      rcases hdec with ⟨hs, hw, hn⟩ | ⟨hs, hsum⟩
      · rw [hs, hw, hn, length_setInsert_of_not_mem a _ ha]
        simp only [List.length_cons]
        push_cast
        ring
      · rw [hs]
        simp only [List.length_cons]
        push_cast
        linarith

/-- C19: a configuration with `warmcoredist` and `nowarmcoredist` both nonzero
ends the run with an exception before any timestep is processed (no record is
written, whatever the input); a configuration in which one of the two is zero
does not raise the exception of that check, and passes the option checks when
both file names are given; and in a run that reaches the warm-core filter
(the option checks passed and one distance is nonzero), with two indices that
hold a point, the loop over a set of pressure minima completes, retains only
minima of the set, and the number retained plus the two rejection counters is
the number of minima: each one is retained once or counted once, never both. -/
theorem C19_exclusive_options {K : Type} [LinearOrderedField K] (lib : LibM K)
    (opt : DetectOptions K) (dataLat dataLon : DataVector K) (t200 t500 : List (Vec3 K))
    (minima : List Point) (hsorted : minima.Pairwise (fun x y => ptLt x y = true))
    (h2 : t200 ≠ []) (h5 : t500 ≠ []) :
    (opt.dWarmCoreDist ≠ 0 ∧ opt.dNoWarmCoreDist ≠ 0 →
        ∀ input : InputFile K, ∃ msg,
          runMain lib opt input = ([], some (RunFailure.raised (Failure.exception msg)))) ∧
      (opt.dWarmCoreDist = 0 ∨ opt.dNoWarmCoreDist = 0 →
        checkOptions opt ≠ some (Failure.exception
            "Only one of --warmcoredist and --nowarmcoredist may be active") ∧
          (opt.strInputFile.length ≠ 0 → opt.strOutputFile.length ≠ 0 →
            checkOptions opt = none)) ∧
      (checkOptions opt = none → (opt.dWarmCoreDist ≠ 0 ∨ opt.dNoWarmCoreDist ≠ 0) →
        ∃ res, warmCoreFilter lib opt dataLat dataLon t200 t500 minima = Except.ok res ∧
          (∀ x ∈ res.setNewPressureMinima, x ∈ minima) ∧
          (res.setNewPressureMinima.length : Int) + res.nRejectedWarmCore
              + res.nRejectedNoWarmCore = (minima.length : Int)) := by
  refine ⟨?_, ?_, ?_⟩
  · intro hb input
    obtain ⟨msg, hmsg⟩ := checkOptions_both opt hb
    refine ⟨msg, ?_⟩
    unfold runMain
    rw [hmsg]
  · intro hz
    have hnb : ¬ (opt.dWarmCoreDist ≠ 0 ∧ opt.dNoWarmCoreDist ≠ 0) := by
      rintro ⟨ha, hb⟩
      rcases hz with hz | hz
      · exact ha hz
      · exact hb hz
    constructor
    · unfold checkOptions
      by_cases h1 : opt.strInputFile.length = 0
      · rw [if_pos h1]
        intro h
        injection h with h
        injection h with h
        exact absurd h (by decide)
      · by_cases h2 : opt.strOutputFile.length = 0
        · rw [if_neg h1, if_pos h2]
          intro h
          injection h with h
          injection h with h
          exact absurd h (by decide)
        · rw [if_neg h1, if_neg h2, if_neg hnb]
          exact fun h => Option.noConfusion h
    · intro h1 h2
      exact (checkOptions_eq_none opt).2 ⟨h1, h2, hnb⟩
  · intro hc hy
    have hx := ((checkOptions_eq_none opt).1 hc).2.2
    obtain ⟨res, hres, hsub, hcount⟩ := warmCoreFold_partition lib opt dataLat dataLon t200 t500
      hx hy h2 h5 minima ⟨[], 0, 0⟩ (sorted_nodup minima hsorted) (fun _ _ h => by simp at h)
    refine ⟨res, hres, ?_, ?_⟩
    · intro x hxm
      rcases hsub x hxm with h | h
      · simp at h
      · exact h
    · rw [hcount]
      simp

theorem C19_exclusive_options_witness :
    (warmOptions.dWarmCoreDist ≠ 0 ∧ warmOptions.dNoWarmCoreDist ≠ 0 →
        ∀ input : InputFile ℝ, ∃ msg,
          runMain realLibM warmOptions input =
            ([], some (RunFailure.raised (Failure.exception msg)))) ∧
      (warmOptions.dWarmCoreDist = 0 ∨ warmOptions.dNoWarmCoreDist = 0 →
        checkOptions warmOptions ≠ some (Failure.exception
            "Only one of --warmcoredist and --nowarmcoredist may be active") ∧
          (warmOptions.strInputFile.length ≠ 0 → warmOptions.strOutputFile.length ≠ 0 →
            checkOptions warmOptions = none)) ∧
      (checkOptions warmOptions = none →
        (warmOptions.dWarmCoreDist ≠ 0 ∨ warmOptions.dNoWarmCoreDist ≠ 0) →
        ∃ res, warmCoreFilter realLibM warmOptions twoLat threeLon [(0, 0, 1)] [(0, 1, 0)]
              [(1, 0), (1, 1)] = Except.ok res ∧
          (∀ x ∈ res.setNewPressureMinima, x ∈ [((1, 0) : Point), (1, 1)]) ∧
          (res.setNewPressureMinima.length : Int) + res.nRejectedWarmCore
              + res.nRejectedNoWarmCore = (([((1, 0) : Point), (1, 1)]).length : Int)) :=
  C19_exclusive_options realLibM warmOptions twoLat threeLon [(0, 0, 1)] [(0, 1, 0)]
    [(1, 0), (1, 1)] (by decide) (List.cons_ne_nil _ _) (List.cons_ne_nil _ _)

/-- Once the wind search has failed, it stays failed. -/
theorem windSearch_error {K : Type} [LinearOrderedField K] (lib : LibM K)
    (opt : DetectOptions K) (dataUMag850 : DataMatrix K) (dataLon dataLat : DataVector K)
    (l : List Point) (e : RunFailure) :
    l.foldl
        (fun (acc : Except RunFailure (List K × List K)) pr =>
          match acc with
          | Except.error e => Except.error e
          | Except.ok vecs =>
            match FindLocalMaximum (libGreatCircle lib) dataUMag850 dataLon dataLat pr.1 pr.2
                opt.dWindSpDist ⟨(0, 0), 0, 0⟩ with
            | (out, none) => Except.ok (vecs.1 ++ [out.dMaxValue], vecs.2 ++ [out.dRMax])
            | (_, some f) => Except.error (RunFailure.raised f))
        (Except.error e) = Except.error e := by
  induction l with
  | nil => rfl
  | cons a l ih => simpa only [List.foldl_cons] using ih

/-- With a search distance above 180 the wind search fails at the first
pressure minimum. -/
theorem windSearch_above_180 {K : Type} [LinearOrderedField K] (lib : LibM K)
    (opt : DetectOptions K) (dataUMag850 : DataMatrix K) (dataLon dataLat : DataVector K)
    (minima : List Point) (h : opt.dWindSpDist > 180) (hm : minima ≠ []) :
    windSearch lib opt dataUMag850 dataLon dataLat minima =
      Except.error (RunFailure.raised (Failure.exception "MaxDist must be less than 180.0")) := by
  unfold windSearch
  cases minima with
  | nil => exact absurd rfl hm
  | cons a l =>
    rw [List.foldl_cons]
    have hf : FindLocalMaximum (libGreatCircle lib) dataUMag850 dataLon dataLat a.1 a.2
        opt.dWindSpDist ⟨(0, 0), 0, 0⟩ =
        (⟨(0, 0), 0, 0⟩, some (Failure.exception "MaxDist must be less than 180.0")) := by
      unfold FindLocalMaximum
      rw [if_pos h]
    simp only [hf]
    exact windSearch_error lib opt dataUMag850 dataLon dataLat l _

/-- A timestep without a pressure minimum is processed without a failure. -/
theorem processTimestep_no_minima {K : Type} [LinearOrderedField K] (lib : LibM K)
    (opt : DetectOptions K) (dataLat dataLon : DataVector K) (step : Timestep K)
    (h : FindAllLocalMinima ⟨dataLat.nRows, dataLon.nRows, step.dataPSL⟩ [] = []) :
    processTimestep lib opt dataLat dataLon step = Except.ok ⟨[], 0, 0, 0, [], []⟩ := by
  unfold processTimestep
  simp only [h]
  by_cases h1 : opt.dWarmCoreDist ≠ 0 ∨ opt.dNoWarmCoreDist ≠ 0
  · by_cases h2 : opt.dMinLaplacian ≠ 0
    · simp only [if_pos h1, if_pos h2, warmCoreFilter, laplacianFilter, windSearch,
        List.foldl_nil]
    · simp only [if_pos h1, if_neg h2, warmCoreFilter, laplacianFilter, windSearch,
        List.foldl_nil]
  · by_cases h2 : opt.dMinLaplacian ≠ 0
    · simp only [if_neg h1, if_pos h2, warmCoreFilter, laplacianFilter, windSearch,
        List.foldl_nil]
    · simp only [if_neg h1, if_neg h2, warmCoreFilter, laplacianFilter, windSearch,
        List.foldl_nil]

/-- A field with two rows has no interior row, so the scan reports nothing. -/
theorem no_minima_of_two_rows {V : Type} [LinearOrder V] (nLon : Nat) (f : Int → Int → V) :
    FindAllLocalMinima (⟨2, nLon, f⟩ : DataMatrix V) [] = [] := rfl

/-- C20 (counterexample): on a 2x3 grid (no interior row, hence no pressure
minimum) a run with `warmcoredist = 200` and `windspdist = 200`, and a run with
`nowarmcoredist = 200`, both end without any error and write the record of the
timestep. -/
theorem C20_counterexample :
    wideOptions.dWarmCoreDist > 180 ∧ wideOptions.dWindSpDist > 180 ∧
      wideColdOptions.dNoWarmCoreDist > 180 ∧
      runMain realLibM wideOptions twoRowInput = ([⟨[], 0, 0, 0, [], []⟩], none) ∧
      runMain realLibM wideColdOptions twoRowInput = ([⟨[], 0, 0, 0, [], []⟩], none) := by
  have e1 : ¬ ("in.nc".length = 0) := by decide
  have e2 : ¬ ("out.txt".length = 0) := by decide
  have hc : checkOptions wideOptions = none := by
    simp [checkOptions, wideOptions, e1, e2]
  have hc2 : checkOptions wideColdOptions = none := by
    simp [checkOptions, wideColdOptions, e1, e2]
  refine ⟨by simp only [wideOptions]; norm_num, by simp only [wideOptions]; norm_num,
    by simp only [wideColdOptions]; norm_num, ?_, ?_⟩
  · unfold runMain
    rw [hc]
    simp only [twoRowInput, runLoop]
    rw [processTimestep_no_minima _ _ _ _ _ (no_minima_of_two_rows _ _)]
    rfl
  · unfold runMain
    rw [hc2]
    simp only [twoRowInput, runLoop]
    rw [processTimestep_no_minima _ _ _ _ _ (no_minima_of_two_rows _ _)]
    rfl

/-- C20 (amended): with `windspdist` above 180 degrees, the wind search of a
timestep raises the error "MaxDist must be less than 180.0" when at least one
pressure minimum has survived the filters, and raises nothing when none has; a
timestep without a pressure minimum is processed without a failure; and the
option check compares no distance with 180: it passes exactly when both file
names are given and `warmcoredist`, `nowarmcoredist` are not both nonzero. -/
theorem C20_distance_checked_in_wind_search {K : Type} [LinearOrderedField K] (lib : LibM K)
    (opt : DetectOptions K) (dataUMag850 : DataMatrix K) (dataLon dataLat : DataVector K)
    (minima : List Point) (h : opt.dWindSpDist > 180) :
    (minima ≠ [] →
        windSearch lib opt dataUMag850 dataLon dataLat minima =
          Except.error
            (RunFailure.raised (Failure.exception "MaxDist must be less than 180.0"))) ∧
      windSearch lib opt dataUMag850 dataLon dataLat [] = Except.ok ([], []) ∧
      (∀ step : Timestep K,
        FindAllLocalMinima ⟨dataLat.nRows, dataLon.nRows, step.dataPSL⟩ [] = [] →
          processTimestep lib opt dataLat dataLon step = Except.ok ⟨[], 0, 0, 0, [], []⟩) ∧
      (checkOptions opt = none ↔
        opt.strInputFile.length ≠ 0 ∧ opt.strOutputFile.length ≠ 0 ∧
          ¬ (opt.dWarmCoreDist ≠ 0 ∧ opt.dNoWarmCoreDist ≠ 0)) :=
  ⟨windSearch_above_180 lib opt dataUMag850 dataLon dataLat minima h, rfl,
    fun step hs => processTimestep_no_minima lib opt dataLat dataLon step hs,
    checkOptions_eq_none opt⟩

theorem C20_distance_checked_in_wind_search_witness :
    ([((1, 0) : Point)] ≠ [] →
        windSearch realLibM wideOptions (zeroMatrix ℝ 3 3) (unitDegrees 3) (unitDegrees 3)
            [(1, 0)] =
          Except.error
            (RunFailure.raised (Failure.exception "MaxDist must be less than 180.0"))) ∧
      windSearch realLibM wideOptions (zeroMatrix ℝ 3 3) (unitDegrees 3) (unitDegrees 3) []
        = Except.ok ([], []) ∧
      (∀ step : Timestep ℝ,
        FindAllLocalMinima ⟨(unitDegrees 3).nRows, (unitDegrees 3).nRows, step.dataPSL⟩ [] = [] →
          processTimestep realLibM wideOptions (unitDegrees 3) (unitDegrees 3) step
            = Except.ok ⟨[], 0, 0, 0, [], []⟩) ∧
      (checkOptions wideOptions = none ↔
        wideOptions.strInputFile.length ≠ 0 ∧ wideOptions.strOutputFile.length ≠ 0 ∧
          ¬ (wideOptions.dWarmCoreDist ≠ 0 ∧ wideOptions.dNoWarmCoreDist ≠ 0)) :=
  C20_distance_checked_in_wind_search realLibM wideOptions (zeroMatrix ℝ 3 3) (unitDegrees 3)
    (unitDegrees 3) [(1, 0)] (by simp only [wideOptions]; norm_num)

/-! ## Further properties of the scans -/

/-- C21: for every field, no pair that `FindAllLocalMinima` or
`FindAllLocalMaxima` puts into an empty set lies in the first row (`j = 0`) or
the last row (`j = nLat - 1`), and with fewer than 3 rows both return the
empty set. -/
theorem C21_pole_rows_excluded {V : Type} [LinearOrder V] (data : DataMatrix V) :
    (∀ x ∈ FindAllLocalMinima data [], x.1 ≠ 0 ∧ x.1 ≠ (data.nRows : Int) - 1) ∧
      (∀ x ∈ FindAllLocalMaxima data [], x.1 ≠ 0 ∧ x.1 ≠ (data.nRows : Int) - 1) ∧
      (data.nRows < 3 →
        FindAllLocalMinima data [] = [] ∧ FindAllLocalMaxima data [] = []) := by
  refine ⟨?_, ?_, ?_⟩
  · intro x hx
    rw [mem_FindAllLocalMinima] at hx
    rcases hx with hx | ⟨h1, h2, _⟩
    · exact absurd hx (List.not_mem_nil _)
    · omega
  · intro x hx
    rw [mem_FindAllLocalMaxima] at hx
    rcases hx with hx | ⟨h1, h2, _⟩
    · exact absurd hx (List.not_mem_nil _)
    · omega
  · intro h3
    constructor
    · rw [List.eq_nil_iff_forall_not_mem]
      intro x hx
      rw [mem_FindAllLocalMinima] at hx
      rcases hx with hx | ⟨h1, h2, _⟩
      · exact absurd hx (List.not_mem_nil _)
      · omega
    · rw [List.eq_nil_iff_forall_not_mem]
      intro x hx
      rw [mem_FindAllLocalMaxima] at hx
      rcases hx with hx | ⟨h1, h2, _⟩
      · exact absurd hx (List.not_mem_nil _)
      · omega

/-- The flag of the maxima scan on a field is the flag of the minima scan on
the negated field. -/
theorem fMaximum_eq_fMinimum_neg {V : Type} [LinearOrderedAddCommGroup V] (data : DataMatrix V)
    (j i : Int) : fMaximum data j i = fMinimum (negateField data) j i := by
  unfold fMaximum fMinimum negateField
  simp only [gt_iff_lt, neg_lt_neg_iff]

/-- C27: for every field with values in an ordered group and every initial
content of the result set, `FindAllLocalMaxima` applied to the field returns
the same set as `FindAllLocalMinima` applied to the negated field. -/
theorem C27_maxima_dual_of_minima {V : Type} [LinearOrderedAddCommGroup V]
    (data : DataMatrix V) (s0 : List Point) :
    FindAllLocalMaxima data s0 = FindAllLocalMinima (negateField data) s0 := by
  unfold FindAllLocalMaxima FindAllLocalMinima
  simp only [fMaximum_eq_fMinimum_neg]
  rfl

/-! ## Termination of the breadth-first search -/

/-- A pass through the loop body never removes a node from the visited set. -/
theorem searchBody_visited_mono {V D : Type} [LinearOrder V] [LinearOrder D]
    (data : DataMatrix V) (dist : Point → D) (nLat nLon : Int) (dMaxDist : D)
    (pr : Point) (rest : List Point) (st : SearchState V D) :
    ∀ v ∈ st.setNodesVisited,
      v ∈ (searchBody data dist nLat nLon dMaxDist pr rest st).setNodesVisited := by
  intro v hv
  by_cases hold : pr ∈ st.setNodesVisited
  · rw [searchBody_seen data dist nLat nLon dMaxDist pr rest st hold]
    exact hv
  · by_cases hout : dMaxDist < dist pr
    · rw [searchBody_outside data dist nLat nLon dMaxDist pr rest st hold hout]
      exact (mem_setInsert _ _ _).2 (Or.inr hv)
    · rw [searchBody_expand data dist nLat nLon dMaxDist pr rest st hold (not_lt.1 hout)]
      exact (mem_setInsert _ _ _).2 (Or.inr hv)

/-- A pass through the loop body whose front node is not yet visited inserts
exactly that node into the visited set. -/
theorem searchBody_visited_new {V D : Type} [LinearOrder V] [LinearOrder D]
    (data : DataMatrix V) (dist : Point → D) (nLat nLon : Int) (dMaxDist : D)
    (pr : Point) (rest : List Point) (st : SearchState V D)
    (hnew : pr ∉ st.setNodesVisited) :
    (searchBody data dist nLat nLon dMaxDist pr rest st).setNodesVisited =
      setInsert pr st.setNodesVisited := by
  by_cases hout : dMaxDist < dist pr
  · rw [searchBody_outside data dist nLat nLon dMaxDist pr rest st hnew hout]
  · rw [searchBody_expand data dist nLat nLon dMaxDist pr rest st hnew (not_lt.1 hout)]

/-- A pass through the loop body pushes at most 4 nodes. -/
theorem searchBody_pushes_le {V D : Type} [LinearOrder V] [LinearOrder D]
    (data : DataMatrix V) (dist : Point → D) (nLat nLon : Int) (dMaxDist : D)
    (pr : Point) (rest : List Point) (st : SearchState V D) :
    ∃ pushed : List Point,
      (searchBody data dist nLat nLon dMaxDist pr rest st).queueNodes = rest ++ pushed ∧
        pushed.length ≤ 4 := by
  by_cases hold : pr ∈ st.setNodesVisited
  · rw [searchBody_seen data dist nLat nLon dMaxDist pr rest st hold]
    exact ⟨[], by simp, by simp⟩
  · by_cases hout : dMaxDist < dist pr
    · rw [searchBody_outside data dist nLat nLon dMaxDist pr rest st hold hout]
      exact ⟨[], by simp, by simp⟩
    · rw [searchBody_expand data dist nLat nLon dMaxDist pr rest st hold (not_lt.1 hout)]
      refine ⟨_, rfl, ?_⟩
      exact le_trans (List.length_filter_le _ _) (length_neighbours_le nLat nLon pr)

/-- C22: for an in-range seed (so `nLat, nLon ≥ 1`) and `dMaxDist ≤ 180`, the
loop of `FindLocalMaximum` stops with an empty queue within `4*nLat*nLon + 2`
passes and the call returns the outputs of the final state without raising.
In every pass, from any state: a front node already in the visited set leaves
the visited set and the outputs as they are and pushes nothing; a front node
not in it is inserted into the visited set (which never loses a node, so a node
is inserted and expanded at most once); at most 4 nodes are pushed; and the
quantity `4 * (unvisited nodes of the grid) + (queue length)` strictly
decreases, which bounds the number of passes although a node can be in the
queue several times. -/
theorem C22_search_terminates {V C D : Type} [LinearOrder V] [LinearOrderedRing D]
    (greatCircle : C → C → C → C → D) (data : DataMatrix V)
    (dataLon dataLat : DataVector C) (iLat iLon : Int) (dMaxDist : D)
    (out0 : MaxOutputs V D)
    (hg : InGrid (dataLat.nRows : Int) (dataLon.nRows : Int) (iLat, iLon))
    (h180 : dMaxDist ≤ 180) :
    (∃ st, searchRun greatCircle data dataLon dataLat iLat iLon dMaxDist = some st ∧
        st.queueNodes = [] ∧
        FindLocalMaximum greatCircle data dataLon dataLat iLat iLon dMaxDist out0 =
          (st.out, none)) ∧
      (∀ (dist : Point → D) (pr : Point) (rest : List Point) (st : SearchState V D),
        (pr ∈ st.setNodesVisited →
          searchBody data dist dataLat.nRows dataLon.nRows dMaxDist pr rest st =
            { st with queueNodes := rest }) ∧
        (pr ∉ st.setNodesVisited →
          (searchBody data dist dataLat.nRows dataLon.nRows dMaxDist pr rest st).setNodesVisited
            = setInsert pr st.setNodesVisited) ∧
        (∀ v ∈ st.setNodesVisited,
          v ∈ (searchBody data dist dataLat.nRows dataLon.nRows dMaxDist pr rest
            st).setNodesVisited) ∧
        (∃ pushed : List Point,
          (searchBody data dist dataLat.nRows dataLon.nRows dMaxDist pr rest st).queueNodes
            = rest ++ pushed ∧ pushed.length ≤ 4) ∧
        (st.queueNodes = pr :: rest →
          (∀ q ∈ st.queueNodes, InGrid (dataLat.nRows : Int) (dataLon.nRows : Int) q) →
          searchMeasure (gridRows dataLon.nRows dataLat.nRows)
              (searchBody data dist dataLat.nRows dataLon.nRows dMaxDist pr rest st)
            < searchMeasure (gridRows dataLon.nRows dataLat.nRows) st)) ∧
      (∀ out : MaxOutputs V D,
        searchMeasure (gridRows dataLon.nRows dataLat.nRows)
            ({ queueNodes := [(iLat, iLon)], setNodesVisited := [], out := out } :
              SearchState V D)
          < 4 * dataLat.nRows * dataLon.nRows + 2) := by
  refine ⟨?_, ?_, ?_⟩
  · obtain ⟨st, hst, hq⟩ :=
      searchRun_isSome greatCircle data dataLon dataLat iLat iLon dMaxDist hg
    exact ⟨st, hst, hq,
      FindLocalMaximum_of_run greatCircle data dataLon dataLat iLat iLon dMaxDist out0 st h180
        hst⟩
  · intro dist pr rest st
    refine ⟨?_, ?_, ?_, ?_, ?_⟩
    · exact searchBody_seen data dist _ _ dMaxDist pr rest st
    · exact searchBody_visited_new data dist _ _ dMaxDist pr rest st
    · exact searchBody_visited_mono data dist _ _ dMaxDist pr rest st
    · exact searchBody_pushes_le data dist _ _ dMaxDist pr rest st
    · intro hq hqg
      exact searchBody_measure data dist _ _ dMaxDist pr rest st _
        (fun p hp => (mem_gridRows _ _ p).2 hp) hq hqg
  · intro out
    exact searchMeasure_init _ _ _ _

theorem C22_search_terminates_witness :
    (∃ st, searchRun greatCircleDeg stepField quarterLon equatorLat 0 0 90 = some st ∧
        st.queueNodes = [] ∧
        FindLocalMaximum greatCircleDeg stepField quarterLon equatorLat 0 0 90 staleOutputs =
          (st.out, none)) ∧
      (searchBody stepField (fun _ => (0 : ℝ)) 1 2 90 (0, 0) []
          ⟨[(0, 0)], [], staleOutputs⟩).queueNodes = [(0, 1), (0, 1)] :=
  ⟨(C22_search_terminates greatCircleDeg stepField quarterLon equatorLat 0 0 90 staleOutputs
      (by decide) (by norm_num)).1,
    by
      rw [searchBody_expand stepField (fun _ => (0 : ℝ)) 1 2 90 (0, 0) []
        ⟨[(0, 0)], [], staleOutputs⟩ (by simp) (by norm_num)]
      simp only [List.nil_append]
      decide⟩

/-! ## The adjacency of the segmenter -/

/-- In a grid with at least one column, the nodes `(j, 0)` and `(j, nLon-1)`
of an in-range row are adjacent. -/
theorem segAdjacent_seam (nLat nLon j : Int) (hj0 : 0 ≤ j) (hj : j < nLat) (hn : 0 < nLon) :
    SegAdjacent nLat nLon (j, 0) (j, nLon - 1) := by
  refine ⟨hj0, hj, hj0, hj, Or.inr (Or.inl rfl), Or.inl ?_⟩
  show nLon - 1 = (0 - 1) % nLon
  rw [show (0 : Int) - 1 = nLon - 1 + -1 * nLon by ring, Int.add_mul_emod_self,
    Int.emod_eq_of_lt (by omega) (by omega)]

/-- C23: around an in-range node `pt` the flood fill looks up exactly the nodes
`x` with both rows in `[0, nLat)`, the row of `x` at most one away from the row
of `pt`, and the column of `x` equal to `(i + d) mod nLon` for a `d` in
`{-1, 0, 1}`; the flood fill runs to completion and two masked nodes `(j, 0)`
and `(j, nLon-1)` lie in the same blob; and for `nLat ≥ 3` no node of row 0 is
adjacent to a node of row `nLat - 1`. -/
theorem C23_segmenter_adjacency (mask : DataMatrix Int) (m : Int) :
    (∀ pt x : Point, InGrid (mask.nRows : Int) (mask.nCols : Int) pt →
      ((∃ o ∈ offsetPairs,
          wrappedNeighbour (mask.nRows : Int) (mask.nCols : Int) pt o.1 o.2 = some x) ↔
        (0 ≤ pt.1 ∧ pt.1 < (mask.nRows : Int) ∧ 0 ≤ x.1 ∧ x.1 < (mask.nRows : Int) ∧
          (x.1 = pt.1 - 1 ∨ x.1 = pt.1 ∨ x.1 = pt.1 + 1) ∧
          (x.2 = (pt.2 - 1) % (mask.nCols : Int) ∨ x.2 = pt.2 % (mask.nCols : Int) ∨
            x.2 = (pt.2 + 1) % (mask.nCols : Int))))) ∧
      (∃ st, extractBlobs mask m = some st ∧
        ∀ j : Int, Masked mask (j, 0) → Masked mask (j, (mask.nCols : Int) - 1) →
          ∃ B ∈ st.blobs, (j, 0) ∈ B ∧ (j, (mask.nCols : Int) - 1) ∈ B) ∧
      (3 ≤ mask.nRows → ∀ a b : Point, a.1 = 0 → b.1 = (mask.nRows : Int) - 1 →
        ¬ SegAdjacent (mask.nRows : Int) (mask.nCols : Int) a b ∧
          ¬ SegAdjacent (mask.nRows : Int) (mask.nCols : Int) b a) := by
  refine ⟨?_, ?_, ?_⟩
  · intro pt x hp
    exact wrappedNeighbour_iff _ _ pt x hp
  · obtain ⟨st, hst, inv, hempty⟩ := extractBlobs_spec mask m
    refine ⟨st, hst, ?_⟩
    intro j h0 h1
    obtain ⟨B, hB1, hB2⟩ := (inv.blob_cover (j, 0) h0).1 (by rw [hempty]; simp)
    refine ⟨B, hB1, hB2, ?_⟩
    obtain ⟨_, p, _, hpq⟩ := inv.blob_comp B hB1
    have hadj : SegAdjacent (mask.nRows : Int) (mask.nCols : Int) (j, 0)
        (j, (mask.nCols : Int) - 1) := by
      obtain ⟨g1, g2, g3, g4⟩ := h0.1
      exact segAdjacent_seam _ _ j g1 g2 (by simp only at g3 g4; omega)
    exact (hpq _).2 (Relation.ReflTransGen.tail ((hpq _).1 hB2) ⟨hadj, h1⟩)
  · intro h3 a b ha hb
    constructor
    · rintro ⟨_, _, _, _, hrow, _⟩
      omega
    · rintro ⟨_, _, _, _, hrow, _⟩
      omega

/-! ## Bounds of the stencil, the thresholds and the time loop of the tagger -/

/-- The stencil value is the weighted sum of the field over `stencilNodes`. -/
theorem stencilValue_eq_nodes {K : Type} [Field K] (w : StencilWeights K) (dIWV : DataMatrix K)
    (nLon k j i : Int) :
    stencilValue w dIWV nLon k j i =
      (List.zipWith (fun c (p : Point) => c * dIWV.val p.1 p.2)
        [w.dA, w.dB, w.dA, w.dC, w.dD, w.dC, w.dA, w.dB, w.dA]
        (stencilNodes nLon k j i)).sum := by
  unfold stencilValue stencilNodes
  simp only [List.zipWith_cons_cons, List.zipWith_nil_left, List.sum_cons, List.sum_nil]
  ring

/-- For a half-width `0 ≤ k ≤ nLon`, every node that the stencil reads at a
computed node lies inside the grid. -/
theorem stencilNodes_inGrid (nLat nLon k j i : Int) (hk0 : 0 ≤ k) (hk : k ≤ nLon)
    (hj1 : k ≤ j) (hj2 : j < nLat - k) (hi1 : 0 ≤ i) (hi2 : i < nLon) :
    ∀ p ∈ stencilNodes nLon k j i, InGrid nLat nLon p := by
  have hn : 0 < nLon := by omega
  have w0 : 0 ≤ Int.tmod (i + nLon - k) nLon ∧ Int.tmod (i + nLon - k) nLon < nLon := by
    rw [Int.tmod_eq_emod (by omega) (by omega)]
    exact ⟨Int.emod_nonneg _ (by omega), Int.emod_lt_of_pos _ hn⟩
  have w2 : 0 ≤ Int.tmod (i + k) nLon ∧ Int.tmod (i + k) nLon < nLon := by
    rw [Int.tmod_eq_emod (by omega) (by omega)]
    exact ⟨Int.emod_nonneg _ (by omega), Int.emod_lt_of_pos _ hn⟩
  intro p hp
  unfold stencilNodes at hp
  simp only [List.mem_cons, List.mem_singleton, List.not_mem_nil, or_false] at hp
  unfold InGrid
  rcases hp with rfl | rfl | rfl | rfl | rfl | rfl | rfl | rfl | rfl <;>
    simp only <;> omega

/-- C24 (the code at the failing input): on a non-regional grid of 7 latitudes
and 2 longitudes with half-width 3, the node (3, 0) is computed, and its
stencil value reads the west column `(0 + 2 - 3) % 2`, which is -1 in C++ (the
wrapped column `(0 - 3) mod 2` is 1): the nodes read include (0, -1), (3, -1)
and (6, -1), outside the grid. -/
theorem C24_west_column_out_of_range {K : Type} [LinearOrderedField K] (w : StencilWeights K)
    (dIWV L0 : DataMatrix K) :
    (computeLaplacian w dIWV 7 2 3 false L0).val 3 0 = stencilValue w dIWV 2 3 3 0 ∧
      stencilValue w dIWV 2 3 3 0 =
        w.dA * dIWV.val 0 (-1) + w.dB * dIWV.val 3 (-1) + w.dA * dIWV.val 6 (-1)
          + w.dC * dIWV.val 0 0 + w.dD * dIWV.val 3 0 + w.dC * dIWV.val 6 0
          + w.dA * dIWV.val 0 1 + w.dB * dIWV.val 3 1 + w.dA * dIWV.val 6 1 ∧
      stencilNodes 2 3 3 0 =
        [(0, -1), (3, -1), (6, -1), (0, 0), (3, 0), (6, 0), (0, 1), (3, 1), (6, 1)] ∧
      ¬ InGrid 7 2 (0, -1) ∧ ¬ InGrid 7 2 (3, -1) ∧ ¬ InGrid 7 2 (6, -1) ∧
      Int.tmod (0 + 2 - 3) 2 = -1 ∧ ((0 : Int) - 3) % 2 = 1 := by
  refine ⟨?_, ?_, by decide, by decide, by decide, by decide, by decide, by decide⟩
  · rw [computeLaplacian_val]
    exact if_pos (by decide)
  · have t0 : Int.tmod (0 + 2 - 3) 2 = -1 := by decide
    have t2 : Int.tmod (0 + 3) 2 = 1 := by decide
    have r0 : (3 : Int) - 3 = 0 := by decide
    have r2 : (3 : Int) + 3 = 6 := by decide
    unfold stencilValue
    simp only [t0, t2, r0, r2]

/-- The loop that accumulates a sum and a running maximum, in closed form. -/
theorem foldl_sum_max {K : Type} [LinearOrderedField K] (f : Int → K) (l : List Int) :
    ∀ a b : K,
      l.foldl (fun (s : K × K) i => (s.1 + f i, if f i > s.2 then f i else s.2)) (a, b) =
        (a + (l.map f).sum, l.foldl (fun m i => max m (f i)) b) := by
  induction l with
  | nil => intro a b; simp
  | cons x l ih =>
    intro a b
    simp only [List.foldl_cons, List.map_cons, List.sum_cons]
    have hmax : (if f x > b then f x else b) = max b (f x) := by
      by_cases h : f x > b
      · rw [if_pos h, max_eq_right (le_of_lt h)]
      · rw [if_neg h, max_eq_left (not_lt.1 h)]
    rw [hmax, ih]
    congr 1
    ring

/-- The zonal threshold of row `j` is the weighted sum of the mean and of the
maximum of the field over the `nLon` nodes of the row. -/
theorem zonalThreshold_eq {K : Type} [LinearOrderedField K] (dIWV : DataMatrix K) (nLon : Int)
    (wMean wMax : K) (j : Int) :
    zonalThreshold dIWV nLon wMean wMax j =
      wMean * rowMean dIWV nLon j + wMax * rowMax dIWV nLon j := by
  unfold zonalThreshold rowMean rowMax
  simp only [foldl_sum_max (fun i => dIWV.val j i), zero_add]

/-- The meridional threshold of column `i` as the code computes it: the sum of
the field over the `nLat` nodes of the column is divided by `nLon`. -/
theorem meridThreshold_eq {K : Type} [LinearOrderedField K] (dIWV : DataMatrix K)
    (nLat nLon : Int) (wMean wMax : K) (i : Int) :
    meridThreshold dIWV nLat nLon wMean wMax i =
      wMean * (((intRange 0 nLat).map (fun j => dIWV.val j i)).sum / (nLon : K))
        + wMax * columnMax dIWV nLat i := by
  unfold meridThreshold columnMax
  simp only [foldl_sum_max (fun j => dIWV.val j i), zero_add]

/-- C28 (the code at the failing input): on the field that is 1 at every node
of a grid of 2 latitudes and 4 longitudes, with the default weights 0.9 and
0.1, the meridional threshold of column 0 is `0.9 * (2/4) + 0.1 * 1 = 11/20`,
while `0.9 * mean + 0.1 * max` over the column is 1; the zonal threshold of
row 0 with the default weights 0.7 and 0.3 is 1, the weighted sum of the mean
and the maximum of the row. -/
theorem C28_meridional_mean_divisor :
    meridThreshold onesField 2 4 (9 / 10) (1 / 10) 0 = 11 / 20 ∧
      (9 / 10) * columnMean onesField 2 0 + (1 / 10) * columnMax onesField 2 0 = 1 ∧
      zonalThreshold onesField 4 (7 / 10) (3 / 10) 0 = 1 ∧
      (7 / 10) * rowMean onesField 4 0 + (3 / 10) * rowMax onesField 4 0 = 1 := by
  have e2 : intRange 0 2 = [0, 1] := by decide
  have e4 : intRange 0 4 = [0, 1, 2, 3] := by decide
  refine ⟨?_, ?_, ?_, ?_⟩
  · simp only [meridThreshold, e2, List.foldl, onesField]
    norm_num
  · simp only [columnMean, columnMax, e2, List.foldl, List.map, List.sum_cons, List.sum_nil,
      onesField]
    norm_num
  · simp only [zonalThreshold, e4, List.foldl, onesField]
    norm_num
  · simp only [rowMean, rowMax, e4, List.foldl, List.map, List.sum_cons, List.sum_nil,
      onesField]
    norm_num

/-- Two matrices with the same size and the same entries are equal. -/
theorem DataMatrix.eq_of_val {V : Type} (m m' : DataMatrix V) (h1 : m.nRows = m'.nRows)
    (h2 : m.nCols = m'.nCols) (h3 : ∀ a b, m.val a b = m'.val a b) : m = m' := by
  cases m with
  | mk r c v =>
    cases m' with
    | mk r' c' v' =>
      simp only at h1 h2 h3
      subst h1
      subst h2
      have : v = v' := funext fun a => funext fun b => h3 a b
      subst this
      rfl

/-- A double loop whose body keeps the size of the matrix keeps the size. -/
theorem foldl_grid_dims {V : Type} (rows cols : List Int)
    (step : Int → Int → DataMatrix V → DataMatrix V)
    (hstep : ∀ (j i : Int) (m : DataMatrix V),
      (step j i m).nRows = m.nRows ∧ (step j i m).nCols = m.nCols)
    (m0 : DataMatrix V) :
    (rows.foldl (fun m j => cols.foldl (fun m i => step j i m) m) m0).nRows = m0.nRows ∧
      (rows.foldl (fun m j => cols.foldl (fun m i => step j i m) m) m0).nCols = m0.nCols := by
  have inner : ∀ (j : Int) (cs : List Int) (m : DataMatrix V),
      (cs.foldl (fun m i => step j i m) m).nRows = m.nRows ∧
        (cs.foldl (fun m i => step j i m) m).nCols = m.nCols := by
    intro j cs
    induction cs with
    | nil => intro m; exact ⟨rfl, rfl⟩
    | cons c cs ih =>
      intro m
      simp only [List.foldl_cons]
      exact ⟨(ih _).1.trans (hstep j c m).1, (ih _).2.trans (hstep j c m).2⟩
  induction rows generalizing m0 with
  | nil => exact ⟨rfl, rfl⟩
  | cons r rs ih =>
    simp only [List.foldl_cons]
    exact ⟨(ih _).1.trans (inner r cols m0).1, (ih _).2.trans (inner r cols m0).2⟩

section TaggerLoop

variable {K : Type} [LinearOrderedField K]

theorem laplacianArray_dims (M_PI : K) (opt : TaggerOptions K) (dLonDeg dLatDeg : DataVector K)
    (dIWV L : DataMatrix K) :
    (laplacianArray M_PI opt dLonDeg dLatDeg dIWV L).nRows = L.nRows ∧
      (laplacianArray M_PI opt dLonDeg dLatDeg dIWV L).nCols = L.nCols := by
  unfold laplacianArray computeLaplacian
  exact foldl_grid_dims _ _ (fun j i m => m.set j i _) (fun _ _ _ => ⟨rfl, rfl⟩) L

theorem tagNode_dims (opt : TaggerOptions K) (dLatDeg : DataVector K)
    (dIWV L : DataMatrix K) (nLat nLon j i : Int) (t : DataMatrix Int) :
    (tagNode opt dLatDeg dIWV L nLat nLon j i t).nRows = t.nRows ∧
      (tagNode opt dLatDeg dIWV L nLat nLon j i t).nCols = t.nCols := by
  unfold tagNode
  split_ifs <;> exact ⟨rfl, rfl⟩

theorem tagArray_dims (M_PI : K) (opt : TaggerOptions K) (dLonDeg dLatDeg : DataVector K)
    (dIWV L : DataMatrix K) (T : DataMatrix Int) :
    (tagArray M_PI opt dLonDeg dLatDeg dIWV L T).nRows = T.nRows ∧
      (tagArray M_PI opt dLonDeg dLatDeg dIWV L T).nCols = T.nCols := by
  unfold tagArray buildTags
  simp only
  exact foldl_grid_dims _ _
    (fun j i t => tagNode opt dLatDeg dIWV
      (laplacianArray M_PI opt dLonDeg dLatDeg dIWV L) dLatDeg.nRows dLonDeg.nRows j i t)
    (fun j i m => tagNode_dims opt dLatDeg dIWV _ _ _ j i m) T.Zero

/-- The blob filter always returns, with a matrix of the same size. -/
theorem blobFilter_dims (mask : DataMatrix Int) (nMinArea : Int) :
    ∃ t, blobFilter mask nMinArea = some t ∧ t.nRows = mask.nRows ∧ t.nCols = mask.nCols := by
  unfold blobFilter
  by_cases hm : nMinArea > 0
  · obtain ⟨st, hst, inv, _⟩ := extractBlobs_spec mask nMinArea
    rw [if_pos hm, hst]
    exact ⟨st.dIWVtag, rfl, inv.rows, inv.cols⟩
  · rw [if_neg hm]
    exact ⟨mask, rfl, rfl, rfl⟩

/-- The nodes at which the stencil loops write `dLaplacian`. -/
theorem laplacianArray_val (M_PI : K) (opt : TaggerOptions K) (dLonDeg dLatDeg : DataVector K)
    (dIWV L : DataMatrix K) (a b : Int) :
    (laplacianArray M_PI opt dLonDeg dLatDeg dIWV L).val a b =
      if (opt.iLaplacianSize ≤ a ∧ a < (dLatDeg.nRows : Int) - opt.iLaplacianSize) ∧
          ((if opt.fRegional then opt.iLaplacianSize else 0) ≤ b ∧
            b < (if opt.fRegional then (dLonDeg.nRows : Int) - opt.iLaplacianSize
                  else (dLonDeg.nRows : Int)))
      then stencilValue
          (laplacianWeights (stencilSpacingSq M_PI dLonDeg opt.iLaplacianSize)
            (stencilSpacingSq M_PI dLatDeg opt.iLaplacianSize))
          dIWV dLonDeg.nRows opt.iLaplacianSize a b
      else L.val a b := by
  unfold laplacianArray
  exact computeLaplacian_val _ _ _ _ _ _ _ _ _

/-- The array `dLaplacian` after a pass depends on the array before the pass
only through its size and its content at the nodes the stencil loops do not
write; the tag array depends on the array before the pass only through its
size. -/
theorem tagTimestep_congr (M_PI : K) (opt : TaggerOptions K) (dLonDeg dLatDeg : DataVector K)
    (dIWV L0 L : DataMatrix K) (T0 T : DataMatrix Int)
    (inv : CarryInv opt dLonDeg dLatDeg L0 T0 L T) :
    tagTimestep M_PI opt dLonDeg dLatDeg dIWV L T =
      tagTimestep M_PI opt dLonDeg dLatDeg dIWV L0 T0 := by
  have hL : laplacianArray M_PI opt dLonDeg dLatDeg dIWV L =
      laplacianArray M_PI opt dLonDeg dLatDeg dIWV L0 := by
    apply DataMatrix.eq_of_val
    · rw [(laplacianArray_dims M_PI opt dLonDeg dLatDeg dIWV L).1,
        (laplacianArray_dims M_PI opt dLonDeg dLatDeg dIWV L0).1, inv.rowsL]
    · rw [(laplacianArray_dims M_PI opt dLonDeg dLatDeg dIWV L).2,
        (laplacianArray_dims M_PI opt dLonDeg dLatDeg dIWV L0).2, inv.colsL]
    · intro a b
      rw [laplacianArray_val, laplacianArray_val]
      by_cases h :
          (opt.iLaplacianSize ≤ a ∧ a < (dLatDeg.nRows : Int) - opt.iLaplacianSize) ∧
            ((if opt.fRegional then opt.iLaplacianSize else 0) ≤ b ∧
              b < (if opt.fRegional then (dLonDeg.nRows : Int) - opt.iLaplacianSize
                    else (dLonDeg.nRows : Int)))
      · rw [if_pos h, if_pos h]
      · rw [if_neg h, if_neg h]
        exact inv.untouched a b h
  have hT : T.Zero = T0.Zero :=
    DataMatrix.eq_of_val _ _ inv.rowsT inv.colsT (fun _ _ => rfl)
  unfold tagTimestep tagArray
  simp only [hL, hT]

/-- The arrays allocated before the loop satisfy the invariant. -/
theorem carryInv_init (opt : TaggerOptions K) (dLonDeg dLatDeg : DataVector K)
    (L0 : DataMatrix K) (T0 : DataMatrix Int) : CarryInv opt dLonDeg dLatDeg L0 T0 L0 T0 :=
  ⟨rfl, rfl, rfl, rfl, fun _ _ _ => rfl⟩

/-- A pass of the time loop keeps the invariant. -/
theorem carryInv_step (M_PI : K) (opt : TaggerOptions K) (dLonDeg dLatDeg : DataVector K)
    (dIWV L0 L : DataMatrix K) (T0 T : DataMatrix Int)
    (inv : CarryInv opt dLonDeg dLatDeg L0 T0 L T) :
    CarryInv opt dLonDeg dLatDeg L0 T0
      (tagTimestep M_PI opt dLonDeg dLatDeg dIWV L T).1
      ((tagTimestep M_PI opt dLonDeg dLatDeg dIWV L T).2.getD T) := by
  obtain ⟨t, ht, hr, hc⟩ :=
    blobFilter_dims (tagArray M_PI opt dLonDeg dLatDeg dIWV L T) opt.nMinArea
  have e2 : (tagTimestep M_PI opt dLonDeg dLatDeg dIWV L T).2 = some t := ht
  have e1 : (tagTimestep M_PI opt dLonDeg dLatDeg dIWV L T).1 =
      laplacianArray M_PI opt dLonDeg dLatDeg dIWV L := rfl
  rw [e1, e2, Option.getD_some]
  refine ⟨?_, ?_, ?_, ?_, ?_⟩
  · rw [(laplacianArray_dims M_PI opt dLonDeg dLatDeg dIWV L).1, inv.rowsL]
  · rw [(laplacianArray_dims M_PI opt dLonDeg dLatDeg dIWV L).2, inv.colsL]
  · rw [hr, (tagArray_dims M_PI opt dLonDeg dLatDeg dIWV L T).1, inv.rowsT]
  · rw [hc, (tagArray_dims M_PI opt dLonDeg dLatDeg dIWV L T).2, inv.colsT]
  · intro a b h
    rw [laplacianArray_val, if_neg h]
    exact inv.untouched a b h

/-- The pair written for the last timestep of a run is the pair that the pass
computes from the arrays as allocated, whatever the earlier timesteps were. -/
theorem tagLoop_last (M_PI : K) (opt : TaggerOptions K) (dLonDeg dLatDeg : DataVector K)
    (L0 : DataMatrix K) (T0 : DataMatrix Int) (cur : DataMatrix K)
    (earlier : List (DataMatrix K)) :
    ∀ (L : DataMatrix K) (T : DataMatrix Int), CarryInv opt dLonDeg dLatDeg L0 T0 L T →
      (tagLoop M_PI opt dLonDeg dLatDeg (earlier ++ [cur]) L T).getLast? =
        some (tagTimestep M_PI opt dLonDeg dLatDeg cur L0 T0) := by
  induction earlier with
  | nil =>
    intro L T inv
    simp only [List.nil_append, tagLoop, List.getLast?_singleton]
    rw [tagTimestep_congr M_PI opt dLonDeg dLatDeg cur L0 L T0 T inv]
  | cons d rest ih =>
    intro L T inv
    have hstep := carryInv_step M_PI opt dLonDeg dLatDeg d L0 L T0 T inv
    have hrec := ih _ _ hstep
    have hne : ∃ y ys, tagLoop M_PI opt dLonDeg dLatDeg (rest ++ [cur])
        (tagTimestep M_PI opt dLonDeg dLatDeg d L T).1
        ((tagTimestep M_PI opt dLonDeg dLatDeg d L T).2.getD T) = y :: ys := by
      cases rest with
      | nil => exact ⟨_, _, rfl⟩
      | cons r rs => exact ⟨_, _, rfl⟩
    obtain ⟨y, ys, hy⟩ := hne
    show (tagTimestep M_PI opt dLonDeg dLatDeg d L T ::
      tagLoop M_PI opt dLonDeg dLatDeg (rest ++ [cur])
        (tagTimestep M_PI opt dLonDeg dLatDeg d L T).1
        ((tagTimestep M_PI opt dLonDeg dLatDeg d L T).2.getD T)).getLast? = _
    rw [hy, List.getLast?_cons_cons, ← hy]
    exact hrec

end TaggerLoop

/-- C26: the pair (Laplacian array, tag mask) written for the current timestep
is the same in any two runs that start from the same allocated arrays, with the
same coordinates and configuration, and differ only in the fields of the
earlier timesteps; it is the pair that the pass computes from the arrays as
allocated, and its tag mask exists (the blob filter returns). -/
theorem C26_no_leak_between_timesteps {K : Type} [LinearOrderedField K] (M_PI : K)
    (opt : TaggerOptions K) (dLonDeg dLatDeg : DataVector K) (L0 : DataMatrix K)
    (T0 : DataMatrix Int) (cur : DataMatrix K) (earlier earlier' : List (DataMatrix K)) :
    (tagLoop M_PI opt dLonDeg dLatDeg (earlier ++ [cur]) L0 T0).getLast? =
        (tagLoop M_PI opt dLonDeg dLatDeg (earlier' ++ [cur]) L0 T0).getLast? ∧
      (tagLoop M_PI opt dLonDeg dLatDeg (earlier ++ [cur]) L0 T0).getLast? =
        some (tagTimestep M_PI opt dLonDeg dLatDeg cur L0 T0) ∧
      ∃ t, (tagTimestep M_PI opt dLonDeg dLatDeg cur L0 T0).2 = some t := by
  have h1 := tagLoop_last M_PI opt dLonDeg dLatDeg L0 T0 cur earlier L0 T0
    (carryInv_init opt dLonDeg dLatDeg L0 T0)
  have h2 := tagLoop_last M_PI opt dLonDeg dLatDeg L0 T0 cur earlier' L0 T0
    (carryInv_init opt dLonDeg dLatDeg L0 T0)
  refine ⟨h1.trans h2.symm, h1, ?_⟩
  obtain ⟨t, ht, _⟩ :=
    blobFilter_dims (tagArray M_PI opt dLonDeg dLatDeg cur L0 T0) opt.nMinArea
  exact ⟨t, ht⟩

/-! ## The chord distance of the matcher and the great-circle distance -/

/-- The cosine of the angle between two embedded points. -/
theorem chord_identity (lat0 lon0 lat1 lon1 : ℝ) :
    (Real.sin lon0 * Real.cos lat0 - Real.sin lon1 * Real.cos lat1)
          * (Real.sin lon0 * Real.cos lat0 - Real.sin lon1 * Real.cos lat1)
        + (Real.cos lon0 * Real.cos lat0 - Real.cos lon1 * Real.cos lat1)
          * (Real.cos lon0 * Real.cos lat0 - Real.cos lon1 * Real.cos lat1)
        + (Real.sin lat0 - Real.sin lat1) * (Real.sin lat0 - Real.sin lat1)
      = 2 - 2 * (Real.sin lat0 * Real.sin lat1
          + Real.cos lat0 * Real.cos lat1 * Real.cos (lon1 - lon0)) := by
  have a0 := Real.sin_sq_add_cos_sq lon0
  have a1 := Real.sin_sq_add_cos_sq lon1
  have b0 := Real.sin_sq_add_cos_sq lat0
  have b1 := Real.sin_sq_add_cos_sq lat1
  rw [Real.cos_sub]
  linear_combination (Real.cos lat0) ^ 2 * a0 + (Real.cos lat1) ^ 2 * a1 + b0 + b1

/-- The cosine of the angle between two embedded points lies in `[-1, 1]`. -/
theorem dot_bounds (lat0 lon0 lat1 lon1 : ℝ) :
    -1 ≤ Real.sin lat0 * Real.sin lat1
        + Real.cos lat0 * Real.cos lat1 * Real.cos (lon1 - lon0) ∧
      Real.sin lat0 * Real.sin lat1
        + Real.cos lat0 * Real.cos lat1 * Real.cos (lon1 - lon0) ≤ 1 := by
  have a0 := Real.sin_sq_add_cos_sq lon0
  have a1 := Real.sin_sq_add_cos_sq lon1
  have b0 := Real.sin_sq_add_cos_sq lat0
  have b1 := Real.sin_sq_add_cos_sq lat1
  have hminus := chord_identity lat0 lon0 lat1 lon1
  have hplus :
      (Real.sin lon0 * Real.cos lat0 + Real.sin lon1 * Real.cos lat1)
            * (Real.sin lon0 * Real.cos lat0 + Real.sin lon1 * Real.cos lat1)
          + (Real.cos lon0 * Real.cos lat0 + Real.cos lon1 * Real.cos lat1)
            * (Real.cos lon0 * Real.cos lat0 + Real.cos lon1 * Real.cos lat1)
          + (Real.sin lat0 + Real.sin lat1) * (Real.sin lat0 + Real.sin lat1)
        = 2 + 2 * (Real.sin lat0 * Real.sin lat1
            + Real.cos lat0 * Real.cos lat1 * Real.cos (lon1 - lon0)) := by
    rw [Real.cos_sub]
    linear_combination (Real.cos lat0) ^ 2 * a0 + (Real.cos lat1) ^ 2 * a1 + b0 + b1
  constructor
  · nlinarith [mul_self_nonneg (Real.sin lon0 * Real.cos lat0 + Real.sin lon1 * Real.cos lat1),
      mul_self_nonneg (Real.cos lon0 * Real.cos lat0 + Real.cos lon1 * Real.cos lat1),
      mul_self_nonneg (Real.sin lat0 + Real.sin lat1)]
  · nlinarith [mul_self_nonneg (Real.sin lon0 * Real.cos lat0 - Real.sin lon1 * Real.cos lat1),
      mul_self_nonneg (Real.cos lon0 * Real.cos lat0 - Real.cos lon1 * Real.cos lat1),
      mul_self_nonneg (Real.sin lat0 - Real.sin lat1)]

/-- The conversion of a chord to an arc: `2 * arcsin (sqrt (2 - 2 D) / 2)` is
`arccos D` for `D` in `[-1, 1]`. -/
theorem two_arcsin_half_chord (D : ℝ) (h1 : -1 ≤ D) (h2 : D ≤ 1) :
    2 * Real.arcsin (0.5 * Real.sqrt (2 - 2 * D)) = Real.arccos D := by
  have hθ0 := Real.arccos_nonneg D
  have hθ1 := Real.arccos_le_pi D
  have hpi := Real.pi_pos
  have hcos : Real.cos (Real.arccos D) = D := Real.cos_arccos h1 h2
  have hhalf : Real.sin (Real.arccos D / 2) = Real.sqrt ((1 - D) / 2) := by
    rw [Real.sin_half_eq_sqrt hθ0 (by linarith), hcos]
  have h4 : Real.sqrt 4 = 2 := by
    rw [show (4 : ℝ) = 2 ^ 2 by norm_num, Real.sqrt_sq (by norm_num)]
  have hsqrt : (0.5 : ℝ) * Real.sqrt (2 - 2 * D) = Real.sqrt ((1 - D) / 2) := by
    rw [show 2 - 2 * D = 4 * ((1 - D) / 2) by ring, Real.sqrt_mul (by norm_num), h4,
      show (0.5 : ℝ) = 1 / 2 by norm_num]
    ring
  rw [hsqrt, ← hhalf, Real.arcsin_sin (by linarith) (by linarith)]
  ring

/-- C25: over the real numbers, for every pair of points `(lat0, lon0)`,
`(lat1, lon1)`, the embedding `(sin(lon)cos(lat), cos(lon)cos(lat), sin(lat))`
of each point has unit norm, and the angular distance that the matcher computes
from the chord between the two embedded points (`2 * asin(0.5 * c) * 180 /
M_PI`) equals the great-circle distance of `FindLocalMaximum`,
`180/M_PI * acos(sin(lat0)sin(lat1) + cos(lat0)cos(lat1)cos(lon1 - lon0))`. -/
theorem C25_chord_distance_is_great_circle (lat0 lon0 lat1 lon1 : ℝ) :
    (embed realLibM lat0 lon0).1 * (embed realLibM lat0 lon0).1
        + (embed realLibM lat0 lon0).2.1 * (embed realLibM lat0 lon0).2.1
        + (embed realLibM lat0 lon0).2.2 * (embed realLibM lat0 lon0).2.2 = 1 ∧
      angularDist realLibM (embed realLibM lat0 lon0) (embed realLibM lat1 lon1) =
        greatCircleDeg lat0 lon0 lat1 lon1 ∧
      libGreatCircle realLibM lat0 lon0 lat1 lon1 = greatCircleDeg lat0 lon0 lat1 lon1 := by
  refine ⟨?_, ?_, rfl⟩
  · have a0 := Real.sin_sq_add_cos_sq lon0
    have b0 := Real.sin_sq_add_cos_sq lat0
    simp only [embed, realLibM]
    linear_combination (Real.cos lat0) ^ 2 * a0 + b0
  · obtain ⟨h1, h2⟩ := dot_bounds lat0 lon0 lat1 lon1
    have key := two_arcsin_half_chord _ h1 h2
    simp only [angularDist, embed, realLibM, greatCircleDeg]
    rw [chord_identity, ← key]
    ring

/-! ## The distance in double precision -/

section ComputedDistance

variable {V D : Type} [LinearOrder V] [LinearOrderedRing D]

end ComputedDistance

end Tempest
